import Mathlib

/-!
# Workflow controller: dispatch loop and recent-completions record

A shallow embedding of `workflow/controller/controller.go` (dispatch loop, recent-completions
record, informer event handlers, offload garbage collection, lock capacities, semaphore
updates), `workflow/controller/exit_handler.go` (exit hooks) and
`pkg/apiclient/offline-client.go` (the offline client).

* Instants (`time.Time`) and durations (`time.Duration`) are integers counting
  nanoseconds; `t.After(u)` is `t > u` and `t.Add(d)` is `t + d`.
* Go slices are lists, `s[i:]` is `List.drop i`.
* Every `time.Now()` of the source is an explicit clock reading passed as an argument.
* Calls on the recent-completions record are sequential (each runs to its end before the next).
* Calls into code outside `controller.go` (work queue, key lock, informer, throttler, hydrator,
  operation context) are recorded as a trace of `Action`s; what they return is an input (`Env`).
  The exit handler does the same with `ExitCall` and `ExitEnv`.
* A Go `error` is its message; `none` is `nil`. A panic of an unchecked type assertion is the
  result `none` of the function.
-/

namespace Argo

/-! ## RecentCompletions -/

/-- Go `time.Second`, in nanoseconds. -/
def second : Int := 1000000000

/-- Go `time.Minute`, in nanoseconds. -/
def minute : Int := 60 * second

/-- The source constant `maxCompletedStoreTime = time.Second * -600` (10 minutes in the past). -/
def maxCompletedStoreTime : Int := second * (-600)

/-- The source struct `recentlyCompletedWorkflow`. -/
structure recentlyCompletedWorkflow where
  key : String
  when : Int
deriving DecidableEq, Repr

/-- The `for i, val := range completions` loop of `cleanCompletedWorkflowsRecord`, started at
index `i`: the value `removeIndex` holds when the loop is left (`-1` when no entry is after the
cutoff, `i - 1` at the first entry `i` that is). -/
def removeIndexFrom (cutoff : Int) : List recentlyCompletedWorkflow → Nat → Int
  | [], _ => -1
  | val :: rest, i =>
    if val.when > cutoff then (i : Int) - 1 else removeIndexFrom cutoff rest (i + 1)

/-- The source function `cleanCompletedWorkflowsRecord`, with `now` the reading of `time.Now()`:
the completions list it leaves. -/
def cleanCompletedWorkflowsRecord (now : Int) (completions : List recentlyCompletedWorkflow) :
    List recentlyCompletedWorkflow :=
  let cutoff := now + maxCompletedStoreTime
  let removeIndex := removeIndexFrom cutoff completions 0
  if removeIndex ≥ 0 then completions.drop (removeIndex + 1).toNat else completions

/-- The lookup loop of `checkRecentlyCompleted`: is some entry recorded under `key`? -/
def hasKey (key : String) : List recentlyCompletedWorkflow → Bool
  | [] => false
  | val :: rest => if val.key = key then true else hasKey key rest

/-- The source function `checkRecentlyCompleted`: expiry cleanup at clock reading `now`, then the
lookup. Returns the answer and the completions list it leaves. -/
def checkRecentlyCompleted (now : Int) (key : String)
    (completions : List recentlyCompletedWorkflow) : Bool × List recentlyCompletedWorkflow :=
  let cleaned := cleanCompletedWorkflowsRecord now completions
  (hasKey key cleaned, cleaned)

/-- The source function `recordCompletedWorkflow`. It reads the clock twice: `nowCheck` inside
`checkRecentlyCompleted` and `nowAppend` for the time stamp of the appended entry. -/
def recordCompletedWorkflow (nowCheck nowAppend : Int) (key : String)
    (completions : List recentlyCompletedWorkflow) : List recentlyCompletedWorkflow :=
  let r := checkRecentlyCompleted nowCheck key completions
  if !r.1 then r.2 ++ [{ key := key, when := nowAppend }] else r.2

/-- One sequential call on the recent-completions record, with its clock readings. -/
inductive CompletionOp where
  | record (key : String) (nowCheck nowAppend : Int)
  | check (key : String) (now : Int)
  | clean (now : Int)
deriving DecidableEq, Repr

/-- The clock readings a call makes, in the order it makes them. -/
def CompletionOp.readings : CompletionOp → List Int
  | .record _ nowCheck nowAppend => [nowCheck, nowAppend]
  | .check _ now => [now]
  | .clean now => [now]

/-- The completions list one call leaves. -/
def CompletionOp.apply (completions : List recentlyCompletedWorkflow) :
    CompletionOp → List recentlyCompletedWorkflow
  | .record key nowCheck nowAppend => recordCompletedWorkflow nowCheck nowAppend key completions
  | .check key now => (checkRecentlyCompleted now key completions).2
  | .clean now => cleanCompletedWorkflowsRecord now completions

/-- The completions list a sequence of calls leaves. -/
def runCompletionOps (completions : List recentlyCompletedWorkflow) (ops : List CompletionOp) :
    List recentlyCompletedWorkflow :=
  ops.foldl CompletionOp.apply completions

/-- All clock readings of a sequence of calls, in order. -/
def clockReadings (ops : List CompletionOp) : List Int :=
  ops.flatMap CompletionOp.readings

/-- The clock is non-decreasing over a list of readings. -/
def NonDecreasing (readings : List Int) : Prop :=
  readings.Pairwise (· ≤ ·)

instance (readings : List Int) : Decidable (NonDecreasing readings) := by
  unfold NonDecreasing
  infer_instance

/-! ## Objects of the informer cache -/

/-- The part of `metav1.Object` the controller reads: namespace, name, the label map (a Go
`map[string]string`, as an association list) and the finalizers. -/
structure ObjectMeta where
  Namespace : String := ""
  Name : String := ""
  Labels : List (String × String) := []
  Finalizers : List String := []
deriving DecidableEq, Repr

/-- Go map indexing `m[key]` on a `map[string]string`: the value stored under `key`, and the
empty string when there is none. -/
def mapIndex : List (String × String) → String → String
  | [], _ => ""
  | (k, v) :: rest, key => if k = key then v else mapIndex rest key

/-- The constant `common.LabelKeyCompleted` (package workflow/common, not under src/). -/
def LabelKeyCompleted : String := "workflows.argoproj.io/completed"

/-- The constant `common.FinalizerArtifactGC` (package workflow/common, not under src/). -/
def FinalizerArtifactGC : String := "workflows.argoproj.io/artifact-gc"

/-- The source function `reconciliationNeeded`. -/
def reconciliationNeeded (wf : ObjectMeta) : Bool :=
  (mapIndex wf.Labels LabelKeyCompleted != "true") || wf.Finalizers.contains FinalizerArtifactGC

/-- What the object map of an unstructured object holds at `spec.priority`: nothing, an
`int64`, or something `unstructured.NestedInt64` reports an error for (a value of another type,
or a `spec` that is not a map). -/
inductive PriorityField where
  | absent
  | int64 (value : Int)
  | invalid (err : String)
deriving DecidableEq, Repr

/-- An `*unstructured.Unstructured` as the controller reads it: its object metadata, resource
version, creation timestamp and the field `spec.priority`. What else it holds is read only by
`util.FromUnstructured`, an input of the pass. -/
structure Unstructured where
  ObjectMeta : ObjectMeta := {}
  ResourceVersion : String := ""
  CreationTimestamp : Int := 0
  Priority : PriorityField := PriorityField.absent
deriving DecidableEq, Repr

/-- The field `Spec` of a workflow, as far as `processNextItem` reads it. -/
structure WorkflowSpec where
  Shutdown : String := ""
deriving DecidableEq, Repr

/-- The field `Status` of a workflow, as far as `processNextItem` reads it. -/
structure WorkflowStatus where
  Phase : String := ""
  Message : String := ""
  /-- The pointer `Status.Synchronization`: `none` is Go `nil`, otherwise the names of the
  locks the status records. -/
  Synchronization : Option (List String) := none
  /-- The version of the offloaded node status the workflow points to. -/
  OffloadNodeStatusVersion : String := ""
deriving DecidableEq, Repr

/-- A `*wfv1.Workflow`, as far as `processNextItem` reads it. -/
structure Workflow where
  ObjectMeta : ObjectMeta := {}
  Spec : WorkflowSpec := {}
  Status : WorkflowStatus := {}
deriving DecidableEq, Repr

/-- An `interface{}` value of the informer cache: an `*unstructured.Unstructured` or anything
else (nil included), which the type assertion of `processNextItem` rejects. -/
inductive CacheObject where
  | unstructured (un : Unstructured)
  | other
deriving DecidableEq, Repr

/-- The three results of `wfInformer.GetIndexer().GetByKey(key)`; `err = none` is Go `nil`. -/
structure GetByKeyResult where
  item : CacheObject
  exist : Bool
  err : Option String
deriving DecidableEq, Repr

/-- The constant `wfv1.WorkflowUnknown` (package pkg/apis, not under src/): the empty phase. -/
def WorkflowUnknown : String := ""

/-- The constant `wfv1.WorkflowPending` (package pkg/apis, not under src/). -/
def WorkflowPending : String := "Pending"

/-- The constant `wfv1.ShutdownStrategyTerminate` (package pkg/apis, not under src/). -/
def ShutdownStrategyTerminate : String := "Terminate"

/-- The constant `wfv1.ShutdownStrategyNone` (package pkg/apis, not under src/): no shutdown
was requested. -/
def ShutdownStrategyNone : String := ""

/-- Modelled from the spec: the method `ShutdownStrategy.Enabled` (package pkg/apis, not under
src/); a shutdown strategy is enabled when a shutdown was requested ("explicit shutdown
requested"), that is when the strategy is not the empty one. -/
def ShutdownStrategyEnabled (s : String) : Bool :=
  s != ShutdownStrategyNone

/-- The source constant `workflowResyncPeriod = 20 * time.Minute`. -/
def workflowResyncPeriod : Int := 20 * minute

/-- Key function `cache.MetaNamespaceKeyFunc` of the client library: `namespace/name`, or the
bare name for an object with an empty namespace. -/
def MetaNamespaceKeyFunc (m : ObjectMeta) : String :=
  if m.Namespace.length > 0 then m.Namespace ++ "/" ++ m.Name else m.Name

/-! ## The dispatch loop -/

/-- What a pass of `processNextItem` or an informer event handler does to its collaborators
(work queue, key lock, informer, throttler, hydrator, operation context, metrics, pod client,
pod controller, synchronization manager), one constructor per call, with the arguments of the
call. `recordCompletedWorkflow` marks the point where a handler calls the controller function
of that name. Log lines are left out. -/
inductive Action where
  | keyLock (key : String)
  | keyUnlock (key : String)
  | queueDone (key : String)
  | getByKey (key : String)
  | queueAddAfter (key : String) (delay : Int)
  | throttlerAdmit (key : String)
  | throttlerRemove (key : String)
  | markWorkflowFailed (message : String)
  | markWorkflowPhase (phase : String) (message : String)
  | markWorkflowError (err : String)
  | persistUpdates
  | hydrate
  | operate
  | operationCompleted
  | queueAddRateLimited (key : String)
  | throttlerAdd (key : String) (priority : Int) (creationTime : Int)
  | podsList (labelSelector : String)
  | removeFinalizer (namespace_ : String) (name : String)
  | syncReleaseAll (wf : Workflow)
  | recordCompletedWorkflow (key : String)
  | dehydrate
  | offloadDelete (uid : String) (version : String)
deriving DecidableEq, Repr

/-- The collaborators of one pass whose code is not in `controller.go`, as functions: what each
call returns, and for the calls on the operation context the workflow `woc.wf` they leave.
`now` is the clock reading of `checkRecentlyCompleted`. -/
structure Env where
  getByKey : String → GetByKeyResult
  fromUnstructured : Unstructured → Workflow × Option String
  throttlerAdmit : String → Bool
  hydrate : Workflow → Workflow × Option String
  operate : Workflow → Workflow
  markWorkflowFailed : Workflow → String → Workflow
  markWorkflowPhase : Workflow → String → String → Workflow
  markWorkflowError : Workflow → String → Workflow
  persistUpdates : Workflow → Workflow
  now : Int

/-- The source function `getWorkflowByKey`: the pair `(obj, ok)` as an option. -/
def getWorkflowByKey (env : Env) (key : String) : Option CacheObject :=
  let r := env.getByKey key
  match r.err with
  | some _ => none
  | none => if !r.exist then none else some r.item

/-- What the body of a pass leaves: the calls made, the recent-completions list, and `woc.wf`
when an operation context was created. -/
structure PassBody where
  trace : List Action
  completions : List recentlyCompletedWorkflow
  wf : Option Workflow
deriving DecidableEq, Repr

/-- Lines 753-763 of `processNextItem`: the calls made after admission and before the
deferred calls: Hydrate, then either marking the error and persisting, or operate and the
latency metric. -/
def callsAfterAdmission (env : Env) (wf : Workflow) : List Action :=
  match (env.hydrate wf).2 with
  | some err => [Action.hydrate, Action.markWorkflowError err, Action.persistUpdates]
  | none => [Action.hydrate, Action.operate, Action.operationCompleted]

/-- The workflow `woc.wf` as lines 753-763 of `processNextItem` leave it: what `operate`
returns, or on a hydration error what marking the error and persisting return. -/
def workflowAfterAdmitted (env : Env) (wf : Workflow) : Workflow :=
  match (env.hydrate wf).2 with
  | some err => env.persistUpdates (env.markWorkflowError (env.hydrate wf).1 err)
  | none => env.operate (env.hydrate wf).1

/-- Lines 745-769 of `processNextItem`, after admission: hydrate, operate, and the deferred
removal from the throttler, which runs when the function returns and reads `woc.wf` then. -/
def processAdmitted (env : Env) (key : String) (woc : Workflow)
    (completions : List recentlyCompletedWorkflow) (before : List Action) : PassBody :=
  let deferred : List Action :=
    if !reconciliationNeeded (workflowAfterAdmitted env woc).ObjectMeta then
      [Action.throttlerRemove key]
    else []
  { trace := before ++ callsAfterAdmission env woc ++ deferred, completions := completions,
    wf := some (workflowAfterAdmitted env woc) }

/-- The message of the Pending phase set when admission is denied. -/
def postponedMessage : String :=
  "Workflow processing has been postponed because too many workflows are already running"

/-- Lines 730-769 of `processNextItem`, for the converted workflow `wf` once the four checks
are passed: the resync requeue, admission, and what follows it. `woc.GetShutdownStrategy()`
(not under src/) is read as the field `Spec.Shutdown` of the workflow of the fresh operation
context. -/
def processChecked (env : Env) (key : String) (wf : Workflow)
    (completions : List recentlyCompletedWorkflow) : PassBody :=
  let before := [Action.getByKey key, Action.queueAddAfter key workflowResyncPeriod]
  let strategy := wf.Spec.Shutdown
  if !ShutdownStrategyEnabled strategy || strategy != ShutdownStrategyTerminate then
    if !env.throttlerAdmit key then
      if wf.Status.Phase = WorkflowUnknown then
        { trace := before ++ [Action.throttlerAdmit key,
            Action.markWorkflowPhase WorkflowPending postponedMessage,
            Action.persistUpdates],
          completions := completions,
          wf := some (env.persistUpdates
            (env.markWorkflowPhase wf WorkflowPending postponedMessage)) }
      else
        { trace := before ++ [Action.throttlerAdmit key], completions := completions,
          wf := some wf }
    else
      processAdmitted env key wf completions (before ++ [Action.throttlerAdmit key])
  else
    processAdmitted env key wf completions before

/-- The condition `wf.Status.Phase != "" && wfc.checkRecentlyCompleted(wf.Name)` of
`processNextItem`: its value and the completions list it leaves (the check, and with it the
expiry cleanup, runs only for a non-empty phase). -/
def recentlyCompletedCheck (now : Int) (wf : Workflow)
    (completions : List recentlyCompletedWorkflow) : Bool × List recentlyCompletedWorkflow :=
  if wf.Status.Phase != "" then checkRecentlyCompleted now wf.ObjectMeta.Name completions
  else (false, completions)

/-- Lines 696-769 of `processNextItem`: the body between taking the key lock and the deferred
calls `Unlock` and `Done`. -/
def processBody (env : Env) (completions : List recentlyCompletedWorkflow) (key : String) :
    PassBody :=
  match getWorkflowByKey env key with
  | none => { trace := [Action.getByKey key], completions := completions, wf := none }
  | some CacheObject.other =>
    { trace := [Action.getByKey key], completions := completions, wf := none }
  | some (CacheObject.unstructured un) =>
    if !reconciliationNeeded un.ObjectMeta then
      { trace := [Action.getByKey key], completions := completions, wf := none }
    else
      let conv := env.fromUnstructured un
      match conv.2 with
      | some err =>
        let message := "cannot unmarshall spec: " ++ err
        { trace := [Action.getByKey key, Action.markWorkflowFailed message, Action.persistUpdates],
          completions := completions,
          wf := some (env.persistUpdates (env.markWorkflowFailed conv.1 message)) }
      | none =>
        let wf := conv.1
        let recent := recentlyCompletedCheck env.now wf completions
        if recent.1 then
          { trace := [Action.getByKey key], completions := recent.2, wf := none }
        else
          processChecked env key wf recent.2

/-- What a pass of `processNextItem` leaves: the returned boolean, the calls made in order, the
recent-completions list, and `woc.wf` when an operation context was created. -/
structure PassResult where
  ret : Bool
  trace : List Action
  completions : List recentlyCompletedWorkflow
  wf : Option Workflow
deriving DecidableEq, Repr

/-- The source function `processNextItem`. `key` and `quit` are the results of `wfQueue.Get()`.
The deferred calls run last-registered first: `Unlock(key)`, then `Done(key)`. -/
def processNextItem (env : Env) (completions : List recentlyCompletedWorkflow) (key : String)
    (quit : Bool) : PassResult :=
  if quit then
    { ret := false, trace := [], completions := completions, wf := none }
  else
    let body := processBody env completions key
    { ret := true,
      trace := [Action.keyLock key] ++ body.trace ++ [Action.keyUnlock key, Action.queueDone key],
      completions := body.completions,
      wf := body.wf }

/-- A pass gets past the lookup, reconciliation-needed, unmarshal and recently-completed checks
of `processNextItem` with cached object `un` converted to `wf`. -/
def PastChecks (env : Env) (completions : List recentlyCompletedWorkflow) (key : String)
    (un : Unstructured) (wf : Workflow) : Prop :=
  getWorkflowByKey env key = some (CacheObject.unstructured un) ∧
  reconciliationNeeded un.ObjectMeta = true ∧
  env.fromUnstructured un = (wf, none) ∧
  (recentlyCompletedCheck env.now wf completions).1 = false

instance (env : Env) (completions : List recentlyCompletedWorkflow) (key : String)
    (un : Unstructured) (wf : Workflow) : Decidable (PastChecks env completions key un wf) := by
  unfold PastChecks
  infer_instance

/-- The filter function of the workflow informer handlers (`FilterFunc` in
`addWorkflowInformerHandlers`): the returned boolean and the completions list it leaves. -/
def workflowFilterFunc (nowCheck nowAppend : Int) (obj : CacheObject)
    (completions : List recentlyCompletedWorkflow) : Bool × List recentlyCompletedWorkflow :=
  match obj with
  | CacheObject.other => (false, completions)
  | CacheObject.unstructured un =>
    let needed := reconciliationNeeded un.ObjectMeta
    if !needed then
      (needed, recordCompletedWorkflow nowCheck nowAppend (MetaNamespaceKeyFunc un.ObjectMeta)
        completions)
    else (needed, completions)

/-- A sample environment. The cache holds `item` under every key, conversion gives `conv`,
admission answers `admitted`, hydration returns the workflow with `hydrateErr`, the three mark
calls set the phase (and message), `operate` labels the workflow completed when `finish` is
set, and persisting changes nothing. -/
def sampleEnv (item : GetByKeyResult) (conv : Workflow × Option String) (admitted : Bool)
    (hydrateErr : Option String) (finish : Bool) (now : Int) : Env where
  getByKey := fun _ => item
  fromUnstructured := fun _ => conv
  throttlerAdmit := fun _ => admitted
  hydrate := fun wf => (wf, hydrateErr)
  operate := fun wf =>
    if finish then
      { wf with ObjectMeta := { wf.ObjectMeta with Labels := [(LabelKeyCompleted, "true")] } }
    else wf
  markWorkflowFailed := fun wf m => { wf with Status := { Phase := "Failed", Message := m } }
  markWorkflowPhase := fun wf ph m => { wf with Status := { Phase := ph, Message := m } }
  markWorkflowError := fun wf e => { wf with Status := { Phase := "Error", Message := e } }
  persistUpdates := fun wf => wf
  now := now

/-- A cached workflow `argo/hello` that is not labelled completed. -/
def sampleUn : Unstructured :=
  { ObjectMeta := { Namespace := "argo", Name := "hello" } }

/-- The workflow `argo/hello` with the given phase and shutdown strategy. -/
def sampleWf (phase shutdown : String) : Workflow :=
  { ObjectMeta := { Namespace := "argo", Name := "hello" },
    Spec := { Shutdown := shutdown },
    Status := { Phase := phase } }

/-- The lookup result of a key that is in the cache with object `item`. -/
def found (item : CacheObject) : GetByKeyResult :=
  { item := item, exist := true, err := none }

/-! ## The informer event handlers -/

/-- Go conversion `int32(v)` of an `int64` value: the low 32 bits, read as a signed number. -/
def toInt32 (v : Int) : Int :=
  let r := v % 2 ^ 32
  if r < 2 ^ 31 then r else r - 2 ^ 32

/-- Function `unstructured.NestedInt64(un.Object, "spec", "priority")` of the client library:
the value, whether it was found, and the error. -/
def NestedInt64 (un : Unstructured) : Int × Bool × Option String :=
  match un.Priority with
  | PriorityField.absent => (0, false, none)
  | PriorityField.int64 value => (value, true, none)
  | PriorityField.invalid err => (0, false, some err)

/-- The source function `getWfPriority`; `now` is the reading of `time.Now()`. -/
def getWfPriority (now : Int) (obj : CacheObject) : Int × Int :=
  match obj with
  | CacheObject.other => (0, now)
  | CacheObject.unstructured un =>
    let r := NestedInt64 un
    match r.2.2 with
    | some _ => (0, un.CreationTimestamp)
    | none =>
      let priority := if !r.2.1 then 0 else r.1
      (toInt32 priority, un.CreationTimestamp)

/-- Key function `cache.MetaNamespaceKeyFunc` of the client library on an `interface{}` value:
an object with metadata has the key of its metadata, anything else has none (an error). -/
def metaNamespaceKey (obj : CacheObject) : Except String String :=
  match obj with
  | CacheObject.unstructured un => Except.ok (MetaNamespaceKeyFunc un.ObjectMeta)
  | CacheObject.other => Except.error "object has no meta"

/-- The update function of the workflow informer handlers (`UpdateFunc` in
`addWorkflowInformerHandlers`): the calls it makes. `none` is the panic of the unchecked type
assertions on `old` and `new`; `now` is the clock reading of `getWfPriority`. -/
def workflowUpdateFunc (now : Int) (old new : CacheObject) : Option (List Action) :=
  match old, new with
  | CacheObject.unstructured oldWf, CacheObject.unstructured newWf =>
    if oldWf.ResourceVersion = newWf.ResourceVersion then some []
    else
      match metaNamespaceKey new with
      | Except.ok key =>
        let p := getWfPriority now new
        some [Action.queueAddRateLimited key, Action.throttlerAdd key p.1 p.2]
      | Except.error _ => some []
  | _, _ => none

/-- The constant `common.LabelKeyWorkflow` (package workflow/common, not under src/). -/
def LabelKeyWorkflow : String := "workflows.argoproj.io/workflow"

/-- The constant `common.FinalizerPodStatus` (package workflow/common, not under src/). -/
def FinalizerPodStatus : String := "workflows.argoproj.io/status"

/-- A pod of the list the pod client returns, as far as the delete handler reads it. -/
structure Pod where
  Namespace : String := ""
  Name : String := ""
  Finalizers : List String := []
deriving DecidableEq, Repr

/-- The source function `releaseAllWorkflowLocks`: the calls it makes. The locks are released
(`syncManager.ReleaseAll`) only for an unstructured object that converts to a workflow whose
status has a synchronization section. -/
def releaseAllWorkflowLocks (env : Env) (obj : CacheObject) : List Action :=
  match obj with
  | CacheObject.other => []
  | CacheObject.unstructured un =>
    let conv := env.fromUnstructured un
    match conv.2 with
    | some _ => []
    | none =>
      if conv.1.Status.Synchronization != none then [Action.syncReleaseAll conv.1] else []

/-- The loop of the delete handler over the listed pods: one `RemoveFinalizer` call for every
pod that carries the pod-status finalizer. -/
def removePodFinalizers : List Pod → List Action
  | [] => []
  | p :: rest =>
    if p.Finalizers.contains FinalizerPodStatus then
      Action.removeFinalizer p.Namespace p.Name :: removePodFinalizers rest
    else removePodFinalizers rest

/-- What a delete notification of the informer carries: the deleted object itself, or, when the
watch missed the deletion, the tombstone `cache.DeletedFinalStateUnknown{Key, Obj}` with the
key of the object and its last known state. -/
inductive DeletedObject where
  | object (obj : CacheObject)
  | finalStateUnknown (key : String) (obj : CacheObject)

/-- The notification as the type assertion `obj.(*unstructured.Unstructured)` sees it: a
tombstone is not an unstructured object. -/
def DeletedObject.asObject : DeletedObject → CacheObject
  | DeletedObject.object obj => obj
  | DeletedObject.finalStateUnknown _ _ => CacheObject.other

/-- Key function `cache.DeletionHandlingMetaNamespaceKeyFunc` of the client library: the key
recorded in a tombstone, and `MetaNamespaceKeyFunc` of any other object. -/
def deletionHandlingMetaNamespaceKey (d : DeletedObject) : Except String String :=
  match d with
  | DeletedObject.finalStateUnknown key _ => Except.ok key
  | DeletedObject.object obj => metaNamespaceKey obj

/-- The delete function of the workflow informer handlers (`DeleteFunc` in
`addWorkflowInformerHandlers`): the calls it makes and the completions list it leaves. `pods`
are the items of the pod list the pod client returns; `none` is the panic of the unchecked
type assertion on `obj` in the label selector of the pod list, which comes before the key is
derived. -/
def workflowDeleteFunc (env : Env) (pods : List Pod) (nowCheck nowAppend : Int)
    (d : DeletedObject) (completions : List recentlyCompletedWorkflow) :
    Option (List Action × List recentlyCompletedWorkflow) :=
  match d.asObject with
  | CacheObject.other => none
  | CacheObject.unstructured un =>
    let listed := [Action.podsList (LabelKeyWorkflow ++ "=" ++ un.ObjectMeta.Name)] ++
      removePodFinalizers pods
    match deletionHandlingMetaNamespaceKey d with
    | Except.ok key =>
      some (listed ++ releaseAllWorkflowLocks env d.asObject ++
          [Action.recordCompletedWorkflow key, Action.throttlerRemove key],
        recordCompletedWorkflow nowCheck nowAppend key completions)
    | Except.error _ => some (listed, completions)

/-- A call that adds a key to the work queue. -/
def Action.isQueueAdd : Action → Bool
  | Action.queueAddAfter _ _ => true
  | Action.queueAddRateLimited _ => true
  | _ => false

/-! ## The exit handler (`exit_handler.go`) -/

/-- A `wfv1.Parameter` as the exit handler reads it; `Value = none` is the Go `nil` pointer. -/
structure Parameter where
  Name : String := ""
  Value : Option String := none
deriving DecidableEq, Repr

/-- A `wfv1.Artifact` as the exit handler reads it; `Location` stands for the rest of the
artifact (where its content is). -/
structure Artifact where
  Name : String := ""
  From : String := ""
  FromExpression : String := ""
  Optional : Bool := false
  Location : String := ""
deriving DecidableEq, Repr

/-- The struct `wfv1.Outputs`. -/
structure Outputs where
  Parameters : List Parameter := []
  Artifacts : List Artifact := []
deriving DecidableEq, Repr

/-- The struct `wfv1.Arguments`. -/
structure Arguments where
  Parameters : List Parameter := []
  Artifacts : List Artifact := []
deriving DecidableEq, Repr

/-- Method `Arguments.IsEmpty` (package pkg/apis, not under src/): no parameter and no
artifact. -/
def Arguments.IsEmpty (a : Arguments) : Bool :=
  a.Parameters.length == 0 && a.Artifacts.length == 0

/-- A `wfv1.NodeStatus` as the exit handler reads it; `Outputs = none` is the Go `nil`
pointer. -/
structure NodeStatus where
  Name : String := ""
  Outputs : Option Outputs := none
deriving DecidableEq, Repr

/-- A `wfv1.LifecycleHook`. -/
structure LifecycleHook where
  Template : String := ""
  TemplateRef : String := ""
  Arguments : Arguments := {}
  Expression : String := ""
deriving DecidableEq, Repr

/-- A value held in a scope: a parameter value or an artifact. -/
inductive ScopeValue where
  | param (value : String)
  | artifact (art : Artifact)
deriving DecidableEq, Repr

/-- The struct `wfScope` (not under src/): the map from variable names to values, as an
association list whose first entry for a name is the current one. -/
structure wfScope where
  scope : List (String × ScopeValue) := []
deriving DecidableEq, Repr

/-- The call `createScope(nil)`: a scope with no variable. -/
def createScope : wfScope := {}

/-- Method `addParamToScope` (not under src/): the map assignment `scope[key] = val`. -/
def wfScope.addParamToScope (s : wfScope) (key val : String) : wfScope :=
  { scope := (key, ScopeValue.param val) :: s.scope }

/-- Method `addArtifactToScope` (not under src/): the map assignment `scope[key] = artifact`. -/
def wfScope.addArtifactToScope (s : wfScope) (key : String) (art : Artifact) : wfScope :=
  { scope := (key, ScopeValue.artifact art) :: s.scope }

/-- The collaborators of the exit handler whose code is not in `exit_handler.go`, as functions
of their arguments. -/
structure ExitEnv where
  /-- The field `woc.globalParams`. -/
  globalParams : List (String × String)
  /-- Method `Parameters.Merge`. -/
  merge : List (String × String) → List (String × String) → List (String × String)
  /-- Method `getParameters` of a scope pointer, which may be nil. -/
  getParameters : Option wfScope → List (String × String)
  /-- Function `json.Marshal` on the arguments. -/
  marshal : Arguments → Except String String
  /-- Function `template.Replace` with the merged parameters. -/
  replace : String → List (String × String) → Except String String
  /-- Function `json.Unmarshal` into fresh arguments. -/
  unmarshal : String → Except String Arguments
  /-- Method `resolveArtifact` of the scope. -/
  resolveArtifact : wfScope → Artifact → Except String Artifact
  /-- Method `possiblyGetRetryChildNode`: the last retry attempt of a node, if there is one. -/
  possiblyGetRetryChildNode : NodeStatus → Option NodeStatus
  /-- The value of `woc.GetShutdownStrategy().ShouldExecute(true)`. -/
  shouldExecute : Bool
  /-- Function `argoexpr.EvalBool` on an expression and the environment of the parameters. -/
  evalBool : String → List (String × String) → Except String Bool
  /-- Function `common.GenerateOnExitNodeName`. -/
  generateOnExitNodeName : String → String
  /-- Method `executeTemplate`: node name, hook template and template reference, resolved
  arguments, boundary. Returns the node and the error. -/
  executeTemplate : String → String → String → Arguments → String →
    Option NodeStatus × Option String

/-- Lines 55-69 of `resolveExitTmplArgument`: the scope (a fresh one when the pointer is nil)
with the output parameters and artifacts added under the names
`<pfx>.outputs.parameters.<name>` and `<pfx>.outputs.artifacts.<name>`. -/
def scopeWithOutputs (pfx : String) (outputs : Option Outputs) (scope : Option wfScope) :
    wfScope :=
  let scope0 := match scope with
    | none => createScope
    | some s => s
  match outputs with
  | none => scope0
  | some out =>
    let scope1 := out.Parameters.foldl
      (fun s param =>
        let value := match param.Value with
          | some v => v
          | none => ""
        s.addParamToScope (pfx ++ ".outputs.parameters." ++ param.Name) value)
      scope0
    out.Artifacts.foldl
      (fun s arts => s.addArtifactToScope (pfx ++ ".outputs.artifacts." ++ arts.Name) arts)
      scope1

/-- Lines 71-83 of `resolveExitTmplArgument` (pass 1, parameter substitution): marshal the
arguments, replace the parameter references, unmarshal; the first error ends the pass. -/
def substituteArguments (env : ExitEnv) (args : Arguments) (scope : wfScope) :
    Except String Arguments :=
  match env.marshal args with
  | Except.error err => Except.error err
  | Except.ok stepBytes =>
    match env.replace stepBytes (env.merge env.globalParams (env.getParameters (some scope))) with
    | Except.error err => Except.error err
    | Except.ok newStepStr => env.unmarshal newStepStr

/-- Lines 85-98 of `resolveExitTmplArgument` (pass 2, artifact references): the loop over the
argument artifacts, from the first one. An artifact with no reference is kept, an unresolved
optional one is kept, an unresolved required one ends the loop with the error, a resolved one
is replaced by the resolved artifact under the name of the argument. -/
def resolveArtifacts (env : ExitEnv) (scope : wfScope) : List Artifact →
    Except String (List Artifact)
  | [] => Except.ok []
  | art :: rest =>
    if art.From = "" ∧ art.FromExpression = "" then
      match resolveArtifacts env scope rest with
      | Except.ok done => Except.ok (art :: done)
      | Except.error err => Except.error err
    else
      match env.resolveArtifact scope art with
      | Except.error err =>
        if art.Optional then
          match resolveArtifacts env scope rest with
          | Except.ok done => Except.ok (art :: done)
          | Except.error err2 => Except.error err2
        else Except.error ("unable to resolve references: " ++ err)
      | Except.ok resolvedArt =>
        match resolveArtifacts env scope rest with
        | Except.ok done => Except.ok ({ resolvedArt with Name := art.Name } :: done)
        | Except.error err => Except.error err

/-- The source function `resolveExitTmplArgument`: the arguments and the error it returns
(`none` is Go `nil`). On every error it returns the arguments it was given. What it adds to
the scope of the caller is not returned. -/
def resolveExitTmplArgument (env : ExitEnv) (args : Arguments) (pfx : String)
    (outputs : Option Outputs) (scope : Option wfScope) : Arguments × Option String :=
  let scope1 := scopeWithOutputs pfx outputs scope
  match substituteArguments env args scope1 with
  | Except.error err => (args, some err)
  | Except.ok newArgs =>
    match resolveArtifacts env scope1 newArgs.Artifacts with
    | Except.error err => (args, some err)
    | Except.ok artifacts => ({ newArgs with Artifacts := artifacts }, none)

/-- What `runOnExitNode` asks of the operation context, one constructor per call, with the
arguments of the call. -/
inductive ExitCall where
  | resolveExitTmplArgument (args : Arguments) (pfx : String) (outputs : Option Outputs)
  | executeTemplate (nodeName : String) (template : String) (templateRef : String)
      (args : Arguments) (boundaryID : String)
  | addChildNode (parent : String) (child : String)
deriving DecidableEq, Repr

/-- The call executes the exit node or links it to its parent. -/
def ExitCall.isExecute : ExitCall → Bool
  | ExitCall.executeTemplate _ _ _ _ _ => true
  | ExitCall.addChildNode _ _ => true
  | ExitCall.resolveExitTmplArgument _ _ _ => false

/-- The three results of `runOnExitNode` and the calls it made. -/
structure ExitResult where
  ran : Bool
  node : Option NodeStatus
  err : Option String
  calls : List ExitCall
deriving DecidableEq, Repr

/-- Lines 17-20 of `runOnExitNode`: the outputs of the last retry attempt of the parent when
there is one, and of the parent itself otherwise. -/
def exitOutputs (env : ExitEnv) (parentNode : NodeStatus) : Option Outputs :=
  match env.possiblyGetRetryChildNode parentNode with
  | some lastChildNode => lastChildNode.Outputs
  | none => parentNode.Outputs

/-- Lines 25-30 of `runOnExitNode`: whether to execute, from the guard expression of the hook
evaluated against the merged global and scope parameters; true when there is no expression. -/
def exitGuard (env : ExitEnv) (hook : LifecycleHook) (scope : Option wfScope) :
    Except String Bool :=
  if hook.Expression != "" then
    env.evalBool hook.Expression (env.merge env.globalParams (env.getParameters scope))
  else Except.ok true

/-- Lines 42-48 of `runOnExitNode`: execute the template of the hook under the exit node name
and link the exit node as a child of the parent. -/
def executeExitNode (env : ExitEnv) (hook : LifecycleHook) (parentNode : NodeStatus)
    (boundaryID : String) (resolvedArgs : Arguments) (before : List ExitCall) : ExitResult :=
  let onExitNodeName := env.generateOnExitNodeName parentNode.Name
  let r := env.executeTemplate onExitNodeName hook.Template hook.TemplateRef resolvedArgs
    boundaryID
  { ran := true, node := r.1, err := r.2,
    calls := before ++
      [ExitCall.executeTemplate onExitNodeName hook.Template hook.TemplateRef resolvedArgs
         boundaryID,
       ExitCall.addChildNode parentNode.Name onExitNodeName] }

/-- The source function `runOnExitNode`. The template context is handed through to
`executeTemplate` unread and is left out. -/
def runOnExitNode (env : ExitEnv) (exitHook : Option LifecycleHook) (parentNode : NodeStatus)
    (boundaryID : String) (pfx : String) (scope : Option wfScope) : ExitResult :=
  let outputs := exitOutputs env parentNode
  match exitHook with
  | none => { ran := false, node := none, err := none, calls := [] }
  | some hook =>
    if !env.shouldExecute then { ran := false, node := none, err := none, calls := [] }
    else
      match exitGuard env hook scope with
      | Except.error err => { ran := true, node := none, err := some err, calls := [] }
      | Except.ok false => { ran := false, node := none, err := none, calls := [] }
      | Except.ok true =>
        if !hook.Arguments.IsEmpty then
          let r := resolveExitTmplArgument env hook.Arguments pfx outputs scope
          match r.2 with
          | some err =>
            { ran := true, node := none, err := some err,
              calls := [ExitCall.resolveExitTmplArgument hook.Arguments pfx outputs] }
          | none =>
            executeExitNode env hook parentNode boundaryID r.1
              [ExitCall.resolveExitTmplArgument hook.Arguments pfx outputs]
        else executeExitNode env hook parentNode boundaryID hook.Arguments []

/-- A sample environment of the exit handler: the guard expression "false" evaluates to false
and every other one to true, substitution leaves the arguments as they are, the scope resolves
the reference `found` and no other, the parent has the retry attempt `retryChild`, and
`executeTemplate` returns a node of the given name. -/
def sampleExitEnv (retryChild : Option NodeStatus) (shouldExecute : Bool) : ExitEnv where
  globalParams := []
  merge := fun a b => a ++ b
  getParameters := fun _ => []
  marshal := fun _ => Except.ok "args"
  replace := fun s _ => Except.ok s
  unmarshal := fun _ =>
    Except.ok { Artifacts := [{ Name := "optional-in", From := "missing", Optional := true },
                              { Name := "in", From := "found" }] }
  resolveArtifact := fun _ art =>
    if art.From = "found" then Except.ok { Name := "resolved", Location := "s3://bucket/key" }
    else Except.error ("variable not in scope: " ++ art.From)
  possiblyGetRetryChildNode := fun _ => retryChild
  shouldExecute := shouldExecute
  evalBool := fun e _ => Except.ok (e != "false")
  generateOnExitNodeName := fun n => n ++ ".onExit"
  executeTemplate := fun name _ _ _ _ => (some { Name := name }, none)

/-- The arguments of the sample exit hook: an optional artifact whose reference the sample
scope cannot resolve, and an artifact whose reference it resolves. -/
def sampleHookArgs : Arguments :=
  { Artifacts := [{ Name := "optional-in", From := "missing", Optional := true },
                  { Name := "in", From := "found" }] }

/-- A parent node `steps` whose own outputs hold the parameter `own`. -/
def sampleParent : NodeStatus :=
  { Name := "steps", Outputs := some { Parameters := [{ Name := "own", Value := some "0" }] } }

/-- The second retry attempt of the sample parent, whose outputs hold the parameter
`attempt`. -/
def sampleRetryChild : NodeStatus :=
  { Name := "steps(1)",
    Outputs := some { Parameters := [{ Name := "attempt", Value := some "2" }] } }

/-! ## Pass 2 of the exit arguments, per artifact -/

/-- The argument artifact has a `From` or `FromExpression` reference. -/
def Artifact.hasReference (art : Artifact) : Prop :=
  art.From ≠ "" ∨ art.FromExpression ≠ ""

/-- What pass 2 of `resolveExitTmplArgument` leaves at the position of the argument `art`:
`out` has the name of `art`; it is `art` itself when `art` has no reference or its (then
optional) reference does not resolve, and the resolved artifact renamed to `art.Name` when the
reference resolves. -/
def ArtifactKept (env : ExitEnv) (scope : wfScope) (art out : Artifact) : Prop :=
  out.Name = art.Name ∧
  (¬ art.hasReference → out = art) ∧
  (art.hasReference → ∀ err, env.resolveArtifact scope art = Except.error err →
    art.Optional = true ∧ out = art) ∧
  (art.hasReference → ∀ r, env.resolveArtifact scope art = Except.ok r →
    out = { r with Name := art.Name })

/-! ## The callback `isWFDeleted` -/

/-- The closure `isWFDeleted` of `createSynchronizationManager`. -/
def isWFDeleted (env : Env) (key : String) : Bool :=
  let r := env.getByKey key
  match r.err with
  | some _ => false
  | none => r.exist

/-- The completion times of a completions list, in order. -/
def completionTimes (completions : List recentlyCompletedWorkflow) : List Int :=
  completions.map (fun e => e.when)

/-! ## Indexed lookups: offload garbage collection, lock capacities, semaphore updates -/

/-- A Go `error` of which the code matters: `code` is the code of an error of the package
`errors` of the repository (`argoErr`), and `none` for any other error. -/
structure GoError where
  code : Option String := none
  message : String := ""
deriving DecidableEq, Repr

/-- The constant `argoErr.CodeBadRequest` (package errors, not under src/). -/
def CodeBadRequest : String := "ERR_BAD_REQUEST"

/-- A decoded lock name (`sync.DecodeLockName`), as far as `getSyncLimit` reads it. -/
structure LockName where
  Namespace : String := ""
  ResourceName : String := ""
  Key : String := ""
deriving DecidableEq, Repr

/-- A `*apiv1.ConfigMap`, as far as the controller reads it; `Data` is the Go map, as an
association list. -/
structure ConfigMap where
  Namespace : String := ""
  Name : String := ""
  Data : List (String × String) := []
deriving DecidableEq, Repr

/-- The collaborators of the controller functions outside the dispatch loop, in addition to
those of `Env`. -/
structure ControllerEnv extends Env where
  /-- Method `ByIndex(indexName, indexedValue)` of the informer indexer: the objects, or the
  error. -/
  byIndex : String → String → Except String (List CacheObject)
  /-- Method `hydrator.IsHydrated`. -/
  isHydrated : Workflow → Bool
  /-- Method `hydrator.Dehydrate`: the workflow it leaves and its error. -/
  dehydrate : Workflow → Workflow × Option String
  /-- Method `offloadNodeStatusRepo.Delete(uid, version)`: its error. -/
  offloadDelete : String → String → Option String
  /-- Function `sync.DecodeLockName`. -/
  decodeLockName : String → Except GoError LockName
  /-- The outcome of `configmapsIf.Get(namespace, name)` under `waitutil.Backoff`: the
  ConfigMap, or the error the retries end with. -/
  getConfigMap : String → String → Except GoError ConfigMap
  /-- Function `strconv.Atoi`: the integer and the message of its error (which is not an
  error of the package `errors`). -/
  atoi : String → Int × Option String

/-- The two results of `ByIndex` as Go returns them: the client library returns a nil slice
together with an error. -/
def goByIndex (r : Except String (List CacheObject)) : List CacheObject × Option String :=
  match r with
  | Except.ok objs => (objs, none)
  | Except.error err => ([], some err)

/-- The constant `indexes.SemaphoreConfigIndexName` (package indexes, not under src/). -/
def SemaphoreConfigIndexName : String := "bySemaphoreConfigMap"

/-- The constant `indexes.UIDIndex` (package indexes, not under src/). -/
def UIDIndex : String := "uid"

/-- The loop of `notifySemaphoreConfigUpdate` over the objects of the index: one
`AddRateLimited` call for every unstructured object, with the key `namespace/name`; an object
of another type is skipped. -/
def notifyLoop : List CacheObject → List Action
  | [] => []
  | CacheObject.other :: rest => notifyLoop rest
  | CacheObject.unstructured un :: rest =>
    Action.queueAddRateLimited (un.ObjectMeta.Namespace ++ "/" ++ un.ObjectMeta.Name) ::
      notifyLoop rest

/-- The source function `notifySemaphoreConfigUpdate`: the calls it makes. An error of the
index is logged, and the loop runs over the objects returned with it. -/
def notifySemaphoreConfigUpdate (env : ControllerEnv) (cm : ConfigMap) : List Action :=
  let r := goByIndex (env.byIndex SemaphoreConfigIndexName (cm.Namespace ++ "/" ++ cm.Name))
  notifyLoop r.1

/-- The keys `notifySemaphoreConfigUpdate` is to enqueue, in the words of the specification:
the key `namespace/name` of every unstructured workflow among the objects, in order. -/
def semaphoreWaiterKeys (objs : List CacheObject) : List String :=
  objs.filterMap (fun obj =>
    match obj with
    | CacheObject.unstructured un =>
      some (un.ObjectMeta.Namespace ++ "/" ++ un.ObjectMeta.Name)
    | CacheObject.other => none)

/-- The closure `getSyncLimit` of `createSynchronizationManager`: the capacity and the error
it returns. -/
def getSyncLimit (env : ControllerEnv) (lockKey : String) : Int × Option GoError :=
  match env.decodeLockName lockKey with
  | Except.error err => (0, some err)
  | Except.ok lockName =>
    match env.getConfigMap lockName.Namespace lockName.ResourceName with
    | Except.error err => (0, some err)
    | Except.ok configMap =>
      match configMap.Data.lookup lockName.Key with
      | none =>
        (0, some { code := some CodeBadRequest,
                   message := "Sync configuration key '" ++ lockName.Key ++
                     "' not found in ConfigMap" })
      | some value =>
        let r := env.atoi value
        (r.1, r.2.map (fun m => { code := none, message := m }))

/-- The test `wf != nil && wf.Status.OffloadNodeStatusVersion == version` of
`deleteOffloadedNodesForWorkflow`. -/
def isLiveVersion (wf : Option Workflow) (version : String) : Bool :=
  match wf with
  | some w => w.Status.OffloadNodeStatusVersion == version
  | none => false

/-- The loop of `deleteOffloadedNodesForWorkflow` over the versions: the `Delete` calls it
makes and the error it returns. A live version is skipped; the first `Delete` that fails ends
the loop. -/
def deleteVersions (env : ControllerEnv) (uid : String) (wf : Option Workflow) :
    List String → List Action × Option String
  | [] => ([], none)
  | version :: rest =>
    if isLiveVersion wf version then deleteVersions env uid wf rest
    else
      match env.offloadDelete uid version with
      | some err => ([Action.offloadDelete uid version], some err)
      | none =>
        let r := deleteVersions env uid wf rest
        (Action.offloadDelete uid version :: r.1, r.2)

/-- Lines 596-617 of `deleteOffloadedNodesForWorkflow`, under the key lock: look the workflow
up again, convert it and dehydrate it when it is hydrated. The calls made, and the workflow or
the error. The rendering of the object in two of the messages is left out. -/
def liveWorkflow (env : ControllerEnv) (key : String) :
    List Action × Except String Workflow :=
  match getWorkflowByKey env.toEnv key with
  | none => ([Action.getByKey key], Except.error "failed to get workflow by key after locking")
  | some CacheObject.other =>
    ([Action.getByKey key], Except.error "object is not an unstructured")
  | some (CacheObject.unstructured un) =>
    let conv := env.fromUnstructured un
    match conv.2 with
    | some err => ([Action.getByKey key], Except.error err)
    | none =>
      if env.isHydrated conv.1 then
        let d := env.dehydrate conv.1
        match d.2 with
        | some err => ([Action.getByKey key, Action.dehydrate], Except.error err)
        | none => ([Action.getByKey key, Action.dehydrate], Except.ok d.1)
      else ([Action.getByKey key], Except.ok conv.1)

/-- The source function `deleteOffloadedNodesForWorkflow`: the calls it makes and the error it
returns. The deferred `Unlock` of the single-workflow case runs when the function returns. -/
def deleteOffloadedNodesForWorkflow (env : ControllerEnv) (uid : String)
    (versions : List String) : List Action × Option String :=
  let r := goByIndex (env.byIndex UIDIndex uid)
  match r.2 with
  | some err => ([], some err)
  | none =>
    match r.1 with
    | [] => deleteVersions env uid none versions
    | [CacheObject.other] => ([], some "object is not an unstructured")
    | [CacheObject.unstructured un] =>
      let key := un.ObjectMeta.Namespace ++ "/" ++ un.ObjectMeta.Name
      let live := liveWorkflow env key
      match live.2 with
      | Except.error err => ([Action.keyLock key] ++ live.1 ++ [Action.keyUnlock key], some err)
      | Except.ok wf =>
        let d := deleteVersions env uid (some wf) versions
        ([Action.keyLock key] ++ live.1 ++ d.1 ++ [Action.keyUnlock key], d.2)
    | _ :: _ :: rest =>
      ([], some ("expected no more than 1 workflow, got " ++ toString (rest.length + 2)))

/-- The versions `Delete` is to be called for, in the words of the specification: the listed
versions other than the live one, in list order, up to and including the first one whose
`Delete` fails. -/
def attemptedDeletes (env : ControllerEnv) (uid : String) : List String → List String
  | [] => []
  | version :: rest =>
    if (env.offloadDelete uid version).isSome then [version]
    else version :: attemptedDeletes env uid rest

/-- The error of the first failing `Delete` among the versions, if one fails. -/
def firstDeleteError (env : ControllerEnv) (uid : String) : List String → Option String
  | [] => none
  | version :: rest =>
    match env.offloadDelete uid version with
    | some err => some err
    | none => firstDeleteError env uid rest

/-- A sample environment for these functions: the index returns `objs` for every value, the
workflow is hydrated and dehydration sets the offload version `v2`, `Delete` fails for the
version `broken` only, the lock key decodes to the key `workflow` of the ConfigMap
`argo/semaphores`, which holds `workflow: 3`. -/
def sampleControllerEnv (objs : List CacheObject) : ControllerEnv :=
  { sampleEnv (found (CacheObject.unstructured sampleUn)) (sampleWf "Running" "", none)
      true none false 0 with
    byIndex := fun _ _ => Except.ok objs
    isHydrated := fun _ => true
    dehydrate := fun wf =>
      ({ wf with Status := { wf.Status with OffloadNodeStatusVersion := "v2" } }, none)
    offloadDelete := fun _ version => if version = "broken" then some "database down" else none
    decodeLockName := fun _ =>
      Except.ok { Namespace := "argo", ResourceName := "semaphores", Key := "workflow" }
    getConfigMap := fun ns name =>
      Except.ok { Namespace := ns, Name := name, Data := [("workflow", "3")] }
    atoi := fun value => if value = "3" then (3, none) else (0, some "invalid syntax") }

/-- The sample environment with a dehydration that fails and leaves the workflow as it is. -/
def failingDehydrateEnv (objs : List CacheObject) : ControllerEnv :=
  { sampleControllerEnv objs with dehydrate := fun wf => (wf, some "offload store down") }

/-! ## The offline client (`pkg/apiclient/offline-client.go`) -/

/-- A `*wfv1.WorkflowTemplate`: its name, its namespace, and the rest of it. -/
structure WorkflowTemplate where
  Name : String := ""
  Namespace : String := ""
  Spec : String := ""
deriving DecidableEq, Repr

/-- A `*wfv1.ClusterWorkflowTemplate`: its name, its namespace, and the rest of it. -/
structure ClusterWorkflowTemplate where
  Name : String := ""
  Namespace : String := ""
  Spec : String := ""
deriving DecidableEq, Repr

/-- A parsed Kubernetes object, by the cases of the type switch of `newOfflineClient`: a
cluster workflow template, a workflow template, or an object of another type. -/
inductive ParsedObject where
  | clusterWorkflowTemplate (v : ClusterWorkflowTemplate)
  | workflowTemplate (v : WorkflowTemplate)
  | other (name : String) (namespace_ : String)
deriving DecidableEq, Repr

/-- Method `GetName` of the parsed object. -/
def ParsedObject.GetName : ParsedObject → String
  | ParsedObject.clusterWorkflowTemplate v => v.Name
  | ParsedObject.workflowTemplate v => v.Name
  | ParsedObject.other name _ => name

/-- Method `GetNamespace` of the parsed object. -/
def ParsedObject.GetNamespace : ParsedObject → String
  | ParsedObject.clusterWorkflowTemplate v => v.Namespace
  | ParsedObject.workflowTemplate v => v.Namespace
  | ParsedObject.other _ namespace_ => namespace_

/-- A `common.ParseResult`: the object (`none` is `nil`) and the error. -/
structure ParseResult where
  Object : Option ParsedObject := none
  Err : Option String := none
deriving DecidableEq, Repr

/-- What `file.WalkManifests` meets under a base path, in order: a manifest file, with its
path and what `common.ParseObjects` returns for its bytes, or a failure of the walk itself. -/
inductive WalkStep where
  | file (path : String) (results : List ParseResult)
  | failure (err : String)
deriving DecidableEq, Repr

/-- The errors of the offline client, by format string, with the arguments of the format. -/
inductive OfflineError where
  | parse (path : String) (err : String)
  | duplicateClusterWorkflowTemplate (name : String)
  | duplicateWorkflowTemplate (name : String)
  | walk (err : String)
  | workflowTemplateNotFound (name : String) (namespace_ : String)
  | clusterWorkflowTemplateNotFound (name : String)
deriving DecidableEq, Repr

/-- A hexadecimal digit in lower case (the table `lowerhex` of the Go package strconv). -/
def lowerhex (n : Nat) : Char :=
  if n % 16 < 10 then Char.ofNat (48 + n % 16) else Char.ofNat (87 + n % 16)

/-- Function `strconv.IsPrint` of the Go library: of the runes up to U+00FF the printable ones
are U+0020 to U+007E and U+00A1 to U+00FF without the soft hyphen U+00AD. Above U+00FF the
library consults its Unicode tables, which are not part of this development: such a rune is
taken to be printable, as letters, marks, digits, punctuation and symbols are. -/
def isPrint (r : Char) : Bool :=
  if r.toNat ≤ 0xFF then
    (0x20 ≤ r.toNat && r.toNat ≤ 0x7E) || (0xA1 ≤ r.toNat && r.toNat != 0xAD)
  else true

/-- Function `appendEscapedRune` of the Go package strconv, with the double quote as the
quote: the quote and the backslash get a backslash, a printable rune stands for itself, and any
other rune is written as an escape sequence. -/
def appendEscapedRune (r : Char) : List Char :=
  let backslash := Char.ofNat 92
  if r = Char.ofNat 34 ∨ r = backslash then [backslash, r]
  else if isPrint r then [r]
  else if r.toNat = 7 then [backslash, 'a']
  else if r.toNat = 8 then [backslash, 'b']
  else if r.toNat = 12 then [backslash, 'f']
  else if r.toNat = 10 then [backslash, 'n']
  else if r.toNat = 13 then [backslash, 'r']
  else if r.toNat = 9 then [backslash, 't']
  else if r.toNat = 11 then [backslash, 'v']
  else if r.toNat < 0x20 ∨ r.toNat = 0x7F then
    [backslash, 'x', lowerhex (r.toNat / 16), lowerhex r.toNat]
  else if r.toNat < 0x10000 then
    [backslash, 'u', lowerhex (r.toNat / 4096), lowerhex (r.toNat / 256),
      lowerhex (r.toNat / 16), lowerhex r.toNat]
  else
    [backslash, 'U', lowerhex (r.toNat / 268435456), lowerhex (r.toNat / 16777216),
      lowerhex (r.toNat / 1048576), lowerhex (r.toNat / 65536), lowerhex (r.toNat / 4096),
      lowerhex (r.toNat / 256), lowerhex (r.toNat / 16), lowerhex r.toNat]

/-- The verb `%q` of `fmt` on a string (`strconv.Quote`): the string between double quotes,
every rune escaped as `appendEscapedRune` tells. -/
def goQuote (s : String) : String :=
  String.mk ([Char.ofNat 34] ++ s.data.flatMap appendEscapedRune ++ [Char.ofNat 34])

/-- The message of an error of the offline client. -/
def OfflineError.message : OfflineError → String
  | OfflineError.parse path err => "failed to parse YAML from file " ++ path ++ ": " ++ err
  | OfflineError.duplicateClusterWorkflowTemplate name =>
    "duplicate ClusterWorkflowTemplate found: " ++ goQuote name
  | OfflineError.duplicateWorkflowTemplate name =>
    "duplicate WorkflowTemplate found: " ++ goQuote name
  | OfflineError.walk err => err
  | OfflineError.workflowTemplateNotFound name namespace_ =>
    "couldn't find workflow template " ++ goQuote name ++ " in namespace " ++ goQuote namespace_
  | OfflineError.clusterWorkflowTemplateNotFound name =>
    "couldn't find cluster workflow template " ++ goQuote name

/-- The error is one of the two duplicate errors. -/
def OfflineError.isDuplicate : OfflineError → Bool
  | OfflineError.duplicateClusterWorkflowTemplate _ => true
  | OfflineError.duplicateWorkflowTemplate _ => true
  | _ => false

/-- The struct `offlineWorkflowTemplateNamespacedGetter`; the Go map is an association list
whose first entry for a name is the current one. -/
structure offlineWorkflowTemplateNamespacedGetter where
  namespace_ : String := ""
  workflowTemplates : List (String × WorkflowTemplate) := []
deriving DecidableEq, Repr

/-- The struct `offlineClusterWorkflowTemplateGetter`. -/
structure offlineClusterWorkflowTemplateGetter where
  clusterWorkflowTemplates : List (String × ClusterWorkflowTemplate) := []
deriving DecidableEq, Repr

/-- The struct `offlineClient`; the getter map `offlineWorkflowTemplateGetterMap` is an
association list from namespaces to getters. -/
structure offlineClient where
  clusterWorkflowTemplateGetter : offlineClusterWorkflowTemplateGetter := {}
  namespacedWorkflowTemplateGetterMap :
    List (String × offlineWorkflowTemplateNamespacedGetter) := []
deriving DecidableEq, Repr

/-- The source method `offlineWorkflowTemplateGetterMap.GetNamespaceGetter`. -/
def GetNamespaceGetter (m : List (String × offlineWorkflowTemplateNamespacedGetter))
    (namespace_ : String) : offlineWorkflowTemplateNamespacedGetter :=
  match m.lookup namespace_ with
  | none => { namespace_ := namespace_, workflowTemplates := [] }
  | some v => v

/-- The source method `offlineWorkflowTemplateNamespacedGetter.Get`. -/
def offlineWorkflowTemplateNamespacedGetter.Get (w : offlineWorkflowTemplateNamespacedGetter)
    (name : String) : Except OfflineError WorkflowTemplate :=
  match w.workflowTemplates.lookup name with
  | some v => Except.ok v
  | none => Except.error (OfflineError.workflowTemplateNotFound name w.namespace_)

/-- The source method `offlineClusterWorkflowTemplateGetter.Get`. -/
def offlineClusterWorkflowTemplateGetter.Get (o : offlineClusterWorkflowTemplateGetter)
    (name : String) : Except OfflineError ClusterWorkflowTemplate :=
  match o.clusterWorkflowTemplates.lookup name with
  | some v => Except.ok v
  | none => Except.error (OfflineError.clusterWorkflowTemplateNotFound name)

/-- Lines 52-85 of `newOfflineClient`: one parse result of the file `path`. -/
def processResult (path : String) (c : offlineClient) (pr : ParseResult) :
    Except OfflineError offlineClient :=
  match pr.Err with
  | some err => Except.error (OfflineError.parse path err)
  | none =>
    match pr.Object with
    | none => Except.ok c
    | some obj =>
      let objName := obj.GetName
      let namespace_ := obj.GetNamespace
      match obj with
      | ParsedObject.clusterWorkflowTemplate v =>
        match c.clusterWorkflowTemplateGetter.clusterWorkflowTemplates.lookup objName with
        | some _ => Except.error (OfflineError.duplicateClusterWorkflowTemplate objName)
        | none =>
          Except.ok { c with
            clusterWorkflowTemplateGetter :=
              { clusterWorkflowTemplates :=
                  (objName, v) :: c.clusterWorkflowTemplateGetter.clusterWorkflowTemplates } }
      | ParsedObject.workflowTemplate v =>
        let getter := match c.namespacedWorkflowTemplateGetterMap.lookup namespace_ with
          | some g => g
          | none => { namespace_ := namespace_, workflowTemplates := [] }
        match getter.workflowTemplates.lookup objName with
        | some _ => Except.error (OfflineError.duplicateWorkflowTemplate objName)
        | none =>
          Except.ok { c with
            namespacedWorkflowTemplateGetterMap :=
              (namespace_,
                { getter with workflowTemplates := (objName, v) :: getter.workflowTemplates }) ::
              c.namespacedWorkflowTemplateGetterMap }
      | ParsedObject.other _ _ => Except.ok c

/-- The loop of lines 51-87 over the parse results of one file; the first error ends it. -/
def processResults (path : String) (c : offlineClient) :
    List ParseResult → Except OfflineError offlineClient
  | [] => Except.ok c
  | pr :: rest =>
    match processResult path c pr with
    | Except.error err => Except.error err
    | Except.ok c2 => processResults path c2 rest

/-- The call of `file.WalkManifests` on one base path: the callback runs on every file the
walk meets; its first error, or the first failure of the walk, ends the walk. -/
def processSteps (c : offlineClient) : List WalkStep → Except OfflineError offlineClient
  | [] => Except.ok c
  | WalkStep.failure err :: _ => Except.error (OfflineError.walk err)
  | WalkStep.file path results :: rest =>
    match processResults path c results with
    | Except.error err => Except.error err
    | Except.ok c2 => processSteps c2 rest

/-- The loop of lines 49-94 over the base paths; `walk` tells what the walk meets under a base
path. -/
def processPaths (walk : String → List WalkStep) (c : offlineClient) :
    List String → Except OfflineError offlineClient
  | [] => Except.ok c
  | basePath :: rest =>
    match processSteps c (walk basePath) with
    | Except.error err => Except.error err
    | Except.ok c2 => processPaths walk c2 rest

/-- The source function `newOfflineClient`: the client, or the error (and then no client). -/
def newOfflineClient (walk : String → List WalkStep) (paths : List String) :
    Except OfflineError offlineClient :=
  processPaths walk {} paths

/-- The objects of the parse results of one walk step, in order. -/
def WalkStep.objects : WalkStep → List ParsedObject
  | WalkStep.file _ results => results.filterMap (fun pr => pr.Object)
  | WalkStep.failure _ => []

/-- All objects parsed from the files under the given paths, in order. -/
def parsedObjects (walk : String → List WalkStep) (paths : List String) : List ParsedObject :=
  paths.flatMap (fun basePath => (walk basePath).flatMap WalkStep.objects)

/-- The walk step is a file all of whose parse results have no error. -/
def WalkStep.clean : WalkStep → Bool
  | WalkStep.file _ results => results.all (fun pr => pr.Err.isNone)
  | WalkStep.failure _ => false

/-- No walk under the given paths fails and no parse result has an error. -/
def cleanPaths (walk : String → List WalkStep) (paths : List String) : Bool :=
  paths.all (fun basePath => (walk basePath).all WalkStep.clean)

/-- Two parsed objects collide: two cluster workflow templates of the same name, or two
workflow templates of the same namespace and name. -/
def SameKey : ParsedObject → ParsedObject → Prop
  | ParsedObject.clusterWorkflowTemplate a, ParsedObject.clusterWorkflowTemplate b =>
    a.Name = b.Name
  | ParsedObject.workflowTemplate a, ParsedObject.workflowTemplate b =>
    a.Namespace = b.Namespace ∧ a.Name = b.Name
  | _, _ => False

/-- No two objects of the list, at different positions, collide. -/
def NoDuplicates (objs : List ParsedObject) : Prop :=
  objs.Pairwise (fun a b => ¬ SameKey a b)

/-- The client holds exactly the templates among `objs`, each under its name (and namespace),
and no two of `objs` collide. -/
def Represents (c : offlineClient) (objs : List ParsedObject) : Prop :=
  (∀ n v, c.clusterWorkflowTemplateGetter.clusterWorkflowTemplates.lookup n = some v ↔
    (ParsedObject.clusterWorkflowTemplate v ∈ objs ∧ v.Name = n)) ∧
  (∀ ns n v,
    (GetNamespaceGetter c.namespacedWorkflowTemplateGetterMap ns).workflowTemplates.lookup n =
        some v ↔
      (ParsedObject.workflowTemplate v ∈ objs ∧ v.Namespace = ns ∧ v.Name = n)) ∧
  (∀ ns, (GetNamespaceGetter c.namespacedWorkflowTemplateGetterMap ns).namespace_ = ns) ∧
  NoDuplicates objs

/-- What a run of the loading loops from a client that holds `objs` may end with, after
meeting the objects `newObjs`: a client that holds all of them, when nothing met was in error
(`clean`); or an error, which is a duplicate error for a collision among the objects unless
something met was in error. -/
def Outcome (r : Except OfflineError offlineClient) (objs newObjs : List ParsedObject)
    (clean : Bool) : Prop :=
  match r with
  | Except.ok c => Represents c (objs ++ newObjs) ∧ clean = true
  | Except.error e =>
    clean = false ∨ (e.isDuplicate = true ∧ ¬ NoDuplicates (objs ++ newObjs))

/-- A loop with a fallible body over a list: the first error ends it. -/
def forExcept {α : Type} (f : offlineClient → α → Except OfflineError offlineClient)
    (c : offlineClient) : List α → Except OfflineError offlineClient
  | [] => Except.ok c
  | a :: rest =>
    match f c a with
    | Except.error err => Except.error err
    | Except.ok c2 => forExcept f c2 rest

/-- The body of the walk of `processSteps` on one step. -/
def processStep (c : offlineClient) : WalkStep → Except OfflineError offlineClient
  | WalkStep.failure err => Except.error (OfflineError.walk err)
  | WalkStep.file path results => processResults path c results

/-- What the loops of `newOfflineClient` meet, one at a time: a parse result of the file
`path`, or a failure of a walk. -/
inductive WalkItem where
  | result (path : String) (pr : ParseResult)
  | failure (err : String)
deriving DecidableEq, Repr

/-- What the walk meets at one step, one at a time. -/
def WalkStep.items : WalkStep → List WalkItem
  | WalkStep.file path results => results.map (WalkItem.result path)
  | WalkStep.failure err => [WalkItem.failure err]

/-- Everything the loops meet under the given paths, in the order of the loops. -/
def walkItems (walk : String → List WalkStep) (paths : List String) : List WalkItem :=
  paths.flatMap (fun basePath => (walk basePath).flatMap WalkStep.items)

/-- The object of a parse result, if it has one. -/
def WalkItem.objects : WalkItem → List ParsedObject
  | WalkItem.result _ pr => pr.Object.toList
  | WalkItem.failure _ => []

/-- The item is a parse result without error. -/
def WalkItem.clean : WalkItem → Bool
  | WalkItem.result _ pr => pr.Err.isNone
  | WalkItem.failure _ => false

/-- The error the loops return at an item that is a parse result in error (line 54) or a
failure of the walk (line 92). -/
def WalkItem.error : WalkItem → Option OfflineError
  | WalkItem.result path pr => pr.Err.map (OfflineError.parse path)
  | WalkItem.failure err => some (OfflineError.walk err)

/-- The body of the loops of `newOfflineClient` on one item. -/
def processItem (c : offlineClient) : WalkItem → Except OfflineError offlineClient
  | WalkItem.result path pr => processResult path c pr
  | WalkItem.failure err => Except.error (OfflineError.walk err)

/-- A second sample walk: the path `e` holds one file that parses to the cluster workflow
template `build`, to `build` again, and to a parse error; the walk of the path `f` fails. -/
def lateErrorWalk (basePath : String) : List WalkStep :=
  if basePath = "e" then
    [WalkStep.file "e/templates.yaml"
      [{ Object := some (ParsedObject.clusterWorkflowTemplate { Name := "build", Spec := "1" }) },
       { Object := some (ParsedObject.clusterWorkflowTemplate { Name := "build", Spec := "2" }) },
       { Err := some "yaml: line 9: did not find expected key" }]]
  else if basePath = "f" then [WalkStep.failure "lstat f: no such file or directory"]
  else []

/-- A sample walk: the path `a` holds one file with the workflow template `argo/build` and
the cluster workflow template `build`; the path `b` holds one file with the workflow template
`ci/build` and an object of another kind; the path `c` holds a file with the cluster workflow
template `build`, a parse error, and `build` again; the path `d` holds `argo/build` again. -/
def sampleWalk (basePath : String) : List WalkStep :=
  if basePath = "a" then
    [WalkStep.file "a/templates.yaml"
      [{ Object := some (ParsedObject.workflowTemplate { Name := "build", Namespace := "argo" }) },
       { Object := some (ParsedObject.clusterWorkflowTemplate { Name := "build" }) }]]
  else if basePath = "b" then
    [WalkStep.file "b/templates.yaml"
      [{ Object := some (ParsedObject.workflowTemplate { Name := "build", Namespace := "ci" }) },
       { Object := some (ParsedObject.other "hello" "argo") }, {}]]
  else if basePath = "c" then
    [WalkStep.file "c/broken.yaml"
      [{ Object := some (ParsedObject.clusterWorkflowTemplate { Name := "build", Spec := "1" }) },
       { Err := some "yaml: line 3: mapping values are not allowed in this context" },
       { Object := some (ParsedObject.clusterWorkflowTemplate { Name := "build", Spec := "2" }) }]]
  else if basePath = "d" then
    [WalkStep.file "d/again.yaml"
      [{ Object := some (ParsedObject.workflowTemplate
          { Name := "build", Namespace := "argo", Spec := "other" }) }]]
  else []

/-! ## Workers and the key lock -/

/-- Modelled from the spec: the Key Lock (the field `workflowKeyLock`, a `KeyLock` of package
util/sync, not under src/), "a set of per-key mutexes; acquiring the lock for key K blocks
until no other worker holds K". `held key` tells whether the mutex of `key` is locked. -/
structure KeyLock where
  held : String → Bool

/-- Modelled from the spec: `KeyLock.Lock(key)`, which returns once no other worker holds
`key`; `none` when the call cannot return yet (the mutex is locked). -/
def KeyLock.Lock (l : KeyLock) (key : String) : Option KeyLock :=
  if l.held key then none else some { held := fun k => if k = key then true else l.held k }

/-- Modelled from the spec: `KeyLock.Unlock(key)`, which frees the mutex of `key`. -/
def KeyLock.Unlock (l : KeyLock) (key : String) : KeyLock :=
  { held := fun k => if k = key then false else l.held k }

/-- A worker goroutine (`runWorker`) inside a pass of `processNextItem`: the calls of the pass
it has made so far and the calls it still has to make, in order. -/
structure Worker where
  performed : List Action
  remaining : List Action

/-- The worker has returned from `Lock(key)` and has not called `Unlock(key)` yet: it is running
the body of `processNextItem` for `key`. -/
def Worker.inBody (wk : Worker) (key : String) : Bool :=
  wk.performed.contains (Action.keyLock key) && !wk.performed.contains (Action.keyUnlock key)

/-- The key lock of the controller and its workers, numbered. -/
structure Controller where
  workflowKeyLock : KeyLock
  workers : Nat → Worker

/-- No mutex is locked and no worker is inside a pass. -/
def Controller.start : Controller :=
  { workflowKeyLock := { held := fun _ => false },
    workers := fun _ => { performed := [], remaining := [] } }

/-- The controller with worker `w` replaced by `wk`. -/
def Controller.setWorker (c : Controller) (w : Nat) (wk : Worker) : Controller :=
  { c with workers := fun i => if i = w then wk else c.workers i }

/-- What the scheduler lets happen next: worker `w` begins a pass (`wfQueue.Get()` hands it
`key` and `quit`; `env` and `completions` fix what the pass will meet), or worker `w` makes
the next call of its pass. -/
inductive Event where
  | begin (w : Nat) (env : Env) (completions : List recentlyCompletedWorkflow) (key : String)
      (quit : Bool)
  | advance (w : Nat)

/-- One scheduling step. A worker between passes begins the pass `processNextItem` describes;
a worker inside a pass makes its next call, where `Lock` goes through only when the mutex is
free (a blocked worker stays where it is) and `Unlock` frees the mutex. -/
def Controller.step (c : Controller) : Event → Controller
  | Event.begin w env completions key quit =>
    match (c.workers w).remaining with
    | [] =>
      c.setWorker w
        { performed := [], remaining := (processNextItem env completions key quit).trace }
    | _ :: _ => c
  | Event.advance w =>
    match (c.workers w).remaining with
    | [] => c
    | Action.keyLock key :: rest =>
      match c.workflowKeyLock.Lock key with
      | none => c
      | some l =>
        Controller.setWorker { c with workflowKeyLock := l } w
          { performed := (c.workers w).performed ++ [Action.keyLock key], remaining := rest }
    | Action.keyUnlock key :: rest =>
      Controller.setWorker { c with workflowKeyLock := c.workflowKeyLock.Unlock key } w
        { performed := (c.workers w).performed ++ [Action.keyUnlock key], remaining := rest }
    | a :: rest =>
      c.setWorker w { performed := (c.workers w).performed ++ [a], remaining := rest }

/-- The controller after a schedule, from the start. -/
def Controller.run (events : List Event) : Controller :=
  events.foldl Controller.step Controller.start

/-- A call on the key lock. -/
def Action.isLockOp : Action → Bool
  | Action.keyLock _ => true
  | Action.keyUnlock _ => true
  | _ => false

/-- Where a worker stands in its pass, with the key whose lock it holds there, if any. -/
inductive Worker.Shape : Worker → Option String → Prop where
  | idle : Worker.Shape { performed := [], remaining := [] } none
  | waiting (key : String) (body : List Action) (hbody : ∀ a ∈ body, a.isLockOp = false) :
      Worker.Shape
        { performed := [],
          remaining := Action.keyLock key :: (body ++ [Action.keyUnlock key, Action.queueDone key]) }
        none
  | running (key : String) (b1 b2 : List Action) (h1 : ∀ a ∈ b1, a.isLockOp = false)
      (h2 : ∀ a ∈ b2, a.isLockOp = false) :
      Worker.Shape
        { performed := Action.keyLock key :: b1,
          remaining := b2 ++ [Action.keyUnlock key, Action.queueDone key] }
        (some key)
  | unlocked (key : String) (b1 : List Action) (h1 : ∀ a ∈ b1, a.isLockOp = false) :
      Worker.Shape
        { performed := Action.keyLock key :: (b1 ++ [Action.keyUnlock key]),
          remaining := [Action.queueDone key] }
        none
  | finished (key : String) (b1 : List Action) (h1 : ∀ a ∈ b1, a.isLockOp = false) :
      Worker.Shape
        { performed := Action.keyLock key :: (b1 ++ [Action.keyUnlock key, Action.queueDone key]),
          remaining := [] }
        none

/-- The invariant of the schedule: every worker stands at a point of a pass, a mutex is locked
exactly when some worker runs the body for its key, and no two workers do for the same key. -/
def Controller.Inv (c : Controller) : Prop :=
  ∃ holds : Nat → Option String,
    (∀ w, Worker.Shape (c.workers w) (holds w)) ∧
    (∀ key, c.workflowKeyLock.held key = true ↔ ∃ w, holds w = some key) ∧
    (∀ w1 w2 key, holds w1 = some key → holds w2 = some key → w1 = w2)

/-- A sample schedule: workers 0 and 1 both get the key `argo/hello`; worker 0 takes the key
lock and looks the workflow up, worker 1 tries the lock twice in between. -/
def sampleSchedule : List Event :=
  [Event.begin 0
     (sampleEnv (found (CacheObject.unstructured sampleUn)) (sampleWf "Running" "", none)
       true none false 0) [] "argo/hello" false,
   Event.begin 1
     (sampleEnv (found (CacheObject.unstructured sampleUn)) (sampleWf "Running" "", none)
       true none false 0) [] "argo/hello" false,
   Event.advance 0, Event.advance 1, Event.advance 0, Event.advance 1]

/-! ## The expiry cleanup as the specification words it -/

/-- An entry is newer than the cutoff of the expiry cleanup at `now`: its completion time is
strictly after `now` minus 10 minutes. -/
def newerThanCutoff (now : Int) (e : recentlyCompletedWorkflow) : Bool :=
  decide (e.when > now - 10 * minute)

/-- The expiry cleanup in the words of the specification: when some entry is newer than the
cutoff, the suffix of the list that starts at the first such entry (the entries before it are
removed, it and everything after it are kept in order); otherwise the list as it is. -/
def cleanCompletedWorkflowsRecordSpec (now : Int)
    (completions : List recentlyCompletedWorkflow) : List recentlyCompletedWorkflow :=
  if completions.any (newerThanCutoff now) then
    completions.dropWhile (fun e => !newerThanCutoff now e)
  else completions

/-- The keys of a completions list, in order. -/
def completionKeys (completions : List recentlyCompletedWorkflow) : List String :=
  completions.map (fun e => e.key)

/-! ### Lemmas on the expiry cleanup -/

theorem removeIndexFrom_ge (cutoff : Int) (l : List recentlyCompletedWorkflow) (i : Nat) :
    removeIndexFrom cutoff l i = -1 ∨ (i : Int) - 1 ≤ removeIndexFrom cutoff l i := by
  induction l generalizing i with
  | nil => left; rfl
  | cons val rest ih =>
    unfold removeIndexFrom
    split
    · right; exact le_refl _
    · rcases ih (i + 1) with h | h
      · left; exact h
      · right; push_cast at h; omega

/-- An entry after the cutoff survives the slice the scan started at index `i` selects. -/
theorem mem_drop_removeIndexFrom (cutoff : Int) (e : recentlyCompletedWorkflow)
    (he : e.when > cutoff) (l : List recentlyCompletedWorkflow) (i : Nat) (hmem : e ∈ l) :
    (i : Int) - 1 ≤ removeIndexFrom cutoff l i ∧
      e ∈ l.drop (removeIndexFrom cutoff l i + 1 - i).toNat := by
  induction l generalizing i with
  | nil => cases hmem
  | cons val rest ih =>
    unfold removeIndexFrom
    split
    · refine ⟨le_refl _, ?_⟩
      have : ((i : Int) - 1 + 1 - i).toNat = 0 := by simp
      rw [this]; simpa using hmem
    · rename_i hval
      have hne : e ≠ val := by
        intro h; subst h; exact hval he
      have hrest : e ∈ rest := by
        rcases List.mem_cons.mp hmem with h | h
        · exact absurd h hne
        · exact h
      obtain ⟨h1, h2⟩ := ih (i + 1) hrest
      push_cast at h1
      refine ⟨by omega, ?_⟩
      have : (removeIndexFrom cutoff rest (i + 1) + 1 - (i : Int)).toNat
          = (removeIndexFrom cutoff rest (i + 1) + 1 - ((i + 1 : Nat) : Int)).toNat + 1 := by
        push_cast; omega
      rw [this, List.drop_succ_cons]
      exact h2

/-- The expiry cleanup at `now` keeps every entry completed after `now - 10 minutes`. -/
theorem mem_clean_of_recent (now : Int) (e : recentlyCompletedWorkflow)
    (l : List recentlyCompletedWorkflow) (hmem : e ∈ l)
    (he : e.when > now + maxCompletedStoreTime) :
    e ∈ cleanCompletedWorkflowsRecord now l := by
  unfold cleanCompletedWorkflowsRecord
  simp only
  split
  · have h := (mem_drop_removeIndexFrom _ e he l 0 hmem).2
    simpa using h
  · exact hmem

theorem hasKey_of_mem (e : recentlyCompletedWorkflow) (l : List recentlyCompletedWorkflow)
    (hmem : e ∈ l) : hasKey e.key l = true := by
  induction l with
  | nil => cases hmem
  | cons val rest ih =>
    unfold hasKey
    split
    · rfl
    · rename_i hne
      rcases List.mem_cons.mp hmem with h | h
      · exact absurd (by rw [h]) hne
      · exact ih h


/-- A call all of whose clock readings are before `e.when + 10 minutes` keeps entry `e`. -/
theorem mem_apply_of_recent (e : recentlyCompletedWorkflow) (op : CompletionOp)
    (l : List recentlyCompletedWorkflow) (hmem : e ∈ l)
    (hop : ∀ r ∈ op.readings, e.when > r + maxCompletedStoreTime) :
    e ∈ op.apply l := by
  cases op with
  | record key nowCheck nowAppend =>
    have h := mem_clean_of_recent nowCheck e l hmem
      (hop nowCheck (by simp [CompletionOp.readings]))
    simp only [CompletionOp.apply, recordCompletedWorkflow, checkRecentlyCompleted]
    split
    · exact List.mem_append_left _ h
    · exact h
  | check key now =>
    exact mem_clean_of_recent now e l hmem (hop now (by simp [CompletionOp.readings]))
  | clean now =>
    exact mem_clean_of_recent now e l hmem (hop now (by simp [CompletionOp.readings]))

theorem mem_run_of_recent (e : recentlyCompletedWorkflow) (ops : List CompletionOp)
    (l : List recentlyCompletedWorkflow) (hmem : e ∈ l)
    (hops : ∀ r ∈ clockReadings ops, e.when > r + maxCompletedStoreTime) :
    e ∈ runCompletionOps l ops := by
  induction ops generalizing l with
  | nil => exact hmem
  | cons op rest ih =>
    simp only [runCompletionOps, List.foldl_cons]
    apply ih
    · apply mem_apply_of_recent e op l hmem
      intro r hr
      exact hops r (by simp [clockReadings]; exact Or.inl hr)
    · intro r hr
      exact hops r (by simp [clockReadings] at hr ⊢; exact Or.inr hr)

/-! ### Claims on RecentCompletions -/

/-- C1: when `recordCompletedWorkflow(K)` appends `K` with time stamp `t`, then after any
sequence of record, check and clean calls under a non-decreasing clock,
`checkRecentlyCompleted(K)` at a clock reading `t2` with `t ≤ t2 < t + 10 minutes` returns
true. -/
theorem checkRecentlyCompleted_within_window (completions : List recentlyCompletedWorkflow)
    (K : String) (t0 t t2 : Int) (ops : List CompletionOp)
    (happend : (checkRecentlyCompleted t0 K completions).1 = false)
    (hclock : NonDecreasing ([t0, t] ++ clockReadings ops ++ [t2]))
    (hwindow : t2 < t + 10 * minute) :
    (checkRecentlyCompleted t2 K
      (runCompletionOps (recordCompletedWorkflow t0 t K completions) ops)).1 = true := by
  have hle : ∀ r ∈ clockReadings ops, r ≤ t2 := by
    intro r hr
    unfold NonDecreasing at hclock
    rw [List.pairwise_append] at hclock
    exact hclock.2.2 r (List.mem_append_right _ hr) t2 (by simp)
  have hrec : (⟨K, t⟩ : recentlyCompletedWorkflow) ∈
      recordCompletedWorkflow t0 t K completions := by
    simp only [recordCompletedWorkflow, happend]
    simp
  have hrun := mem_run_of_recent ⟨K, t⟩ ops _ hrec (by
    intro r hr
    have := hle r hr
    simp only [maxCompletedStoreTime, minute, second] at *
    omega)
  have hfin := mem_clean_of_recent t2 ⟨K, t⟩ _ hrun (by
    simp only [maxCompletedStoreTime, minute, second] at *
    omega)
  exact hasKey_of_mem ⟨K, t⟩ _ hfin

/-- Witness of C1: a key recorded at time 0 is still reported 9 minutes 59 seconds later, after
an expiry cleanup, another record and a check in between. -/
theorem checkRecentlyCompleted_within_window_witness :
    (checkRecentlyCompleted (599 * second) "argo/hello"
      (runCompletionOps (recordCompletedWorkflow 0 0 "argo/hello" [])
        [CompletionOp.clean (300 * second),
         CompletionOp.record "argo/other" (400 * second) (400 * second),
         CompletionOp.check "argo/other" (500 * second)])).1 = true :=
  checkRecentlyCompleted_within_window [] "argo/hello" 0 0 (599 * second)
    [CompletionOp.clean (300 * second),
     CompletionOp.record "argo/other" (400 * second) (400 * second),
     CompletionOp.check "argo/other" (500 * second)]
    (by decide)
    (by simp [NonDecreasing, clockReadings, CompletionOp.readings, second])
    (by decide)

/-- When no entry is after the cutoff the expiry cleanup removes nothing: a key that is the
only entry of the list is reported at every later clock reading. -/
theorem checkRecentlyCompleted_single_entry (K : String) (t t2 : Int) :
    checkRecentlyCompleted t2 K [⟨K, t⟩] = (true, [⟨K, t⟩]) := by
  simp only [checkRecentlyCompleted, cleanCompletedWorkflowsRecord, removeIndexFrom]
  split <;> simp [hasKey]

/-- C2 (failing input): `argo/hello` is recorded at time 0 into the empty list; the check 10
minutes and 1 second later still returns true, and the expired entry is still in the list. -/
theorem checkRecentlyCompleted_only_entry_never_expires :
    checkRecentlyCompleted (601 * second) "argo/hello"
      (recordCompletedWorkflow 0 0 "argo/hello" []) = (true, [⟨"argo/hello", 0⟩]) := by
  decide

/-! ### The dispatch loop -/

theorem processNextItem_trace (env : Env) (completions : List recentlyCompletedWorkflow)
    (key : String) :
    (processNextItem env completions key false).trace =
      Action.keyLock key :: ((processBody env completions key).trace ++
        [Action.keyUnlock key, Action.queueDone key]) := by
  simp [processNextItem]

theorem processBody_of_pastChecks (env : Env) (completions : List recentlyCompletedWorkflow)
    (key : String) (un : Unstructured) (wf : Workflow)
    (h : PastChecks env completions key un wf) :
    processBody env completions key =
      processChecked env key wf (recentlyCompletedCheck env.now wf completions).2 := by
  obtain ⟨h1, h2, h3, h4⟩ := h
  simp [processBody, h1, h2, h3, h4]

/-- C4 (failing input): the informer filter records the completed workflow `argo/hello` under
its key `argo/hello`; a pass on a cached copy of that workflow with phase Running one second
later finds the key in RecentCompletions, and still schedules the resync requeue, consults the
throttler, hydrates and operates, because the pass looks the bare name `hello` up. -/
theorem processNextItem_recorded_key_not_rejected :
    (workflowFilterFunc 0 0
      (CacheObject.unstructured
        { ObjectMeta := { Namespace := "argo", Name := "hello",
                          Labels := [(LabelKeyCompleted, "true")] } }) []).2
      = [⟨"argo/hello", 0⟩] ∧
    (checkRecentlyCompleted second "argo/hello" [⟨"argo/hello", 0⟩]).1 = true ∧
    (processNextItem
      (sampleEnv (found (CacheObject.unstructured sampleUn)) (sampleWf "Running" "", none)
        true none false second)
      [⟨"argo/hello", 0⟩] "argo/hello" false).trace =
      [Action.keyLock "argo/hello", Action.getByKey "argo/hello",
       Action.queueAddAfter "argo/hello" workflowResyncPeriod,
       Action.throttlerAdmit "argo/hello", Action.hydrate, Action.operate,
       Action.operationCompleted, Action.keyUnlock "argo/hello",
       Action.queueDone "argo/hello"] := by
  decide

/-- The admission condition of `processNextItem` is true exactly for a strategy other than
Terminate. -/
theorem admission_condition (strategy : String) :
    (!ShutdownStrategyEnabled strategy || strategy != ShutdownStrategyTerminate) =
      (strategy != ShutdownStrategyTerminate) := by
  by_cases hs : strategy = ShutdownStrategyTerminate
  · subst hs; decide
  · have hne : (strategy != ShutdownStrategyTerminate) = true := by simpa using hs
    simp [hne]

theorem processChecked_terminate (env : Env) (key : String) (wf : Workflow)
    (completions : List recentlyCompletedWorkflow)
    (hs : wf.Spec.Shutdown = ShutdownStrategyTerminate) :
    processChecked env key wf completions =
      processAdmitted env key wf completions
        [Action.getByKey key, Action.queueAddAfter key workflowResyncPeriod] := by
  simp only [processChecked, admission_condition]
  simp [hs]

theorem processChecked_admitted (env : Env) (key : String) (wf : Workflow)
    (completions : List recentlyCompletedWorkflow)
    (hs : wf.Spec.Shutdown ≠ ShutdownStrategyTerminate) (ha : env.throttlerAdmit key = true) :
    processChecked env key wf completions =
      processAdmitted env key wf completions
        [Action.getByKey key, Action.queueAddAfter key workflowResyncPeriod,
         Action.throttlerAdmit key] := by
  simp only [processChecked, admission_condition]
  simp [hs, ha]

theorem processChecked_denied (env : Env) (key : String) (wf : Workflow)
    (completions : List recentlyCompletedWorkflow)
    (hs : wf.Spec.Shutdown ≠ ShutdownStrategyTerminate) (ha : env.throttlerAdmit key = false) :
    processChecked env key wf completions =
      if wf.Status.Phase = WorkflowUnknown then
        { trace := [Action.getByKey key, Action.queueAddAfter key workflowResyncPeriod,
            Action.throttlerAdmit key,
            Action.markWorkflowPhase WorkflowPending postponedMessage, Action.persistUpdates],
          completions := completions,
          wf := some (env.persistUpdates
            (env.markWorkflowPhase wf WorkflowPending postponedMessage)) }
      else
        { trace := [Action.getByKey key, Action.queueAddAfter key workflowResyncPeriod,
            Action.throttlerAdmit key],
          completions := completions, wf := some wf } := by
  simp only [processChecked, admission_condition]
  simp [hs, ha]

theorem processAdmitted_eq (env : Env) (key : String) (wf : Workflow)
    (completions : List recentlyCompletedWorkflow) (before : List Action) :
    processAdmitted env key wf completions before =
      { trace := before ++ callsAfterAdmission env wf ++
          (if reconciliationNeeded (workflowAfterAdmitted env wf).ObjectMeta = false then
            [Action.throttlerRemove key] else []),
        completions := completions,
        wf := some (workflowAfterAdmitted env wf) } := by
  simp [processAdmitted]

theorem throttlerAdmit_not_mem_callsAfterAdmission (env : Env) (wf : Workflow) (k : String) :
    Action.throttlerAdmit k ∉ callsAfterAdmission env wf := by
  simp only [callsAfterAdmission]
  cases (env.hydrate wf).2 <;> simp

theorem throttlerRemove_not_mem_callsAfterAdmission (env : Env) (wf : Workflow) (k : String) :
    Action.throttlerRemove k ∉ callsAfterAdmission env wf := by
  simp only [callsAfterAdmission]
  cases (env.hydrate wf).2 <;> simp

theorem hydrate_mem_callsAfterAdmission (env : Env) (wf : Workflow) :
    Action.hydrate ∈ callsAfterAdmission env wf := by
  simp only [callsAfterAdmission]
  cases (env.hydrate wf).2 <;> simp

/-- C5: on a pass that reaches the admission step, `Throttler.Admit(key)` is called if and
only if the shutdown strategy of the workflow is not Terminate; with strategy Terminate the
pass calls Hydrate, and operate when hydration succeeds, with no call of Admit, whatever the
throttler would have answered. -/
theorem throttlerAdmit_iff_not_terminate (env : Env)
    (completions : List recentlyCompletedWorkflow) (key : String) (un : Unstructured)
    (wf : Workflow) (h : PastChecks env completions key un wf) :
    (Action.throttlerAdmit key ∈ (processNextItem env completions key false).trace ↔
      wf.Spec.Shutdown ≠ ShutdownStrategyTerminate) ∧
    (wf.Spec.Shutdown = ShutdownStrategyTerminate →
      (∀ k, Action.throttlerAdmit k ∉ (processNextItem env completions key false).trace) ∧
      Action.hydrate ∈ (processNextItem env completions key false).trace ∧
      ((env.hydrate wf).2 = none →
        Action.operate ∈ (processNextItem env completions key false).trace)) := by
  have hb := processBody_of_pastChecks env completions key un wf h
  have hterm : wf.Spec.Shutdown = ShutdownStrategyTerminate →
      (∀ k, Action.throttlerAdmit k ∉ (processNextItem env completions key false).trace) ∧
      Action.hydrate ∈ (processNextItem env completions key false).trace ∧
      ((env.hydrate wf).2 = none →
        Action.operate ∈ (processNextItem env completions key false).trace) := by
    intro hs
    have hn := throttlerAdmit_not_mem_callsAfterAdmission env wf
    have hy := hydrate_mem_callsAfterAdmission env wf
    simp only [processNextItem_trace, hb, processChecked_terminate env key wf _ hs,
      processAdmitted_eq]
    refine ⟨?_, ?_, ?_⟩
    · intro k
      have := hn k
      split <;> simp [this]
    · simp [hy]
    · intro hh
      simp [callsAfterAdmission, hh]
  refine ⟨⟨?_, ?_⟩, hterm⟩
  · intro hmem hs
    exact (hterm hs).1 key hmem
  · intro hs
    simp only [processNextItem_trace, hb]
    cases ha : env.throttlerAdmit key
    · rw [processChecked_denied env key wf _ hs ha]
      split <;> simp
    · rw [processChecked_admitted env key wf _ hs ha, processAdmitted_eq]
      simp

/-- Witness of C5: a Running workflow with no shutdown strategy whose cached object needs
reconciliation and whose name is not in the empty RecentCompletions. -/
theorem throttlerAdmit_iff_not_terminate_witness :
    (Action.throttlerAdmit "argo/hello" ∈
      (processNextItem
        (sampleEnv (found (CacheObject.unstructured sampleUn)) (sampleWf "Running" "", none)
          true none false 0)
        [] "argo/hello" false).trace ↔
      (sampleWf "Running" "").Spec.Shutdown ≠ ShutdownStrategyTerminate) :=
  (throttlerAdmit_iff_not_terminate
    (sampleEnv (found (CacheObject.unstructured sampleUn)) (sampleWf "Running" "", none)
      true none false 0)
    [] "argo/hello" sampleUn (sampleWf "Running" "")
    ⟨by decide, by decide, by decide, by decide⟩).1

/-- C6: when `Throttler.Admit(key)` is called and returns false, the pass makes exactly the
calls Lock, GetByKey, AddAfter, Admit, then `markWorkflowPhase(Pending)` and `persistUpdates`
when the phase was Unknown (empty) and nothing when it was not, then Unlock and Done. So
there is no call of Hydrate, operate or `Throttler.Remove`; the phase is set to Pending and
persisted if and only if it was empty, and otherwise `woc.wf` is the workflow as converted. -/
theorem admission_denied (env : Env) (completions : List recentlyCompletedWorkflow)
    (key : String) (un : Unstructured) (wf : Workflow)
    (h : PastChecks env completions key un wf)
    (hs : wf.Spec.Shutdown ≠ ShutdownStrategyTerminate)
    (hdeny : env.throttlerAdmit key = false) :
    (processNextItem env completions key false).ret = true ∧
    (processNextItem env completions key false).trace =
      [Action.keyLock key, Action.getByKey key,
       Action.queueAddAfter key workflowResyncPeriod, Action.throttlerAdmit key] ++
      (if wf.Status.Phase = WorkflowUnknown then
        [Action.markWorkflowPhase WorkflowPending postponedMessage, Action.persistUpdates]
       else []) ++
      [Action.keyUnlock key, Action.queueDone key] ∧
    Action.hydrate ∉ (processNextItem env completions key false).trace ∧
    Action.operate ∉ (processNextItem env completions key false).trace ∧
    (∀ k, Action.throttlerRemove k ∉ (processNextItem env completions key false).trace) ∧
    (Action.markWorkflowPhase WorkflowPending postponedMessage ∈
      (processNextItem env completions key false).trace ↔ wf.Status.Phase = WorkflowUnknown) ∧
    (Action.persistUpdates ∈ (processNextItem env completions key false).trace ↔
      wf.Status.Phase = WorkflowUnknown) ∧
    (wf.Status.Phase = WorkflowUnknown →
      (processNextItem env completions key false).wf =
        some (env.persistUpdates (env.markWorkflowPhase wf WorkflowPending postponedMessage))) ∧
    (wf.Status.Phase ≠ WorkflowUnknown →
      (processNextItem env completions key false).wf = some wf ∧
      (∀ p m, Action.markWorkflowPhase p m ∉ (processNextItem env completions key false).trace) ∧
      (∀ m, Action.markWorkflowFailed m ∉ (processNextItem env completions key false).trace) ∧
      (∀ e, Action.markWorkflowError e ∉ (processNextItem env completions key false).trace)) := by
  have hb := processBody_of_pastChecks env completions key un wf h
  have hc := processChecked_denied env key wf
    (recentlyCompletedCheck env.now wf completions).2 hs hdeny
  have hwf : (processNextItem env completions key false).wf =
      (processBody env completions key).wf := by simp [processNextItem]
  rw [hwf, processNextItem_trace, hb, hc]
  refine ⟨by simp [processNextItem], ?_⟩
  by_cases hp : wf.Status.Phase = WorkflowUnknown
  · simp [hp]
  · simp [hp]

/-- Witness of C6: a workflow with an empty phase whose admission is denied. -/
theorem admission_denied_witness :
    (processNextItem
      (sampleEnv (found (CacheObject.unstructured sampleUn)) (sampleWf "" "", none)
        false none false 0)
      [] "argo/hello" false).trace =
      [Action.keyLock "argo/hello", Action.getByKey "argo/hello",
       Action.queueAddAfter "argo/hello" workflowResyncPeriod,
       Action.throttlerAdmit "argo/hello"] ++
      (if (sampleWf "" "").Status.Phase = WorkflowUnknown then
        [Action.markWorkflowPhase WorkflowPending postponedMessage, Action.persistUpdates]
       else []) ++
      [Action.keyUnlock "argo/hello", Action.queueDone "argo/hello"] :=
  (admission_denied
    (sampleEnv (found (CacheObject.unstructured sampleUn)) (sampleWf "" "", none)
      false none false 0)
    [] "argo/hello" sampleUn (sampleWf "" "")
    ⟨by decide, by decide, by decide, by decide⟩ (by decide) (by decide)).2.1

/-- A pass that is admitted, or bypasses admission, ends with the calls after admission and
the deferred calls. -/
theorem processChecked_of_admitted (env : Env) (key : String) (wf : Workflow)
    (completions : List recentlyCompletedWorkflow)
    (hadm : wf.Spec.Shutdown = ShutdownStrategyTerminate ∨ env.throttlerAdmit key = true) :
    ∃ before, (∀ k, Action.throttlerRemove k ∉ before) ∧
      processChecked env key wf completions = processAdmitted env key wf completions before := by
  by_cases hs : wf.Spec.Shutdown = ShutdownStrategyTerminate
  · exact ⟨_, by simp, processChecked_terminate env key wf completions hs⟩
  · rcases hadm with h | h
    · exact absurd h hs
    · exact ⟨_, by simp, processChecked_admitted env key wf completions hs h⟩

/-- In a pass in which admission was granted or bypassed, `woc.wf` at the end of the pass is
`workflowAfterAdmitted`, `Throttler.Remove(key)` is called exactly when `reconciliationNeeded`
is false for it, and when it is called it is the last call before Unlock and Done. -/
theorem admitted_pass_throttlerRemove (env : Env)
    (completions : List recentlyCompletedWorkflow) (key : String) (un : Unstructured)
    (wf : Workflow) (h : PastChecks env completions key un wf)
    (hadm : wf.Spec.Shutdown = ShutdownStrategyTerminate ∨ env.throttlerAdmit key = true) :
    (processNextItem env completions key false).wf = some (workflowAfterAdmitted env wf) ∧
    (Action.throttlerRemove key ∈ (processNextItem env completions key false).trace ↔
      reconciliationNeeded (workflowAfterAdmitted env wf).ObjectMeta = false) ∧
    (reconciliationNeeded (workflowAfterAdmitted env wf).ObjectMeta = false →
      ∃ calls, (∀ k, Action.throttlerRemove k ∉ calls) ∧
        (processNextItem env completions key false).trace =
          calls ++ [Action.throttlerRemove key, Action.keyUnlock key, Action.queueDone key]) ∧
    (∀ k, k ≠ key → Action.throttlerRemove k ∉ (processNextItem env completions key false).trace) := by
  have hb := processBody_of_pastChecks env completions key un wf h
  obtain ⟨before, hbefore, hc⟩ := processChecked_of_admitted env key wf
    (recentlyCompletedCheck env.now wf completions).2 hadm
  have hwf : (processNextItem env completions key false).wf =
      (processBody env completions key).wf := by simp [processNextItem]
  have hcalls := throttlerRemove_not_mem_callsAfterAdmission env wf
  rw [hwf, processNextItem_trace, hb, hc, processAdmitted_eq]
  refine ⟨rfl, ?_, ?_, ?_⟩
  · by_cases hn : reconciliationNeeded (workflowAfterAdmitted env wf).ObjectMeta = false
    · simp [hn]
    · simp [hn, hbefore key, hcalls key]
  · intro hn
    refine ⟨Action.keyLock key :: (before ++ callsAfterAdmission env wf), ?_, ?_⟩
    · intro k
      simp [hbefore k, hcalls k]
    · simp [hn]
  · intro k hk
    by_cases hn : reconciliationNeeded (workflowAfterAdmitted env wf).ObjectMeta = false
    · simp [hn, hbefore k, hcalls k, hk]
    · simp [hn, hbefore k, hcalls k]

/-- An admitted pass whose hydration succeeds calls operate. -/
theorem admitted_pass_operate (env : Env) (completions : List recentlyCompletedWorkflow)
    (key : String) (un : Unstructured) (wf : Workflow)
    (h : PastChecks env completions key un wf)
    (hadm : wf.Spec.Shutdown = ShutdownStrategyTerminate ∨ env.throttlerAdmit key = true)
    (hh : (env.hydrate wf).2 = none) :
    Action.operate ∈ (processNextItem env completions key false).trace := by
  have hb := processBody_of_pastChecks env completions key un wf h
  obtain ⟨before, _, hc⟩ := processChecked_of_admitted env key wf
    (recentlyCompletedCheck env.now wf completions).2 hadm
  rw [processNextItem_trace, hb, hc, processAdmitted_eq]
  simp [callsAfterAdmission, hh]

/-- An admitted pass whose hydration fails does not call operate. -/
theorem admitted_pass_no_operate (env : Env) (completions : List recentlyCompletedWorkflow)
    (key : String) (un : Unstructured) (wf : Workflow) (err : String)
    (h : PastChecks env completions key un wf)
    (hadm : wf.Spec.Shutdown = ShutdownStrategyTerminate ∨ env.throttlerAdmit key = true)
    (hh : (env.hydrate wf).2 = some err) :
    Action.operate ∉ (processNextItem env completions key false).trace := by
  have hb := processBody_of_pastChecks env completions key un wf h
  have hc : ∃ before, Action.operate ∉ before ∧
      processChecked env key wf (recentlyCompletedCheck env.now wf completions).2 =
        processAdmitted env key wf (recentlyCompletedCheck env.now wf completions).2 before := by
    by_cases hs : wf.Spec.Shutdown = ShutdownStrategyTerminate
    · exact ⟨_, by simp, processChecked_terminate env key wf _ hs⟩
    · rcases hadm with h2 | h2
      · exact absurd h2 hs
      · exact ⟨_, by simp, processChecked_admitted env key wf _ hs h2⟩
  obtain ⟨before, hbefore, hc⟩ := hc
  rw [processNextItem_trace, hb, hc, processAdmitted_eq]
  simp only [callsAfterAdmission, hh]
  split <;> simp [hbefore]

/-- A pass that calls `Throttler.Remove` got past the four checks and was admitted or bypassed
admission. -/
theorem admitted_of_throttlerRemove (env : Env) (completions : List recentlyCompletedWorkflow)
    (key : String) (quit : Bool) (k : String)
    (hmem : Action.throttlerRemove k ∈ (processNextItem env completions key quit).trace) :
    ∃ un wf, PastChecks env completions key un wf ∧
      (wf.Spec.Shutdown = ShutdownStrategyTerminate ∨ env.throttlerAdmit key = true) := by
  cases quit with
  | true => simp [processNextItem] at hmem
  | false =>
    rw [processNextItem_trace] at hmem
    cases hg : getWorkflowByKey env key with
    | none => simp [processBody, hg] at hmem
    | some obj =>
      cases obj with
      | other => simp [processBody, hg] at hmem
      | unstructured un =>
        by_cases hr : reconciliationNeeded un.ObjectMeta = true
        · rcases hconv : env.fromUnstructured un with ⟨wf, err⟩
          cases err with
          | some e => simp [processBody, hg, hr, hconv] at hmem
          | none =>
            by_cases hrc : (recentlyCompletedCheck env.now wf completions).1 = true
            · simp [processBody, hg, hr, hconv, hrc] at hmem
            · have hrc2 : (recentlyCompletedCheck env.now wf completions).1 = false := by
                simpa using hrc
              have hpast : PastChecks env completions key un wf := ⟨hg, hr, hconv, hrc2⟩
              by_cases hadm : wf.Spec.Shutdown = ShutdownStrategyTerminate ∨
                  env.throttlerAdmit key = true
              · exact ⟨un, wf, hpast, hadm⟩
              · exfalso
                have hs : wf.Spec.Shutdown ≠ ShutdownStrategyTerminate :=
                  fun h => hadm (Or.inl h)
                have ha : env.throttlerAdmit key = false := by
                  cases h : env.throttlerAdmit key
                  · rfl
                  · exact absurd (Or.inr h) hadm
                rw [processBody_of_pastChecks env completions key un wf hpast,
                  processChecked_denied env key wf _ hs ha] at hmem
                by_cases hp : wf.Status.Phase = WorkflowUnknown
                · simp [hp] at hmem
                · simp [hp] at hmem
        · simp [processBody, hg, hr] at hmem

/-- C7: in every pass in which admission was granted or bypassed, `woc.wf` at the end of the
pass is what operate left when hydration succeeded (operate ran), and what marking the
hydration error and persisting left when it failed (operate did not run); in both cases
`Throttler.Remove(key)` is called exactly when
`reconciliationNeeded` is false for that workflow, as the last call before Unlock and Done,
and for no other key. A pass that calls `Throttler.Remove` at all was admitted or bypassed
admission: passes that end before or at admission denial never call it. -/
theorem throttlerRemove_exactly_when_terminal (env : Env)
    (completions : List recentlyCompletedWorkflow) (key : String) :
    (∀ un wf, PastChecks env completions key un wf →
      (wf.Spec.Shutdown = ShutdownStrategyTerminate ∨ env.throttlerAdmit key = true) →
      (processNextItem env completions key false).wf = some (workflowAfterAdmitted env wf) ∧
      ((env.hydrate wf).2 = none →
        workflowAfterAdmitted env wf = env.operate (env.hydrate wf).1 ∧
        Action.operate ∈ (processNextItem env completions key false).trace) ∧
      (∀ err, (env.hydrate wf).2 = some err →
        workflowAfterAdmitted env wf =
          env.persistUpdates (env.markWorkflowError (env.hydrate wf).1 err) ∧
        Action.operate ∉ (processNextItem env completions key false).trace) ∧
      (Action.throttlerRemove key ∈ (processNextItem env completions key false).trace ↔
        reconciliationNeeded (workflowAfterAdmitted env wf).ObjectMeta = false) ∧
      (reconciliationNeeded (workflowAfterAdmitted env wf).ObjectMeta = false →
        ∃ calls, (∀ k, Action.throttlerRemove k ∉ calls) ∧
          (processNextItem env completions key false).trace =
            calls ++ [Action.throttlerRemove key, Action.keyUnlock key, Action.queueDone key]) ∧
      (∀ k, k ≠ key →
        Action.throttlerRemove k ∉ (processNextItem env completions key false).trace)) ∧
    (∀ quit k, Action.throttlerRemove k ∈ (processNextItem env completions key quit).trace →
      ∃ un wf, PastChecks env completions key un wf ∧
        (wf.Spec.Shutdown = ShutdownStrategyTerminate ∨ env.throttlerAdmit key = true)) :=
  ⟨fun un wf h hadm =>
    ⟨(admitted_pass_throttlerRemove env completions key un wf h hadm).1,
     fun hh => ⟨by simp [workflowAfterAdmitted, hh],
       admitted_pass_operate env completions key un wf h hadm hh⟩,
     fun err hh => ⟨by simp [workflowAfterAdmitted, hh],
       admitted_pass_no_operate env completions key un wf err h hadm hh⟩,
     (admitted_pass_throttlerRemove env completions key un wf h hadm).2⟩,
   fun quit k hmem => admitted_of_throttlerRemove env completions key quit k hmem⟩

/-- Witness of C7: an admitted pass whose `operate` labels the workflow completed calls
`Throttler.Remove`. -/
theorem throttlerRemove_exactly_when_terminal_witness :
    (Action.throttlerRemove "argo/hello" ∈
      (processNextItem
        (sampleEnv (found (CacheObject.unstructured sampleUn)) (sampleWf "Running" "", none)
          true none true 0)
        [] "argo/hello" false).trace ↔
      reconciliationNeeded (workflowAfterAdmitted
        (sampleEnv (found (CacheObject.unstructured sampleUn)) (sampleWf "Running" "", none)
          true none true 0)
        (sampleWf "Running" "")).ObjectMeta = false) ∧
    reconciliationNeeded (workflowAfterAdmitted
      (sampleEnv (found (CacheObject.unstructured sampleUn)) (sampleWf "Running" "", none)
        true none true 0)
      (sampleWf "Running" "")).ObjectMeta = false :=
  ⟨((throttlerRemove_exactly_when_terminal
      (sampleEnv (found (CacheObject.unstructured sampleUn)) (sampleWf "Running" "", none)
        true none true 0)
      [] "argo/hello").1 sampleUn (sampleWf "Running" "")
      ⟨by decide, by decide, by decide, by decide⟩ (Or.inr (by decide))).2.2.2.1,
   by decide⟩

/-- C8: when the lookup of the key errors, or the key is absent from the cache, or the cached
object is not an unstructured object, or `reconciliationNeeded` is false for it, the pass
returns true after exactly the calls Lock, GetByKey, Unlock, Done; the recent-completions list
is unchanged and no operation context is created. -/
theorem processNextItem_skips (env : Env) (completions : List recentlyCompletedWorkflow)
    (key : String)
    (h : (env.getByKey key).err ≠ none ∨ (env.getByKey key).exist = false ∨
      (env.getByKey key).item = CacheObject.other ∨
      ∃ un, (env.getByKey key).item = CacheObject.unstructured un ∧
        reconciliationNeeded un.ObjectMeta = false) :
    processNextItem env completions key false =
      { ret := true,
        trace := [Action.keyLock key, Action.getByKey key, Action.keyUnlock key,
          Action.queueDone key],
        completions := completions,
        wf := none } := by
  have hbody : processBody env completions key =
      { trace := [Action.getByKey key], completions := completions, wf := none } := by
    cases hg : getWorkflowByKey env key with
    | none => simp [processBody, hg]
    | some obj =>
      cases obj with
      | other => simp [processBody, hg]
      | unstructured un =>
        have hitem : (env.getByKey key).err = none ∧ (env.getByKey key).exist = true ∧
            (env.getByKey key).item = CacheObject.unstructured un := by
          simp only [getWorkflowByKey] at hg
          split at hg
          · cases hg
          · rename_i herr
            split at hg
            · cases hg
            · rename_i hex
              refine ⟨herr, by simpa using hex, ?_⟩
              simpa using hg
        rcases h with h | h | h | ⟨un2, h, hn⟩
        · exact absurd hitem.1 h
        · rw [hitem.2.1] at h; cases h
        · rw [hitem.2.2] at h; cases h
        · rw [hitem.2.2] at h
          cases h
          simp [processBody, hg, hn]
  simp [processNextItem, hbody]

/-- Witness of C8: a key that is absent from the informer cache. -/
theorem processNextItem_skips_witness :
    processNextItem
      (sampleEnv { item := CacheObject.other, exist := false, err := none }
        (sampleWf "Running" "", none) true none false 0)
      [⟨"argo/other", 0⟩] "argo/hello" false =
      { ret := true,
        trace := [Action.keyLock "argo/hello", Action.getByKey "argo/hello",
          Action.keyUnlock "argo/hello", Action.queueDone "argo/hello"],
        completions := [⟨"argo/other", 0⟩],
        wf := none } :=
  processNextItem_skips
    (sampleEnv { item := CacheObject.other, exist := false, err := none }
      (sampleWf "Running" "", none) true none false 0)
    [⟨"argo/other", 0⟩] "argo/hello" (Or.inr (Or.inl (by decide)))

/-- C9: `reconciliationNeeded(wf)` is true if and only if the value of the completed label is
not the string "true" or the finalizers contain the artifact-GC finalizer; a workflow labelled
completed=true needs reconciliation when it carries the artifact-GC finalizer and does not
when it does not. -/
theorem reconciliationNeeded_iff (wf : ObjectMeta) :
    (reconciliationNeeded wf = true ↔
      (mapIndex wf.Labels LabelKeyCompleted ≠ "true" ∨ FinalizerArtifactGC ∈ wf.Finalizers)) ∧
    (mapIndex wf.Labels LabelKeyCompleted = "true" → FinalizerArtifactGC ∈ wf.Finalizers →
      reconciliationNeeded wf = true) ∧
    (mapIndex wf.Labels LabelKeyCompleted = "true" → FinalizerArtifactGC ∉ wf.Finalizers →
      reconciliationNeeded wf = false) := by
  have hiff : reconciliationNeeded wf = true ↔
      (mapIndex wf.Labels LabelKeyCompleted ≠ "true" ∨ FinalizerArtifactGC ∈ wf.Finalizers) := by
    simp [reconciliationNeeded]
  refine ⟨hiff, ?_, ?_⟩
  · intro _ hf
    exact hiff.mpr (Or.inr hf)
  · intro hl hf
    cases hn : reconciliationNeeded wf
    · rfl
    · rcases hiff.mp hn with h | h
      · exact absurd hl h
      · exact absurd h hf

/-- C10: when conversion of the cached object fails with error `err`, the pass makes exactly
the calls Lock, GetByKey, `markWorkflowFailed("cannot unmarshall spec: " ++ err)`,
`persistUpdates`, Unlock, Done, and returns true: there is no resync requeue, no throttler
call, no Hydrate and no operate. -/
theorem processNextItem_unmarshal_failure (env : Env)
    (completions : List recentlyCompletedWorkflow) (key : String) (un : Unstructured)
    (wf : Workflow) (err : String)
    (hg : getWorkflowByKey env key = some (CacheObject.unstructured un))
    (hn : reconciliationNeeded un.ObjectMeta = true)
    (hconv : env.fromUnstructured un = (wf, some err)) :
    processNextItem env completions key false =
      { ret := true,
        trace := [Action.keyLock key, Action.getByKey key,
          Action.markWorkflowFailed ("cannot unmarshall spec: " ++ err),
          Action.persistUpdates, Action.keyUnlock key, Action.queueDone key],
        completions := completions,
        wf := some (env.persistUpdates
          (env.markWorkflowFailed wf ("cannot unmarshall spec: " ++ err))) } := by
  simp [processNextItem, processBody, hg, hn, hconv]

/-- Witness of C10: the conversion of the cached object fails with "bad spec". -/
theorem processNextItem_unmarshal_failure_witness :
    (processNextItem
      (sampleEnv (found (CacheObject.unstructured sampleUn)) (sampleWf "" "", some "bad spec")
        true none false 0)
      [] "argo/hello" false).trace =
      [Action.keyLock "argo/hello", Action.getByKey "argo/hello",
       Action.markWorkflowFailed "cannot unmarshall spec: bad spec",
       Action.persistUpdates, Action.keyUnlock "argo/hello", Action.queueDone "argo/hello"] :=
  (congrArg PassResult.trace
    (processNextItem_unmarshal_failure
      (sampleEnv (found (CacheObject.unstructured sampleUn)) (sampleWf "" "", some "bad spec")
        true none false 0)
      [] "argo/hello" sampleUn (sampleWf "" "") "bad spec"
      (by decide) (by decide) (by decide))).trans (by decide)

/-! ### One reconciliation per key -/

theorem callsAfterAdmission_noLock (env : Env) (wf : Workflow) :
    ∀ a ∈ callsAfterAdmission env wf, a.isLockOp = false := by
  intro a ha
  simp only [callsAfterAdmission] at ha
  cases hh : (env.hydrate wf).2 <;> simp [hh] at ha <;>
    rcases ha with h | h | h <;> subst h <;> rfl

theorem processAdmitted_shape (env : Env) (key : String) (wf : Workflow)
    (completions : List recentlyCompletedWorkflow) (before : List Action)
    (hbefore : ∀ a ∈ before, a.isLockOp = false) :
    ∀ a ∈ (processAdmitted env key wf completions
      (Action.getByKey key :: before)).trace.tail, a.isLockOp = false := by
  intro a ha
  rw [processAdmitted_eq] at ha
  simp only [List.cons_append, List.tail_cons, List.mem_append] at ha
  rcases ha with (h | h) | h
  · exact hbefore a h
  · exact callsAfterAdmission_noLock env wf a h
  · split at h
    · simp at h; subst h; rfl
    · cases h

theorem processChecked_shape (env : Env) (key : String) (wf : Workflow)
    (completions : List recentlyCompletedWorkflow) :
    ∃ rest, (processChecked env key wf completions).trace = Action.getByKey key :: rest ∧
      ∀ a ∈ rest, a.isLockOp = false := by
  by_cases hs : wf.Spec.Shutdown = ShutdownStrategyTerminate
  · rw [processChecked_terminate env key wf completions hs]
    refine ⟨_, ?_, processAdmitted_shape env key wf completions
      [Action.queueAddAfter key workflowResyncPeriod] ?_⟩
    · simp [processAdmitted_eq]
    · intro a ha; simp at ha; subst ha; rfl
  · cases ha : env.throttlerAdmit key
    · rw [processChecked_denied env key wf completions hs ha]
      by_cases hp : wf.Status.Phase = WorkflowUnknown
      · refine ⟨_, by rw [if_pos hp], ?_⟩
        intro a ha; simp at ha
        rcases ha with h | h | h | h <;> subst h <;> rfl
      · refine ⟨_, by rw [if_neg hp], ?_⟩
        intro a ha; simp at ha
        rcases ha with h | h <;> subst h <;> rfl
    · rw [processChecked_admitted env key wf completions hs ha]
      refine ⟨_, ?_, processAdmitted_shape env key wf completions
        [Action.queueAddAfter key workflowResyncPeriod, Action.throttlerAdmit key] ?_⟩
      · simp [processAdmitted_eq]
      · intro a ha; simp at ha
        rcases ha with h | h <;> subst h <;> rfl

/-- The body of a pass begins with the lookup of the key and makes no call on the key lock. -/
theorem processBody_shape (env : Env) (completions : List recentlyCompletedWorkflow)
    (key : String) :
    ∃ rest, (processBody env completions key).trace = Action.getByKey key :: rest ∧
      ∀ a ∈ rest, a.isLockOp = false := by
  cases hg : getWorkflowByKey env key with
  | none => exact ⟨[], by simp [processBody, hg], by simp⟩
  | some obj =>
    cases obj with
    | other => exact ⟨[], by simp [processBody, hg], by simp⟩
    | unstructured un =>
      by_cases hr : reconciliationNeeded un.ObjectMeta = true
      · rcases hconv : env.fromUnstructured un with ⟨wf, err⟩
        cases err with
        | some e =>
          refine ⟨_, by simp [processBody, hg, hr, hconv]; rfl, ?_⟩
          intro a ha; simp at ha
          rcases ha with h | h <;> subst h <;> rfl
        | none =>
          by_cases hrc : (recentlyCompletedCheck env.now wf completions).1 = true
          · exact ⟨[], by simp [processBody, hg, hr, hconv, hrc], by simp⟩
          · have hrc2 : (recentlyCompletedCheck env.now wf completions).1 = false := by
              simpa using hrc
            rw [processBody_of_pastChecks env completions key un wf ⟨hg, hr, hconv, hrc2⟩]
            exact processChecked_shape env key wf _
      · exact ⟨[], by simp [processBody, hg, hr], by simp⟩

/-- A worker runs the body for `key` exactly when its point in the pass holds the lock of
`key`. -/
theorem inBody_iff_of_shape (wk : Worker) (hv : Option String) (hs : Worker.Shape wk hv)
    (key : String) : wk.inBody key = true ↔ hv = some key := by
  cases hs with
  | idle => simp [Worker.inBody]
  | waiting k body hb => simp [Worker.inBody]
  | running k b1 b2 h1 h2 =>
    have hl : Action.keyLock key ∉ b1 := fun hm => by simpa [Action.isLockOp] using h1 _ hm
    have hu : Action.keyUnlock key ∉ b1 := fun hm => by simpa [Action.isLockOp] using h1 _ hm
    simp [Worker.inBody, hl, hu, eq_comm]
  | unlocked k b1 h1 =>
    have hl : Action.keyLock key ∉ b1 := fun hm => by simpa [Action.isLockOp] using h1 _ hm
    have hu : Action.keyUnlock key ∉ b1 := fun hm => by simpa [Action.isLockOp] using h1 _ hm
    simp [Worker.inBody, hl, hu]
  | finished k b1 h1 =>
    have hl : Action.keyLock key ∉ b1 := fun hm => by simpa [Action.isLockOp] using h1 _ hm
    have hu : Action.keyUnlock key ∉ b1 := fun hm => by simpa [Action.isLockOp] using h1 _ hm
    simp [Worker.inBody, hl, hu]

theorem inv_start : Controller.start.Inv := by
  refine ⟨fun _ => none, fun _ => Worker.Shape.idle, ?_, ?_⟩
  · intro key; simp [Controller.start]
  · intro w1 w2 key h; cases h

/-- Replacing worker `w` and the key lock keeps the invariant when the new worker stands at a
point of a pass and the new lock agrees with the keys held. -/
theorem inv_setWorker (c : Controller) (holds : Nat → Option String)
    (hshape : ∀ w, Worker.Shape (c.workers w) (holds w)) (w : Nat) (wk : Worker) (l : KeyLock)
    (hv : Option String) (hwk : Worker.Shape wk hv)
    (hheld : ∀ key, l.held key = true ↔ ∃ i, (if i = w then hv else holds i) = some key)
    (huniq : ∀ w1 w2 key, (if w1 = w then hv else holds w1) = some key →
      (if w2 = w then hv else holds w2) = some key → w1 = w2) :
    (Controller.setWorker { c with workflowKeyLock := l } w wk).Inv := by
  refine ⟨fun i => if i = w then hv else holds i, ?_, hheld, huniq⟩
  intro i
  by_cases hi : i = w
  · simp [Controller.setWorker, hi, hwk]
  · simp [Controller.setWorker, hi, hshape i]

/-- Replacing worker `w` by a worker that holds the same key keeps the invariant. -/
theorem inv_setWorker_same (c : Controller) (holds : Nat → Option String)
    (hshape : ∀ w, Worker.Shape (c.workers w) (holds w))
    (hheld : ∀ key, c.workflowKeyLock.held key = true ↔ ∃ w, holds w = some key)
    (huniq : ∀ w1 w2 key, holds w1 = some key → holds w2 = some key → w1 = w2)
    (w : Nat) (wk : Worker) (hwk : Worker.Shape wk (holds w)) :
    (c.setWorker w wk).Inv := by
  have hsame : ∀ i, (if i = w then holds w else holds i) = holds i := by
    intro i; by_cases hi : i = w <;> simp [hi]
  have h := inv_setWorker c holds hshape w wk c.workflowKeyLock (holds w) hwk
    (by intro key; simp only [hsame]; exact hheld key)
    (by intro w1 w2 key; simp only [hsame]; exact huniq w1 w2 key)
  simpa using h

/-- A worker between passes that begins a pass keeps the invariant. -/
theorem inv_begin (c : Controller) (holds : Nat → Option String)
    (hshape : ∀ w, Worker.Shape (c.workers w) (holds w))
    (hheld : ∀ key, c.workflowKeyLock.held key = true ↔ ∃ w, holds w = some key)
    (huniq : ∀ w1 w2 key, holds w1 = some key → holds w2 = some key → w1 = w2)
    (w : Nat) (env : Env) (completions : List recentlyCompletedWorkflow) (key : String)
    (quit : Bool) (hnone : holds w = none) :
    (c.setWorker w
      { performed := [], remaining := (processNextItem env completions key quit).trace }).Inv := by
  apply inv_setWorker_same c holds hshape hheld huniq
  rw [hnone]
  cases quit with
  | true => simpa [processNextItem] using Worker.Shape.idle
  | false =>
    obtain ⟨rest, hrest, hno⟩ := processBody_shape env completions key
    rw [processNextItem_trace, hrest]
    refine Worker.Shape.waiting key (Action.getByKey key :: rest) ?_
    intro a ha
    rcases List.mem_cons.mp ha with h | h
    · subst h; rfl
    · exact hno a h

/-- Every scheduling step keeps the invariant. -/
theorem inv_step (c : Controller) (hinv : c.Inv) (e : Event) : (c.step e).Inv := by
  obtain ⟨holds, hshape, hheld, huniq⟩ := hinv
  have hback : c.Inv := ⟨holds, hshape, hheld, huniq⟩
  cases e with
  | begin w env completions key quit =>
    have hw := hshape w
    generalize hwk : c.workers w = wk at hw
    generalize hhv : holds w = hv at hw
    cases hw with
    | idle =>
      simp only [Controller.step, hwk]
      exact inv_begin c holds hshape hheld huniq w env completions key quit hhv
    | waiting k body hb =>
      simp only [Controller.step, hwk]
      exact hback
    | running k b1 b2 h1 h2 =>
      cases b2 <;> simp only [Controller.step, hwk, List.cons_append, List.nil_append] <;>
        exact hback
    | unlocked k b1 h1 =>
      simp only [Controller.step, hwk]
      exact hback
    | finished k b1 h1 =>
      simp only [Controller.step, hwk]
      exact inv_begin c holds hshape hheld huniq w env completions key quit hhv
  | advance w =>
    have hw := hshape w
    generalize hwk : c.workers w = wk at hw
    generalize hhv : holds w = hv at hw
    cases hw with
    | idle =>
      simp only [Controller.step, hwk]
      exact hback
    | waiting k body hb =>
      simp only [Controller.step, hwk, KeyLock.Lock]
      cases hk : c.workflowKeyLock.held k with
      | true =>
        simp only [if_true]
        exact hback
      | false =>
        simp only [Bool.false_eq_true, if_false, List.nil_append]
        have hfree : ∀ i, holds i ≠ some k := by
          intro i hi
          have := (hheld k).mpr ⟨i, hi⟩
          rw [hk] at this
          cases this
        apply inv_setWorker c holds hshape w _ _ (some k)
          (Worker.Shape.running k [] body (by simp) hb)
        · intro key
          by_cases hkey : key = k
          · subst hkey
            simp only [if_true, true_iff]
            exact ⟨w, by simp⟩
          · simp only [hkey, if_false]
            rw [hheld key]
            constructor
            · rintro ⟨i, hi⟩
              have hiw : i ≠ w := by
                intro h; subst h; rw [hhv] at hi; cases hi
              exact ⟨i, by simp [hiw, hi]⟩
            · rintro ⟨i, hi⟩
              by_cases hiw : i = w
              · simp [hiw] at hi; exact absurd hi.symm hkey
              · simp [hiw] at hi; exact ⟨i, hi⟩
        · intro w1 w2 key h1 h2
          by_cases hw1 : w1 = w <;> by_cases hw2 : w2 = w
          · rw [hw1, hw2]
          · simp [hw1] at h1; simp [hw2] at h2
            subst h1; exact absurd h2 (hfree w2)
          · simp [hw1] at h1; simp [hw2] at h2
            subst h2; exact absurd h1 (hfree w1)
          · simp [hw1] at h1; simp [hw2] at h2
            exact huniq w1 w2 key h1 h2
    | running k b1 b2 h1 h2 =>
      cases b2 with
      | nil =>
        simp only [Controller.step, hwk, List.nil_append]
        apply inv_setWorker c holds hshape w _ _ none (Worker.Shape.unlocked k b1 h1)
        · intro key
          simp only [KeyLock.Unlock]
          by_cases hkey : key = k
          · subst hkey
            simp only [if_true, Bool.false_eq_true, false_iff]
            rintro ⟨i, hi⟩
            by_cases hiw : i = w
            · simp [hiw] at hi
            · simp [hiw] at hi
              exact hiw (huniq i w key hi hhv)
          · simp only [hkey, if_false]
            rw [hheld key]
            constructor
            · rintro ⟨i, hi⟩
              have hiw : i ≠ w := by
                intro h; subst h; rw [hhv] at hi
                exact hkey (Option.some.inj hi).symm
              exact ⟨i, by simp [hiw, hi]⟩
            · rintro ⟨i, hi⟩
              by_cases hiw : i = w
              · simp [hiw] at hi
              · simp [hiw] at hi; exact ⟨i, hi⟩
        · intro w1 w2 key h1 h2
          by_cases hw1 : w1 = w <;> by_cases hw2 : w2 = w
          · rw [hw1, hw2]
          · simp [hw1] at h1
          · simp [hw2] at h2
          · simp [hw1] at h1; simp [hw2] at h2
            exact huniq w1 w2 key h1 h2
      | cons a b2 =>
        have ha : a.isLockOp = false := h2 a (List.mem_cons_self _ _)
        have hstep : c.step (Event.advance w) =
            c.setWorker w
              { performed := Action.keyLock k :: (b1 ++ [a]),
                remaining := b2 ++ [Action.keyUnlock k, Action.queueDone k] } := by
          cases a <;> simp [Action.isLockOp] at ha <;> simp [Controller.step, hwk]
        rw [hstep]
        apply inv_setWorker_same c holds hshape hheld huniq
        rw [hhv]
        refine Worker.Shape.running k (b1 ++ [a]) b2 ?_ ?_
        · intro x hx
          rcases List.mem_append.mp hx with h | h
          · exact h1 x h
          · simp at h; subst h; exact ha
        · intro x hx
          exact h2 x (List.mem_cons_of_mem _ hx)
    | unlocked k b1 h1 =>
      have hstep : c.step (Event.advance w) =
          c.setWorker w
            { performed := Action.keyLock k :: (b1 ++ [Action.keyUnlock k, Action.queueDone k]),
              remaining := [] } := by
        simp [Controller.step, hwk]
      rw [hstep]
      apply inv_setWorker_same c holds hshape hheld huniq
      rw [hhv]
      exact Worker.Shape.finished k b1 h1
    | finished k b1 h1 =>
      simp only [Controller.step, hwk]
      exact hback

theorem inv_foldl (events : List Event) (c : Controller) (hinv : c.Inv) :
    (events.foldl Controller.step c).Inv := by
  induction events generalizing c with
  | nil => exact hinv
  | cons e rest ih => exact ih _ (inv_step c hinv e)

theorem inv_run (events : List Event) : (Controller.run events).Inv :=
  inv_foldl events Controller.start inv_start

/-- C3: after every schedule of workers that each run passes of `processNextItem`, at most one
worker is running the body of `processNextItem` for a key (it has returned from `Lock(key)` and
has not called `Unlock(key)`), and that worker holds the lock of the key. Every pass takes the
lock of its key first, looks the workflow up next, and releases the lock only after every other
call of the pass, right before `Done`. -/
theorem one_reconciliation_per_key (events : List Event) :
    (∀ w1 w2 key, ((Controller.run events).workers w1).inBody key = true →
      ((Controller.run events).workers w2).inBody key = true → w1 = w2) ∧
    (∀ w key, ((Controller.run events).workers w).inBody key = true →
      (Controller.run events).workflowKeyLock.held key = true) ∧
    (∀ env completions key, ∃ body,
      (processNextItem env completions key false).trace =
        Action.keyLock key :: Action.getByKey key ::
          (body ++ [Action.keyUnlock key, Action.queueDone key]) ∧
      ∀ a ∈ body, a.isLockOp = false) := by
  obtain ⟨holds, hshape, hheld, huniq⟩ := inv_run events
  refine ⟨?_, ?_, ?_⟩
  · intro w1 w2 key h1 h2
    exact huniq w1 w2 key ((inBody_iff_of_shape _ _ (hshape w1) key).mp h1)
      ((inBody_iff_of_shape _ _ (hshape w2) key).mp h2)
  · intro w key h
    exact (hheld key).mpr ⟨w, (inBody_iff_of_shape _ _ (hshape w) key).mp h⟩
  · intro env completions key
    obtain ⟨rest, hrest, hno⟩ := processBody_shape env completions key
    exact ⟨rest, by rw [processNextItem_trace, hrest]; rfl, hno⟩

/-- Witness of C3: in the sample schedule worker 0 is running the body for `argo/hello`, the
lock of `argo/hello` is held, and worker 1, which got the same key, is not running the body. -/
theorem one_reconciliation_per_key_witness :
    ((Controller.run sampleSchedule).workers 0).inBody "argo/hello" = true ∧
    (Controller.run sampleSchedule).workflowKeyLock.held "argo/hello" = true ∧
    ((Controller.run sampleSchedule).workers 1).inBody "argo/hello" = false := by
  have h0 : ((Controller.run sampleSchedule).workers 0).inBody "argo/hello" = true := by decide
  refine ⟨h0, (one_reconciliation_per_key sampleSchedule).2.1 0 "argo/hello" h0, ?_⟩
  cases h1 : ((Controller.run sampleSchedule).workers 1).inBody "argo/hello"
  · rfl
  · exact absurd ((one_reconciliation_per_key sampleSchedule).1 0 1 "argo/hello" h0 h1)
      (by decide)

/-! ### Hydration failure and the resync requeue -/

/-- The calls of an admitted or bypassing pass before Hydrate. -/
theorem processChecked_admitted_cases (env : Env) (key : String) (wf : Workflow)
    (completions : List recentlyCompletedWorkflow)
    (hadm : wf.Spec.Shutdown = ShutdownStrategyTerminate ∨ env.throttlerAdmit key = true) :
    processChecked env key wf completions =
      processAdmitted env key wf completions
        ([Action.getByKey key, Action.queueAddAfter key workflowResyncPeriod] ++
          (if wf.Spec.Shutdown = ShutdownStrategyTerminate then []
           else [Action.throttlerAdmit key])) := by
  by_cases hs : wf.Spec.Shutdown = ShutdownStrategyTerminate
  · rw [processChecked_terminate env key wf completions hs]
    simp [hs]
  · rcases hadm with h | h
    · exact absurd h hs
    · rw [processChecked_admitted env key wf completions hs h]
      simp [hs]

/-- C11: when Hydrate returns error `err` in a pass of `processNextItem` (the pass was
admitted or bypassed admission), the calls of the pass are exactly Lock, GetByKey, AddAfter,
Admit unless the strategy is Terminate, Hydrate, `markWorkflowError(err)`, `persistUpdates`,
the deferred `Throttler.Remove` when the workflow needs no reconciliation any more, Unlock and
Done. The workflow the pass leaves is the persisted, error-marked workflow, and operate is not
called. -/
theorem hydrate_error_marks_and_persists (env : Env)
    (completions : List recentlyCompletedWorkflow) (key : String) (un : Unstructured)
    (wf : Workflow) (err : String) (h : PastChecks env completions key un wf)
    (hadm : wf.Spec.Shutdown = ShutdownStrategyTerminate ∨ env.throttlerAdmit key = true)
    (hh : (env.hydrate wf).2 = some err) :
    (processNextItem env completions key false).trace =
      [Action.keyLock key, Action.getByKey key,
       Action.queueAddAfter key workflowResyncPeriod] ++
      (if wf.Spec.Shutdown = ShutdownStrategyTerminate then []
       else [Action.throttlerAdmit key]) ++
      [Action.hydrate, Action.markWorkflowError err, Action.persistUpdates] ++
      (if reconciliationNeeded
          (env.persistUpdates (env.markWorkflowError (env.hydrate wf).1 err)).ObjectMeta = false
       then [Action.throttlerRemove key] else []) ++
      [Action.keyUnlock key, Action.queueDone key] ∧
    (processNextItem env completions key false).wf =
      some (env.persistUpdates (env.markWorkflowError (env.hydrate wf).1 err)) ∧
    Action.operate ∉ (processNextItem env completions key false).trace ∧
    (processNextItem env completions key false).ret = true := by
  have hb := processBody_of_pastChecks env completions key un wf h
  have hc := processChecked_admitted_cases env key wf
    (recentlyCompletedCheck env.now wf completions).2 hadm
  have hwf : (processNextItem env completions key false).wf =
      (processBody env completions key).wf := by simp [processNextItem]
  have hafter : workflowAfterAdmitted env wf =
      env.persistUpdates (env.markWorkflowError (env.hydrate wf).1 err) := by
    simp [workflowAfterAdmitted, hh]
  have hcalls : callsAfterAdmission env wf =
      [Action.hydrate, Action.markWorkflowError err, Action.persistUpdates] := by
    simp [callsAfterAdmission, hh]
  rw [hwf, processNextItem_trace, hb, hc, processAdmitted_eq, hafter, hcalls]
  refine ⟨by simp, rfl, ?_, by simp [processNextItem]⟩
  by_cases hs : wf.Spec.Shutdown = ShutdownStrategyTerminate <;>
    by_cases hn : reconciliationNeeded
      (env.persistUpdates (env.markWorkflowError (env.hydrate wf).1 err)).ObjectMeta = false <;>
    simp [hs, hn]

/-- Witness of C11: an admitted pass whose hydration fails with "offload store down". -/
theorem hydrate_error_marks_and_persists_witness :
    Action.operate ∉
      (processNextItem
        (sampleEnv (found (CacheObject.unstructured sampleUn)) (sampleWf "Running" "", none)
          true (some "offload store down") false 0)
        [] "argo/hello" false).trace :=
  (hydrate_error_marks_and_persists
    (sampleEnv (found (CacheObject.unstructured sampleUn)) (sampleWf "Running" "", none)
      true (some "offload store down") false 0)
    [] "argo/hello" sampleUn (sampleWf "Running" "") "offload store down"
    ⟨by decide, by decide, by decide, by decide⟩ (Or.inr (by decide)) (by decide)).2.2.1

/-- After the requeue a checked pass makes no further call of `AddAfter`. -/
theorem processChecked_requeue (env : Env) (key : String) (wf : Workflow)
    (completions : List recentlyCompletedWorkflow) :
    ∃ rest, (processChecked env key wf completions).trace =
        Action.getByKey key :: Action.queueAddAfter key workflowResyncPeriod :: rest ∧
      ∀ k d, Action.queueAddAfter k d ∉ rest := by
  have hcalls : ∀ k d, Action.queueAddAfter k d ∉ callsAfterAdmission env wf := by
    intro k d
    simp only [callsAfterAdmission]
    cases (env.hydrate wf).2 <;> simp
  by_cases hadm : wf.Spec.Shutdown = ShutdownStrategyTerminate ∨ env.throttlerAdmit key = true
  · rw [processChecked_admitted_cases env key wf completions hadm, processAdmitted_eq]
    refine ⟨_, by simp only [List.cons_append, List.nil_append]; rfl, ?_⟩
    intro k d
    have := hcalls k d
    by_cases hs : wf.Spec.Shutdown = ShutdownStrategyTerminate <;>
      by_cases hn : reconciliationNeeded (workflowAfterAdmitted env wf).ObjectMeta = false <;>
      simp [hs, hn, this]
  · have hs : wf.Spec.Shutdown ≠ ShutdownStrategyTerminate := fun h => hadm (Or.inl h)
    have ha : env.throttlerAdmit key = false := by
      cases h : env.throttlerAdmit key
      · rfl
      · exact absurd (Or.inr h) hadm
    rw [processChecked_denied env key wf completions hs ha]
    by_cases hp : wf.Status.Phase = WorkflowUnknown
    · exact ⟨_, by rw [if_pos hp], by simp⟩
    · exact ⟨_, by rw [if_neg hp], by simp⟩

/-- C12: every pass that gets past the lookup, reconciliation-needed, unmarshal and
recently-completed checks calls `AddAfter(key, workflowResyncPeriod)` right after the lookup,
before every throttler, hydrator and operate call, once, whatever admission, hydration and
operate return; the delay is 20 minutes (1 200 000 000 000 ns). -/
theorem resync_requeue (env : Env) (completions : List recentlyCompletedWorkflow)
    (key : String) (un : Unstructured) (wf : Workflow)
    (h : PastChecks env completions key un wf) :
    (∃ rest, (processNextItem env completions key false).trace =
        Action.keyLock key :: Action.getByKey key ::
          Action.queueAddAfter key workflowResyncPeriod :: rest ∧
      ∀ k d, Action.queueAddAfter k d ∉ rest) ∧
    workflowResyncPeriod = 20 * minute ∧ workflowResyncPeriod = 1200000000000 := by
  have hb := processBody_of_pastChecks env completions key un wf h
  obtain ⟨rest, hrest, hno⟩ := processChecked_requeue env key wf
    (recentlyCompletedCheck env.now wf completions).2
  refine ⟨⟨rest ++ [Action.keyUnlock key, Action.queueDone key], ?_, ?_⟩, rfl, by decide⟩
  · rw [processNextItem_trace, hb, hrest]
    simp
  · intro k d
    simp [hno k d]

/-- Witness of C12: a pass on a Running workflow whose admission is denied still requeues. -/
theorem resync_requeue_witness :
    ∃ rest, (processNextItem
        (sampleEnv (found (CacheObject.unstructured sampleUn)) (sampleWf "Running" "", none)
          false none false 0)
        [] "argo/hello" false).trace =
        Action.keyLock "argo/hello" :: Action.getByKey "argo/hello" ::
          Action.queueAddAfter "argo/hello" workflowResyncPeriod :: rest ∧
      ∀ k d, Action.queueAddAfter k d ∉ rest :=
  (resync_requeue
    (sampleEnv (found (CacheObject.unstructured sampleUn)) (sampleWf "Running" "", none)
      false none false 0)
    [] "argo/hello" sampleUn (sampleWf "Running" "")
    ⟨by decide, by decide, by decide, by decide⟩).1

/-! ### The expiry cleanup, exactly -/

/-- The value of `removeIndex` when the loop is left: with an entry newer than the cutoff in
the list, the index before the first one; with none, `-1`. -/
theorem removeIndexFrom_eq (now : Int) (l : List recentlyCompletedWorkflow) (i : Nat) :
    (l.any (newerThanCutoff now) = true →
      removeIndexFrom (now + maxCompletedStoreTime) l i =
        (i : Int) - 1 + ((l.takeWhile (fun e => !newerThanCutoff now e)).length : Int)) ∧
    (l.any (newerThanCutoff now) = false →
      removeIndexFrom (now + maxCompletedStoreTime) l i = -1) := by
  induction l generalizing i with
  | nil => simp [removeIndexFrom]
  | cons val rest ih =>
    have hcut : now + maxCompletedStoreTime = now - 10 * minute := by
      simp only [maxCompletedStoreTime, minute, second]; omega
    by_cases hv : val.when > now - 10 * minute
    · have hn : newerThanCutoff now val = true := by simp [newerThanCutoff, hv]
      simp [removeIndexFrom, hcut, hv, hn]
    · have hn : newerThanCutoff now val = false := by simp [newerThanCutoff, hv]
      obtain ⟨ih1, ih2⟩ := ih (i + 1)
      rw [hcut] at ih1 ih2
      refine ⟨?_, ?_⟩
      · intro hany
        have hany2 : rest.any (newerThanCutoff now) = true := by simpa [hn] using hany
        simp only [removeIndexFrom, hcut, hv, if_false]
        rw [ih1 hany2]
        simp [hn]
      · intro hany
        have hany2 : rest.any (newerThanCutoff now) = false := by simpa [hn] using hany
        simp only [removeIndexFrom, hcut, hv, if_false]
        exact ih2 hany2

theorem drop_takeWhile_length (p : recentlyCompletedWorkflow → Bool)
    (l : List recentlyCompletedWorkflow) :
    l.drop (l.takeWhile p).length = l.dropWhile p := by
  induction l with
  | nil => rfl
  | cons a rest ih =>
    by_cases ha : p a = true
    · simp [List.takeWhile_cons, List.dropWhile_cons, ha, ih]
    · simp [List.takeWhile_cons, List.dropWhile_cons, ha]

/-- C13: `cleanCompletedWorkflowsRecord` at `now` leaves exactly the suffix of the completions
list that starts at the first entry completed strictly after `now` minus 10 minutes, and
leaves the list unchanged when it is empty or has no such entry. -/
theorem cleanCompletedWorkflowsRecord_eq_spec (now : Int)
    (completions : List recentlyCompletedWorkflow) :
    cleanCompletedWorkflowsRecord now completions =
      cleanCompletedWorkflowsRecordSpec now completions ∧
    cleanCompletedWorkflowsRecord now [] = [] ∧
    ((∀ e ∈ completions, ¬ e.when > now - 10 * minute) →
      cleanCompletedWorkflowsRecord now completions = completions) := by
  have hmain : cleanCompletedWorkflowsRecord now completions =
      cleanCompletedWorkflowsRecordSpec now completions := by
    obtain ⟨h1, h2⟩ := removeIndexFrom_eq now completions 0
    simp only [cleanCompletedWorkflowsRecord, cleanCompletedWorkflowsRecordSpec]
    cases hany : completions.any (newerThanCutoff now)
    · rw [h2 hany]
      simp
    · rw [h1 hany]
      simp only [if_true]
      generalize hn : (completions.takeWhile (fun e => !newerThanCutoff now e)).length = n
      have hd := drop_takeWhile_length (fun e => !newerThanCutoff now e) completions
      rw [hn] at hd
      cases n with
      | zero =>
        simp at hd ⊢
        exact hd
      | succ m =>
        have hge : ((0 : Nat) : Int) - 1 + ((m + 1 : Nat) : Int) ≥ 0 := by push_cast; omega
        rw [if_pos hge, ← hd]
        congr 1
        push_cast
        omega
  refine ⟨hmain, by simp [cleanCompletedWorkflowsRecord, removeIndexFrom], ?_⟩
  intro hall
  rw [hmain]
  have hany : completions.any (newerThanCutoff now) = false := by
    rw [List.any_eq_false]
    intro e he
    simpa [newerThanCutoff] using hall e he
  simp [cleanCompletedWorkflowsRecordSpec, hany]

/-- C14: under-pruning exists. The list holds `argo/a` completed at 1000 s and then `argo/b`
completed at 0 s (times not increasing); after the cleanup at 1100 s the entry of `argo/b`,
completed more than 10 minutes earlier, is still in the list and `checkRecentlyCompleted`
returns true for `argo/b`. -/
theorem under_pruning_exists :
    ∃ (completions : List recentlyCompletedWorkflow) (now : Int)
      (e : recentlyCompletedWorkflow),
      ¬ (completions.map (fun x => x.when)).Pairwise (· < ·) ∧
      e.when < now - 10 * minute ∧
      e ∈ cleanCompletedWorkflowsRecord now completions ∧
      (checkRecentlyCompleted now e.key
        (cleanCompletedWorkflowsRecord now completions)).1 = true ∧
      (checkRecentlyCompleted now e.key completions).1 = true :=
  ⟨[⟨"argo/a", 1000 * second⟩, ⟨"argo/b", 0⟩], 1100 * second, ⟨"argo/b", 0⟩,
    by decide, by decide, by decide, by decide, by decide⟩

/-! ### Distinct keys -/

theorem hasKey_iff_mem_keys (key : String) (l : List recentlyCompletedWorkflow) :
    hasKey key l = true ↔ key ∈ completionKeys l := by
  induction l with
  | nil => simp [hasKey, completionKeys]
  | cons val rest ih =>
    by_cases hk : val.key = key
    · simp [hasKey, completionKeys, hk]
    · have hk2 : ¬ key = val.key := fun h => hk h.symm
      simp only [completionKeys] at ih
      simp [hasKey, completionKeys, hk, hk2, ih]

/-- The expiry cleanup leaves a sublist (a suffix) of the list. -/
theorem clean_sublist (now : Int) (l : List recentlyCompletedWorkflow) :
    List.Sublist (cleanCompletedWorkflowsRecord now l) l := by
  simp only [cleanCompletedWorkflowsRecord]
  split
  · exact List.drop_sublist _ _
  · exact List.Sublist.refl _

theorem nodup_keys_clean (now : Int) (l : List recentlyCompletedWorkflow)
    (h : (completionKeys l).Nodup) :
    (completionKeys (cleanCompletedWorkflowsRecord now l)).Nodup :=
  List.Nodup.sublist ((clean_sublist now l).map _) h

theorem nodup_keys_record (nowCheck nowAppend : Int) (key : String)
    (l : List recentlyCompletedWorkflow) (h : (completionKeys l).Nodup) :
    (completionKeys (recordCompletedWorkflow nowCheck nowAppend key l)).Nodup := by
  have hc := nodup_keys_clean nowCheck l h
  simp only [recordCompletedWorkflow, checkRecentlyCompleted]
  cases hk : hasKey key (cleanCompletedWorkflowsRecord nowCheck l)
  · have hnot : key ∉ completionKeys (cleanCompletedWorkflowsRecord nowCheck l) := by
      intro hmem
      rw [← hasKey_iff_mem_keys, hk] at hmem
      cases hmem
    simp only [Bool.not_false, if_true, completionKeys, List.map_append, List.map_cons,
      List.map_nil]
    rw [List.nodup_append]
    refine ⟨hc, by simp, ?_⟩
    intro a ha hb
    simp at hb
    subst hb
    exact hnot ha
  · simpa using hc

theorem nodup_keys_apply (op : CompletionOp) (l : List recentlyCompletedWorkflow)
    (h : (completionKeys l).Nodup) : (completionKeys (op.apply l)).Nodup := by
  cases op with
  | record key nowCheck nowAppend => exact nodup_keys_record nowCheck nowAppend key l h
  | check key now => exact nodup_keys_clean now l h
  | clean now => exact nodup_keys_clean now l h

theorem nodup_keys_run (ops : List CompletionOp) (l : List recentlyCompletedWorkflow)
    (h : (completionKeys l).Nodup) : (completionKeys (runCompletionOps l ops)).Nodup := by
  induction ops generalizing l with
  | nil => exact h
  | cons op rest ih =>
    simp only [runCompletionOps, List.foldl_cons]
    exact ih _ (nodup_keys_apply op l h)

/-- C15: `recordCompletedWorkflow(K)` leaves the cleaned list with the one entry `(K, now)`
appended when `K` is not in the list after the expiry cleanup, and the cleaned list with
nothing appended when `K` is in it; and after every sequence of record, check and clean calls
from the empty list the keys of the completions list are pairwise distinct. -/
theorem recordCompletedWorkflow_distinct_keys :
    (∀ (nowCheck nowAppend : Int) (K : String) (l : List recentlyCompletedWorkflow),
      K ∉ completionKeys (cleanCompletedWorkflowsRecord nowCheck l) →
      recordCompletedWorkflow nowCheck nowAppend K l =
        cleanCompletedWorkflowsRecord nowCheck l ++ [⟨K, nowAppend⟩]) ∧
    (∀ (nowCheck nowAppend : Int) (K : String) (l : List recentlyCompletedWorkflow),
      K ∈ completionKeys (cleanCompletedWorkflowsRecord nowCheck l) →
      recordCompletedWorkflow nowCheck nowAppend K l =
        cleanCompletedWorkflowsRecord nowCheck l) ∧
    (∀ ops : List CompletionOp, (completionKeys (runCompletionOps [] ops)).Nodup) := by
  refine ⟨?_, ?_, ?_⟩
  · intro nowCheck nowAppend K l hK
    have hk : hasKey K (cleanCompletedWorkflowsRecord nowCheck l) = false := by
      cases h : hasKey K (cleanCompletedWorkflowsRecord nowCheck l)
      · rfl
      · exact absurd ((hasKey_iff_mem_keys K _).mp h) hK
    simp [recordCompletedWorkflow, checkRecentlyCompleted, hk]
  · intro nowCheck nowAppend K l hK
    have hk := (hasKey_iff_mem_keys K _).mpr hK
    simp [recordCompletedWorkflow, checkRecentlyCompleted, hk]
  · intro ops
    exact nodup_keys_run ops [] (by simp [completionKeys])

/-! ### The informer event handlers -/

theorem toInt32_of_inRange (v : Int) (hlo : -(2 ^ 31) ≤ v) (hhi : v < 2 ^ 31) :
    toInt32 v = v := by
  simp only [toInt32]
  split <;> omega

/-- C16: for old and new objects with the same resource version the update handler makes no
call at all (no enqueue, no `Throttler.Add`); when the resource versions differ and the key
of the new object is derived, it calls `AddRateLimited(key)` and then
`Throttler.Add(key, priority, creationTime)` with what `getWfPriority` reads from the new
object: its creation timestamp, and as priority its `spec.priority` (when that is an `int64`
in the `int32` range) or 0 when it has none. -/
theorem workflowUpdateFunc_calls (now : Int) (oldWf newWf : Unstructured) :
    (oldWf.ResourceVersion = newWf.ResourceVersion →
      workflowUpdateFunc now (CacheObject.unstructured oldWf) (CacheObject.unstructured newWf) =
        some []) ∧
    (oldWf.ResourceVersion ≠ newWf.ResourceVersion →
      ∀ key, metaNamespaceKey (CacheObject.unstructured newWf) = Except.ok key →
        workflowUpdateFunc now (CacheObject.unstructured oldWf)
            (CacheObject.unstructured newWf) =
          some [Action.queueAddRateLimited key,
            Action.throttlerAdd key (getWfPriority now (CacheObject.unstructured newWf)).1
              (getWfPriority now (CacheObject.unstructured newWf)).2] ∧
        key = MetaNamespaceKeyFunc newWf.ObjectMeta) ∧
    (getWfPriority now (CacheObject.unstructured newWf)).2 = newWf.CreationTimestamp ∧
    (∀ v, newWf.Priority = PriorityField.int64 v → -(2 ^ 31) ≤ v → v < 2 ^ 31 →
      (getWfPriority now (CacheObject.unstructured newWf)).1 = v) ∧
    (newWf.Priority = PriorityField.absent →
      (getWfPriority now (CacheObject.unstructured newWf)).1 = 0) := by
  refine ⟨?_, ?_, ?_, ?_, ?_⟩
  · intro h
    simp [workflowUpdateFunc, h]
  · intro h key hkey
    simp only [metaNamespaceKey] at hkey
    have hk : MetaNamespaceKeyFunc newWf.ObjectMeta = key := by
      injection hkey
    simp [workflowUpdateFunc, h, metaNamespaceKey, hk]
  · simp only [getWfPriority, NestedInt64]
    cases newWf.Priority <;> simp
  · intro v hv hlo hhi
    simp only [getWfPriority, NestedInt64, hv]
    simpa using toInt32_of_inRange v hlo hhi
  · intro hv
    simp only [getWfPriority, NestedInt64, hv]
    decide

/-- The delete handler on a notification that carries an unstructured object: its calls and
the completions list. -/
theorem workflowDeleteFunc_unstructured (env : Env) (pods : List Pod) (nowCheck nowAppend : Int)
    (un : Unstructured) (completions : List recentlyCompletedWorkflow) :
    workflowDeleteFunc env pods nowCheck nowAppend
        (DeletedObject.object (CacheObject.unstructured un)) completions =
      some ([Action.podsList (LabelKeyWorkflow ++ "=" ++ un.ObjectMeta.Name)] ++
          removePodFinalizers pods ++
          releaseAllWorkflowLocks env (CacheObject.unstructured un) ++
          [Action.recordCompletedWorkflow (MetaNamespaceKeyFunc un.ObjectMeta),
           Action.throttlerRemove (MetaNamespaceKeyFunc un.ObjectMeta)],
        recordCompletedWorkflow nowCheck nowAppend (MetaNamespaceKeyFunc un.ObjectMeta)
          completions) := by
  simp [workflowDeleteFunc, DeletedObject.asObject, deletionHandlingMetaNamespaceKey,
    metaNamespaceKey]

/-- A notification that carries a tombstone: the key function returns the key recorded in the
tombstone, the filter function rejects the notification (a tombstone is not an unstructured
object), and the delete function itself stops at the type assertion of the label selector,
before it derives the key. -/
theorem workflowDeleteFunc_finalStateUnknown (env : Env) (pods : List Pod)
    (nowCheck nowAppend : Int) (key : String) (obj : CacheObject)
    (completions : List recentlyCompletedWorkflow) :
    deletionHandlingMetaNamespaceKey (DeletedObject.finalStateUnknown key obj) =
      Except.ok key ∧
    workflowFilterFunc nowCheck nowAppend (DeletedObject.finalStateUnknown key obj).asObject
      completions = (false, completions) ∧
    workflowDeleteFunc env pods nowCheck nowAppend (DeletedObject.finalStateUnknown key obj)
      completions = none :=
  ⟨rfl, rfl, rfl⟩

theorem removePodFinalizers_no_queueAdd (pods : List Pod) :
    ∀ a ∈ removePodFinalizers pods, a.isQueueAdd = false := by
  induction pods with
  | nil => simp [removePodFinalizers]
  | cons p rest ih =>
    intro a ha
    simp only [removePodFinalizers] at ha
    split at ha
    · rcases List.mem_cons.mp ha with h | h
      · subst h; rfl
      · exact ih a h
    · exact ih a ha

theorem releaseAllWorkflowLocks_no_queueAdd (env : Env) (obj : CacheObject) :
    ∀ a ∈ releaseAllWorkflowLocks env obj, a.isQueueAdd = false := by
  intro a ha
  cases obj with
  | other => simp [releaseAllWorkflowLocks] at ha
  | unstructured un =>
    simp only [releaseAllWorkflowLocks] at ha
    split at ha
    · simp at ha
    · split at ha
      · simp at ha; subst ha; rfl
      · simp at ha

/-- C17 (counterexample): the delete notification carries the deleted object `argo/hello`,
which does not convert to a workflow ("bad spec"), and what was decoded of it records the lock
`argo/ConfigMap/locks/db`. The key `argo/hello` is derived; the delete handler lists the pods,
records the key and calls `Throttler.Remove`: there is no `ReleaseAll` call, no lock of the
workflow is released. -/
theorem workflowDeleteFunc_invalid_object_keeps_locks :
    ((sampleEnv (found (CacheObject.unstructured sampleUn))
        ({ sampleWf "Running" "" with
            Status := { Phase := "Running",
                        Synchronization := some ["argo/ConfigMap/locks/db"] } },
          some "bad spec")
        true none false 0).fromUnstructured sampleUn).1.Status.Synchronization =
      some ["argo/ConfigMap/locks/db"] ∧
    workflowDeleteFunc
      (sampleEnv (found (CacheObject.unstructured sampleUn))
        ({ sampleWf "Running" "" with
            Status := { Phase := "Running",
                        Synchronization := some ["argo/ConfigMap/locks/db"] } },
          some "bad spec")
        true none false 0)
      [] 0 0 (DeletedObject.object (CacheObject.unstructured sampleUn)) [] =
      some ([Action.podsList "workflows.argoproj.io/workflow=hello",
             Action.recordCompletedWorkflow "argo/hello",
             Action.throttlerRemove "argo/hello"],
            [⟨"argo/hello", 0⟩]) := by
  decide

/-- C17 (amended): for every delete notification that carries the unstructured workflow object
itself (its key is then always derived) the delete handler, after listing the pods of the
workflow and removing their pod-status finalizers, calls `releaseAllWorkflowLocks`, records the
key in RecentCompletions and calls `Throttler.Remove(key)`, in that order, and adds nothing to
the work queue. `releaseAllWorkflowLocks` calls `syncManager.ReleaseAll(wf)` when the object
converts to a workflow `wf` whose status has a synchronization section, and makes no call when
the conversion fails or the status has none. -/
theorem workflowDeleteFunc_calls (env : Env) (pods : List Pod) (nowCheck nowAppend : Int)
    (un : Unstructured) (completions : List recentlyCompletedWorkflow) :
    (∃ trace, workflowDeleteFunc env pods nowCheck nowAppend
          (DeletedObject.object (CacheObject.unstructured un)) completions =
        some (trace, recordCompletedWorkflow nowCheck nowAppend
          (MetaNamespaceKeyFunc un.ObjectMeta) completions) ∧
      trace = [Action.podsList (LabelKeyWorkflow ++ "=" ++ un.ObjectMeta.Name)] ++
          removePodFinalizers pods ++
          releaseAllWorkflowLocks env (CacheObject.unstructured un) ++
          [Action.recordCompletedWorkflow (MetaNamespaceKeyFunc un.ObjectMeta),
           Action.throttlerRemove (MetaNamespaceKeyFunc un.ObjectMeta)] ∧
      ∀ a ∈ trace, a.isQueueAdd = false) ∧
    deletionHandlingMetaNamespaceKey (DeletedObject.object (CacheObject.unstructured un)) =
      Except.ok (MetaNamespaceKeyFunc un.ObjectMeta) ∧
    (∀ wf, env.fromUnstructured un = (wf, none) → wf.Status.Synchronization ≠ none →
      releaseAllWorkflowLocks env (CacheObject.unstructured un) = [Action.syncReleaseAll wf]) ∧
    (∀ wf, env.fromUnstructured un = (wf, none) → wf.Status.Synchronization = none →
      releaseAllWorkflowLocks env (CacheObject.unstructured un) = []) ∧
    (∀ wf err, env.fromUnstructured un = (wf, some err) →
      releaseAllWorkflowLocks env (CacheObject.unstructured un) = []) := by
  refine ⟨⟨_, workflowDeleteFunc_unstructured env pods nowCheck nowAppend un completions,
    rfl, ?_⟩, rfl, ?_, ?_, ?_⟩
  · intro a ha
    simp only [List.mem_append, List.mem_singleton, List.mem_cons, List.not_mem_nil,
      or_false] at ha
    rcases ha with ((h | h) | h) | h | h
    · subst h; rfl
    · exact removePodFinalizers_no_queueAdd pods a h
    · exact releaseAllWorkflowLocks_no_queueAdd env _ a h
    · subst h; rfl
    · subst h; rfl
  · intro wf hconv hsync
    simp [releaseAllWorkflowLocks, hconv, hsync]
  · intro wf hconv hsync
    simp [releaseAllWorkflowLocks, hconv, hsync]
  · intro wf err hconv
    simp [releaseAllWorkflowLocks, hconv]

/-! ### The exit handler -/

/-- The calls of `runOnExitNode` when the hook is there, the shutdown strategy lets exit
handlers run and the guard passes. -/
theorem runOnExitNode_of_guard (env : ExitEnv) (hook : LifecycleHook) (parentNode : NodeStatus)
    (boundaryID pfx : String) (scope : Option wfScope) (hs : env.shouldExecute = true)
    (hg : exitGuard env hook scope = Except.ok true) :
    runOnExitNode env (some hook) parentNode boundaryID pfx scope =
      if !hook.Arguments.IsEmpty then
        match (resolveExitTmplArgument env hook.Arguments pfx (exitOutputs env parentNode)
            scope).2 with
        | some err =>
          { ran := true, node := none, err := some err,
            calls := [ExitCall.resolveExitTmplArgument hook.Arguments pfx
              (exitOutputs env parentNode)] }
        | none =>
          executeExitNode env hook parentNode boundaryID
            (resolveExitTmplArgument env hook.Arguments pfx (exitOutputs env parentNode)
              scope).1
            [ExitCall.resolveExitTmplArgument hook.Arguments pfx (exitOutputs env parentNode)]
      else executeExitNode env hook parentNode boundaryID hook.Arguments [] := by
  simp [runOnExitNode, hs, hg]

/-- Every argument resolution `runOnExitNode` asks for is the one of the hook arguments with
the outputs of lines 17-20. -/
theorem resolve_call_outputs (env : ExitEnv) (exitHook : Option LifecycleHook)
    (parentNode : NodeStatus) (boundaryID pfx : String) (scope : Option wfScope)
    (args : Arguments) (p : String) (outputs : Option Outputs)
    (hmem : ExitCall.resolveExitTmplArgument args p outputs ∈
      (runOnExitNode env exitHook parentNode boundaryID pfx scope).calls) :
    outputs = exitOutputs env parentNode := by
  cases exitHook with
  | none => simp [runOnExitNode] at hmem
  | some hook =>
    by_cases hs : env.shouldExecute = true
    · cases hg : exitGuard env hook scope with
      | error e => simp [runOnExitNode, hs, hg] at hmem
      | ok b =>
        cases b with
        | false => simp [runOnExitNode, hs, hg] at hmem
        | true =>
          rw [runOnExitNode_of_guard env hook parentNode boundaryID pfx scope hs hg] at hmem
          by_cases he : hook.Arguments.IsEmpty = true
          · simp [he, executeExitNode] at hmem
          · simp only [he] at hmem
            cases hr : (resolveExitTmplArgument env hook.Arguments pfx
                (exitOutputs env parentNode) scope).2 with
            | some err =>
              simp [hr] at hmem
              exact hmem.2.2
            | none =>
              simp [hr, executeExitNode] at hmem
              exact hmem.2.2
    · simp [runOnExitNode, hs] at hmem

/-- C18: the outputs `runOnExitNode` hands to `resolveExitTmplArgument` are `exitOutputs`: the
outputs of the last retry attempt when `possiblyGetRetryChildNode` returns one, and the own
outputs of the parent when it returns none. When the hook is there, exit handlers may run, the
guard passes and the hook has arguments, that call is made, and on success the template is
executed with the arguments resolved from these outputs. -/
theorem exit_hook_outputs_from_last_retry (env : ExitEnv) (exitHook : Option LifecycleHook)
    (parentNode : NodeStatus) (boundaryID pfx : String) (scope : Option wfScope) :
    (∀ lastChildNode, env.possiblyGetRetryChildNode parentNode = some lastChildNode →
      (∀ args p outputs, ExitCall.resolveExitTmplArgument args p outputs ∈
          (runOnExitNode env exitHook parentNode boundaryID pfx scope).calls →
        outputs = lastChildNode.Outputs) ∧
      ∀ hook, exitHook = some hook → env.shouldExecute = true →
        exitGuard env hook scope = Except.ok true → hook.Arguments.IsEmpty = false →
        ExitCall.resolveExitTmplArgument hook.Arguments pfx lastChildNode.Outputs ∈
          (runOnExitNode env exitHook parentNode boundaryID pfx scope).calls ∧
        ((resolveExitTmplArgument env hook.Arguments pfx lastChildNode.Outputs scope).2 = none →
          ExitCall.executeTemplate (env.generateOnExitNodeName parentNode.Name) hook.Template
              hook.TemplateRef
              (resolveExitTmplArgument env hook.Arguments pfx lastChildNode.Outputs scope).1
              boundaryID ∈
            (runOnExitNode env exitHook parentNode boundaryID pfx scope).calls)) ∧
    (env.possiblyGetRetryChildNode parentNode = none →
      (∀ args p outputs, ExitCall.resolveExitTmplArgument args p outputs ∈
          (runOnExitNode env exitHook parentNode boundaryID pfx scope).calls →
        outputs = parentNode.Outputs) ∧
      ∀ hook, exitHook = some hook → env.shouldExecute = true →
        exitGuard env hook scope = Except.ok true → hook.Arguments.IsEmpty = false →
        ExitCall.resolveExitTmplArgument hook.Arguments pfx parentNode.Outputs ∈
          (runOnExitNode env exitHook parentNode boundaryID pfx scope).calls) := by
  have hcall : ∀ hook, exitHook = some hook → env.shouldExecute = true →
      exitGuard env hook scope = Except.ok true → hook.Arguments.IsEmpty = false →
      ExitCall.resolveExitTmplArgument hook.Arguments pfx (exitOutputs env parentNode) ∈
        (runOnExitNode env exitHook parentNode boundaryID pfx scope).calls ∧
      ((resolveExitTmplArgument env hook.Arguments pfx (exitOutputs env parentNode)
          scope).2 = none →
        ExitCall.executeTemplate (env.generateOnExitNodeName parentNode.Name) hook.Template
            hook.TemplateRef
            (resolveExitTmplArgument env hook.Arguments pfx (exitOutputs env parentNode)
              scope).1
            boundaryID ∈
          (runOnExitNode env exitHook parentNode boundaryID pfx scope).calls) := by
    intro hook hh hs hg he
    subst hh
    rw [runOnExitNode_of_guard env hook parentNode boundaryID pfx scope hs hg]
    simp only [he]
    cases hr : (resolveExitTmplArgument env hook.Arguments pfx
        (exitOutputs env parentNode) scope).2 with
    | some err => simp
    | none => simp [executeExitNode]
  refine ⟨?_, ?_⟩
  · intro lastChildNode hc
    have ho : exitOutputs env parentNode = lastChildNode.Outputs := by
      simp [exitOutputs, hc]
    rw [← ho]
    exact ⟨fun args p outputs hmem =>
      resolve_call_outputs env exitHook parentNode boundaryID pfx scope args p outputs hmem,
      hcall⟩
  · intro hc
    have ho : exitOutputs env parentNode = parentNode.Outputs := by
      simp [exitOutputs, hc]
    rw [← ho]
    exact ⟨fun args p outputs hmem =>
      resolve_call_outputs env exitHook parentNode boundaryID pfx scope args p outputs hmem,
      fun hook hh hs hg he => (hcall hook hh hs hg he).1⟩

/-- Witness of C18: the sample parent has a second retry attempt; the argument resolution of
its exit hook is called with the outputs of that attempt, which are not the own outputs of
the parent. -/
theorem exit_hook_outputs_from_last_retry_witness :
    ExitCall.resolveExitTmplArgument sampleHookArgs "steps.hello" sampleRetryChild.Outputs ∈
      (runOnExitNode (sampleExitEnv (some sampleRetryChild) true)
        (some { Template := "cleanup", Arguments := sampleHookArgs }) sampleParent "" "steps.hello"
        none).calls ∧
    sampleRetryChild.Outputs ≠ sampleParent.Outputs :=
  ⟨((exit_hook_outputs_from_last_retry (sampleExitEnv (some sampleRetryChild) true)
      (some { Template := "cleanup", Arguments := sampleHookArgs }) sampleParent "" "steps.hello"
      none).1 sampleRetryChild rfl).2
      { Template := "cleanup", Arguments := sampleHookArgs } rfl rfl rfl
      (by decide) |>.1,
   by decide⟩

/-- A run of `runOnExitNode` that makes a call had a hook, a shutdown strategy that lets exit
handlers run, and a guard that passed. -/
theorem guard_of_call (env : ExitEnv) (exitHook : Option LifecycleHook)
    (parentNode : NodeStatus) (boundaryID pfx : String) (scope : Option wfScope)
    (c : ExitCall)
    (hmem : c ∈ (runOnExitNode env exitHook parentNode boundaryID pfx scope).calls) :
    ∃ hook, exitHook = some hook ∧ env.shouldExecute = true ∧
      exitGuard env hook scope = Except.ok true := by
  cases exitHook with
  | none => simp [runOnExitNode] at hmem
  | some hook =>
    by_cases hs : env.shouldExecute = true
    · cases hg : exitGuard env hook scope with
      | error e => simp [runOnExitNode, hs, hg] at hmem
      | ok b =>
        cases b with
        | false => simp [runOnExitNode, hs, hg] at hmem
        | true => exact ⟨hook, rfl, hs, hg⟩
    · simp [runOnExitNode, hs] at hmem

theorem exitGuard_ok_true_iff (env : ExitEnv) (hook : LifecycleHook) (scope : Option wfScope) :
    exitGuard env hook scope = Except.ok true ↔
      (hook.Expression = "" ∨
        env.evalBool hook.Expression (env.merge env.globalParams (env.getParameters scope)) =
          Except.ok true) := by
  by_cases he : hook.Expression = ""
  · simp [exitGuard, he]
  · simp [exitGuard, he]

/-- C19: when the exit hook is nil, or the shutdown strategy does not let exit handlers run,
or the non-empty guard expression of the hook evaluates to false against the merged global and
scope parameters, `runOnExitNode` returns `(false, nil, nil)` and makes no call (no template
is executed, no child is added). A run that executes a template or adds a child had a hook, a
strategy that lets exit handlers run, and a guard that is empty or evaluates to true; and with
such a guard, when the arguments are empty or resolve, the template is executed under the
exit node name and that node is added as a child of the parent. -/
theorem exit_hook_gating (env : ExitEnv) (exitHook : Option LifecycleHook)
    (parentNode : NodeStatus) (boundaryID pfx : String) (scope : Option wfScope) :
    ((exitHook = none ∨ env.shouldExecute = false ∨
        ∃ hook, exitHook = some hook ∧ hook.Expression ≠ "" ∧
          env.evalBool hook.Expression
            (env.merge env.globalParams (env.getParameters scope)) = Except.ok false) →
      runOnExitNode env exitHook parentNode boundaryID pfx scope =
        { ran := false, node := none, err := none, calls := [] }) ∧
    (∀ c ∈ (runOnExitNode env exitHook parentNode boundaryID pfx scope).calls,
      c.isExecute = true →
      ∃ hook, exitHook = some hook ∧ env.shouldExecute = true ∧
        (hook.Expression = "" ∨
          env.evalBool hook.Expression
            (env.merge env.globalParams (env.getParameters scope)) = Except.ok true)) ∧
    (∀ hook, exitHook = some hook → env.shouldExecute = true →
      (hook.Expression = "" ∨
        env.evalBool hook.Expression
          (env.merge env.globalParams (env.getParameters scope)) = Except.ok true) →
      (hook.Arguments.IsEmpty = true ∨
        (resolveExitTmplArgument env hook.Arguments pfx (exitOutputs env parentNode)
          scope).2 = none) →
      (runOnExitNode env exitHook parentNode boundaryID pfx scope).ran = true ∧
      ∃ before resolvedArgs, (∀ c ∈ before, c.isExecute = false) ∧
        (runOnExitNode env exitHook parentNode boundaryID pfx scope).calls =
          before ++
            [ExitCall.executeTemplate (env.generateOnExitNodeName parentNode.Name)
               hook.Template hook.TemplateRef resolvedArgs boundaryID,
             ExitCall.addChildNode parentNode.Name
               (env.generateOnExitNodeName parentNode.Name)]) := by
  refine ⟨?_, ?_, ?_⟩
  · rintro (h | h | ⟨hook, hh, he, hv⟩)
    · simp [runOnExitNode, h]
    · cases exitHook <;> simp [runOnExitNode, h]
    · subst hh
      by_cases hs : env.shouldExecute = true
      · simp [runOnExitNode, hs, exitGuard, he, hv]
      · simp [runOnExitNode, hs]
  · intro c hmem _
    obtain ⟨hook, hh, hs, hg⟩ :=
      guard_of_call env exitHook parentNode boundaryID pfx scope c hmem
    exact ⟨hook, hh, hs, (exitGuard_ok_true_iff env hook scope).mp hg⟩
  · intro hook hh hs hg hargs
    subst hh
    have hg2 := (exitGuard_ok_true_iff env hook scope).mpr hg
    rw [runOnExitNode_of_guard env hook parentNode boundaryID pfx scope hs hg2]
    by_cases he : hook.Arguments.IsEmpty = true
    · simp only [he, Bool.not_true, Bool.false_eq_true, if_false]
      exact ⟨rfl, [], hook.Arguments, by simp, by simp [executeExitNode]⟩
    · rcases hargs with h | h
      · exact absurd h he
      · simp only [he, h]
        refine ⟨rfl, [ExitCall.resolveExitTmplArgument hook.Arguments pfx
          (exitOutputs env parentNode)],
          (resolveExitTmplArgument env hook.Arguments pfx (exitOutputs env parentNode)
            scope).1, ?_, by simp [executeExitNode]⟩
        intro c hc
        simp at hc
        subst hc
        rfl

/-- Witness of C19: the guard expression "false" of the sample hook evaluates to false, and
`runOnExitNode` returns `(false, nil, nil)` with no call. -/
theorem exit_hook_gating_witness :
    runOnExitNode (sampleExitEnv none true)
      (some { Template := "cleanup", Arguments := sampleHookArgs, Expression := "false" })
      sampleParent "" "steps.hello" none =
      { ran := false, node := none, err := none, calls := [] } :=
  (exit_hook_gating (sampleExitEnv none true)
    (some { Template := "cleanup", Arguments := sampleHookArgs, Expression := "false" })
    sampleParent "" "steps.hello" none).1
    (Or.inr (Or.inr ⟨_, rfl, by decide, rfl⟩))

/-- Pass 2 succeeds when every artifact with a reference is optional or resolves. -/
theorem resolveArtifacts_ok (env : ExitEnv) (scope : wfScope) (arts : List Artifact)
    (hres : ∀ art ∈ arts, (art.From ≠ "" ∨ art.FromExpression ≠ "") →
      art.Optional = true ∨ ∃ r, env.resolveArtifact scope art = Except.ok r) :
    ∃ done, resolveArtifacts env scope arts = Except.ok done := by
  induction arts with
  | nil => exact ⟨[], rfl⟩
  | cons art rest ih =>
    obtain ⟨done, hdone⟩ := ih (fun a ha => hres a (List.mem_cons_of_mem _ ha))
    by_cases href : art.From = "" ∧ art.FromExpression = ""
    · exact ⟨art :: done, by simp [resolveArtifacts, href, hdone]⟩
    · have href2 : art.From ≠ "" ∨ art.FromExpression ≠ "" := by
        by_cases h1 : art.From = ""
        · right; exact fun h2 => href ⟨h1, h2⟩
        · left; exact h1
      cases hr : env.resolveArtifact scope art with
      | ok r => exact ⟨{ r with Name := art.Name } :: done, by
          simp [resolveArtifacts, href, hr, hdone]⟩
      | error e =>
        rcases hres art (List.mem_cons_self _ _) href2 with hopt | ⟨r, hr2⟩
        · exact ⟨art :: done, by simp [resolveArtifacts, href, hr, hopt, hdone]⟩
        · rw [hr] at hr2
          cases hr2

/-- C20: when parameter substitution succeeds and every argument artifact with a `From` or
`FromExpression` reference either resolves or is marked Optional, `resolveExitTmplArgument`
returns a nil error (and the substituted arguments with their artifacts after pass 2): an
unresolved optional reference does not make the call fail. -/
theorem optional_unresolved_artifact_skipped (env : ExitEnv) (args : Arguments) (pfx : String)
    (outputs : Option Outputs) (scope : Option wfScope) (newArgs : Arguments)
    (hsub : substituteArguments env args (scopeWithOutputs pfx outputs scope) =
      Except.ok newArgs)
    (hres : ∀ art ∈ newArgs.Artifacts, (art.From ≠ "" ∨ art.FromExpression ≠ "") →
      art.Optional = true ∨
        ∃ r, env.resolveArtifact (scopeWithOutputs pfx outputs scope) art = Except.ok r) :
    (resolveExitTmplArgument env args pfx outputs scope).2 = none ∧
    ∃ artifacts,
      resolveArtifacts env (scopeWithOutputs pfx outputs scope) newArgs.Artifacts =
        Except.ok artifacts ∧
      (resolveExitTmplArgument env args pfx outputs scope).1 =
        { newArgs with Artifacts := artifacts } := by
  obtain ⟨done, hdone⟩ := resolveArtifacts_ok env _ newArgs.Artifacts hres
  refine ⟨?_, done, hdone, ?_⟩
  · simp [resolveExitTmplArgument, hsub, hdone]
  · simp [resolveExitTmplArgument, hsub, hdone]

/-- Witness of C20: the sample arguments hold an optional artifact whose reference `missing`
the scope cannot resolve and an artifact whose reference it resolves; the call returns a nil
error. -/
theorem optional_unresolved_artifact_skipped_witness :
    (sampleExitEnv none true).resolveArtifact (scopeWithOutputs "steps.hello" none none)
        { Name := "optional-in", From := "missing", Optional := true } =
      Except.error "variable not in scope: missing" ∧
    (resolveExitTmplArgument (sampleExitEnv none true) sampleHookArgs "steps.hello" none
      none).2 = none :=
  ⟨rfl,
   (optional_unresolved_artifact_skipped (sampleExitEnv none true) sampleHookArgs "steps.hello"
      none none sampleHookArgs rfl (by
        intro art hart _
        simp [sampleHookArgs] at hart
        rcases hart with h | h
        · left; rw [h]
        · right; rw [h]; exact ⟨_, rfl⟩)).1⟩

/-! ### Pass 2 of the exit arguments -/

theorem not_hasReference_iff (art : Artifact) :
    ¬ art.hasReference ↔ (art.From = "" ∧ art.FromExpression = "") := by
  simp only [Artifact.hasReference, not_or, not_not]

/-- Pass 2 stops at the first artifact whose required reference does not resolve. -/
theorem resolveArtifacts_first_required (env : ExitEnv) (scope : wfScope)
    (before : List Artifact) (art : Artifact) (after : List Artifact) (cause : String)
    (hbefore : ∀ a ∈ before, a.hasReference →
      a.Optional = true ∨ ∃ r, env.resolveArtifact scope a = Except.ok r)
    (href : art.hasReference)
    (herr : env.resolveArtifact scope art = Except.error cause)
    (hopt : art.Optional = false) :
    resolveArtifacts env scope (before ++ art :: after) =
      Except.error ("unable to resolve references: " ++ cause) := by
  have hnot : ¬ (art.From = "" ∧ art.FromExpression = "") :=
    fun h => (not_hasReference_iff art).mpr h href
  induction before with
  | nil => simp [resolveArtifacts, hnot, herr, hopt]
  | cons a rest ih =>
    have ih2 := ih (fun x hx => hbefore x (List.mem_cons_of_mem _ hx))
    by_cases ha : a.From = "" ∧ a.FromExpression = ""
    · simp [resolveArtifacts, ha, ih2]
    · have ha2 : a.hasReference := by
        by_contra h
        exact ha ((not_hasReference_iff a).mp h)
      cases hr : env.resolveArtifact scope a with
      | ok r => simp [resolveArtifacts, ha, hr, ih2]
      | error e =>
        rcases hbefore a (List.mem_cons_self _ _) ha2 with h | ⟨r, h⟩
        · simp [resolveArtifacts, ha, hr, h, ih2]
        · rw [hr] at h; cases h

/-- C21: when parameter substitution succeeds and `art` is the first argument artifact, in
list order, that has a `From` or `FromExpression` reference which does not resolve (cause
`cause`) and is not Optional, `resolveExitTmplArgument` returns the arguments it was given,
unsubstituted, with the error "unable to resolve references: " followed by the cause. -/
theorem required_unresolved_artifact_fails (env : ExitEnv) (args : Arguments) (pfx : String)
    (outputs : Option Outputs) (scope : Option wfScope) (newArgs : Arguments)
    (before : List Artifact) (art : Artifact) (after : List Artifact) (cause : String)
    (hsub : substituteArguments env args (scopeWithOutputs pfx outputs scope) =
      Except.ok newArgs)
    (hsplit : newArgs.Artifacts = before ++ art :: after)
    (hbefore : ∀ a ∈ before, a.hasReference →
      a.Optional = true ∨
        ∃ r, env.resolveArtifact (scopeWithOutputs pfx outputs scope) a = Except.ok r)
    (href : art.hasReference)
    (herr : env.resolveArtifact (scopeWithOutputs pfx outputs scope) art = Except.error cause)
    (hopt : art.Optional = false) :
    resolveExitTmplArgument env args pfx outputs scope =
      (args, some ("unable to resolve references: " ++ cause)) := by
  have h := resolveArtifacts_first_required env _ before art after cause hbefore href herr hopt
  simp [resolveExitTmplArgument, hsub, hsplit, h]

/-- Witness of C21: the arguments hold an optional unresolved artifact and then a required
artifact whose reference `gone` the sample scope cannot resolve. -/
theorem required_unresolved_artifact_fails_witness :
    resolveExitTmplArgument
      { sampleExitEnv none true with
        unmarshal := fun _ =>
          Except.ok { Artifacts := [{ Name := "optional-in", From := "missing", Optional := true },
                                    { Name := "in", From := "gone" }] } }
      sampleHookArgs "steps.hello" none none =
      (sampleHookArgs, some "unable to resolve references: variable not in scope: gone") :=
  required_unresolved_artifact_fails
    { sampleExitEnv none true with
      unmarshal := fun _ =>
        Except.ok { Artifacts := [{ Name := "optional-in", From := "missing", Optional := true },
                                  { Name := "in", From := "gone" }] } }
    sampleHookArgs "steps.hello" none none
    { Artifacts := [{ Name := "optional-in", From := "missing", Optional := true },
                    { Name := "in", From := "gone" }] }
    [{ Name := "optional-in", From := "missing", Optional := true }]
    { Name := "in", From := "gone" } [] "variable not in scope: gone"
    rfl rfl
    (by intro a ha _; simp at ha; left; rw [ha])
    (Or.inl (by decide)) rfl rfl

/-- Pass 2, when it succeeds, leaves one artifact per argument, position by position. -/
theorem resolveArtifacts_forall₂ (env : ExitEnv) (scope : wfScope) (arts done : List Artifact)
    (h : resolveArtifacts env scope arts = Except.ok done) :
    List.Forall₂ (ArtifactKept env scope) arts done := by
  induction arts generalizing done with
  | nil =>
    simp [resolveArtifacts] at h
    subst h
    exact List.Forall₂.nil
  | cons art rest ih =>
    by_cases ha : art.From = "" ∧ art.FromExpression = ""
    · have hno : ¬ art.hasReference := (not_hasReference_iff art).mpr ha
      cases hrest : resolveArtifacts env scope rest with
      | error e => simp [resolveArtifacts, ha, hrest] at h
      | ok d =>
        simp [resolveArtifacts, ha, hrest] at h
        subst h
        exact List.Forall₂.cons
          ⟨rfl, fun _ => rfl, fun hr => absurd hr hno, fun hr => absurd hr hno⟩ (ih d hrest)
    · have href : art.hasReference := by
        by_contra hn
        exact ha ((not_hasReference_iff art).mp hn)
      cases hr : env.resolveArtifact scope art with
      | ok r =>
        cases hrest : resolveArtifacts env scope rest with
        | error e => simp [resolveArtifacts, ha, hr, hrest] at h
        | ok d =>
          simp [resolveArtifacts, ha, hr, hrest] at h
          subst h
          refine List.Forall₂.cons ⟨rfl, fun hn => absurd href hn, ?_, ?_⟩ (ih d hrest)
          · intro _ err herr
            rw [hr] at herr
            cases herr
          · intro _ r2 hr2
            rw [hr] at hr2
            injection hr2 with h2
            subst h2
            rfl
      | error e =>
        by_cases hopt : art.Optional = true
        · cases hrest : resolveArtifacts env scope rest with
          | error e2 => simp [resolveArtifacts, ha, hr, hopt, hrest] at h
          | ok d =>
            simp [resolveArtifacts, ha, hr, hopt, hrest] at h
            subst h
            refine List.Forall₂.cons ⟨rfl, fun _ => rfl, ?_, ?_⟩ (ih d hrest)
            · intro _ err _; exact ⟨hopt, rfl⟩
            · intro _ r2 hr2
              rw [hr] at hr2
              cases hr2
        · simp [resolveArtifacts, ha, hr, hopt] at h

theorem names_of_forall₂ (env : ExitEnv) (scope : wfScope) (arts done : List Artifact)
    (hall : List.Forall₂ (ArtifactKept env scope) arts done) :
    done.map (fun a => a.Name) = arts.map (fun a => a.Name) := by
  induction hall with
  | nil => rfl
  | cons hk _ ih => simp [hk.1, ih]

/-- C27: whenever `resolveExitTmplArgument` succeeds, parameter substitution succeeded with
some arguments `newArgs`, the returned parameters are those of `newArgs`, and the returned
artifact list has the length of `newArgs.Artifacts` and, index by index, the names of its
artifacts: a resolved artifact stands at the position of its argument under the name of the
argument, and an argument with no reference or with an unresolved optional reference stands
at its position unchanged. -/
theorem resolved_artifacts_in_place (env : ExitEnv) (args : Arguments) (pfx : String)
    (outputs : Option Outputs) (scope : Option wfScope)
    (hok : (resolveExitTmplArgument env args pfx outputs scope).2 = none) :
    ∃ newArgs,
      substituteArguments env args (scopeWithOutputs pfx outputs scope) = Except.ok newArgs ∧
      (resolveExitTmplArgument env args pfx outputs scope).1.Parameters = newArgs.Parameters ∧
      (resolveExitTmplArgument env args pfx outputs scope).1.Artifacts.length =
        newArgs.Artifacts.length ∧
      (resolveExitTmplArgument env args pfx outputs scope).1.Artifacts.map (fun a => a.Name) =
        newArgs.Artifacts.map (fun a => a.Name) ∧
      List.Forall₂ (ArtifactKept env (scopeWithOutputs pfx outputs scope)) newArgs.Artifacts
        (resolveExitTmplArgument env args pfx outputs scope).1.Artifacts := by
  cases hsub : substituteArguments env args (scopeWithOutputs pfx outputs scope) with
  | error e => simp [resolveExitTmplArgument, hsub] at hok
  | ok newArgs =>
    cases hres : resolveArtifacts env (scopeWithOutputs pfx outputs scope) newArgs.Artifacts with
    | error e => simp [resolveExitTmplArgument, hsub, hres] at hok
    | ok done =>
      have hall := resolveArtifacts_forall₂ env _ newArgs.Artifacts done hres
      have hres1 : (resolveExitTmplArgument env args pfx outputs scope).1 =
          { newArgs with Artifacts := done } := by
        simp [resolveExitTmplArgument, hsub, hres]
      rw [hres1]
      exact ⟨newArgs, rfl, rfl, hall.length_eq.symm, names_of_forall₂ env _ _ _ hall, hall⟩

/-- Witness of C27: on the sample arguments the call succeeds; the unresolved optional
artifact stays first, unchanged, and the resolved artifact stands second under the name `in`
of its argument. -/
theorem resolved_artifacts_in_place_witness :
    (resolveExitTmplArgument (sampleExitEnv none true) sampleHookArgs "steps.hello" none
      none).1.Artifacts =
      [{ Name := "optional-in", From := "missing", Optional := true },
       { Name := "in", Location := "s3://bucket/key" }] ∧
    ∃ newArgs,
      substituteArguments (sampleExitEnv none true) sampleHookArgs
        (scopeWithOutputs "steps.hello" none none) = Except.ok newArgs ∧
      (resolveExitTmplArgument (sampleExitEnv none true) sampleHookArgs "steps.hello" none
        none).1.Artifacts.length = newArgs.Artifacts.length :=
  ⟨by decide,
   let ⟨newArgs, h1, _, h3, _⟩ := resolved_artifacts_in_place (sampleExitEnv none true)
     sampleHookArgs "steps.hello" none none rfl
   ⟨newArgs, h1, h3⟩⟩

/-! ### Time order of the completions list -/

theorem mem_clean (now : Int) (l : List recentlyCompletedWorkflow)
    (e : recentlyCompletedWorkflow) (h : e ∈ cleanCompletedWorkflowsRecord now l) : e ∈ l :=
  (clean_sublist now l).subset h

theorem times_clean (now : Int) (l : List recentlyCompletedWorkflow)
    (h : NonDecreasing (completionTimes l)) :
    NonDecreasing (completionTimes (cleanCompletedWorkflowsRecord now l)) :=
  List.Pairwise.sublist ((clean_sublist now l).map _) h

/-- One call keeps the times in order and below every later clock reading, when they are
below the readings of the call and of the later calls. -/
theorem times_apply (op : CompletionOp) (later : List Int)
    (l : List recentlyCompletedWorkflow) (hsorted : NonDecreasing (completionTimes l))
    (hclock : NonDecreasing (op.readings ++ later))
    (hbound : ∀ e ∈ l, ∀ r ∈ op.readings ++ later, e.when ≤ r) :
    NonDecreasing (completionTimes (op.apply l)) ∧
      ∀ e ∈ op.apply l, ∀ r ∈ later, e.when ≤ r := by
  cases op with
  | record key nowCheck nowAppend =>
    have hc := times_clean nowCheck l hsorted
    simp only [CompletionOp.apply, recordCompletedWorkflow, checkRecentlyCompleted]
    split
    · refine ⟨?_, ?_⟩
      · simp only [NonDecreasing, completionTimes, List.map_append, List.map_cons,
          List.map_nil]
        rw [List.pairwise_append]
        refine ⟨hc, by simp, ?_⟩
        intro a ha b hb
        simp at hb
        rw [hb]
        obtain ⟨e, he, rfl⟩ := List.mem_map.mp ha
        exact hbound e (mem_clean nowCheck l e he) nowAppend (by simp [CompletionOp.readings])
      · intro e he r hr
        rcases List.mem_append.mp he with h | h
        · exact hbound e (mem_clean nowCheck l e h) r (List.mem_append_right _ hr)
        · simp at h
          subst h
          unfold NonDecreasing at hclock
          rw [List.pairwise_append] at hclock
          exact hclock.2.2 nowAppend (by simp [CompletionOp.readings]) r hr
    · exact ⟨hc, fun e he r hr =>
        hbound e (mem_clean nowCheck l e he) r (List.mem_append_right _ hr)⟩
  | check key now =>
    exact ⟨times_clean now l hsorted, fun e he r hr =>
      hbound e (mem_clean now l e he) r (List.mem_append_right _ hr)⟩
  | clean now =>
    exact ⟨times_clean now l hsorted, fun e he r hr =>
      hbound e (mem_clean now l e he) r (List.mem_append_right _ hr)⟩

theorem times_run (ops : List CompletionOp) (l : List recentlyCompletedWorkflow)
    (hsorted : NonDecreasing (completionTimes l))
    (hclock : NonDecreasing (clockReadings ops))
    (hbound : ∀ e ∈ l, ∀ r ∈ clockReadings ops, e.when ≤ r) :
    NonDecreasing (completionTimes (runCompletionOps l ops)) := by
  induction ops generalizing l with
  | nil => exact hsorted
  | cons op rest ih =>
    have hcr : clockReadings (op :: rest) = op.readings ++ clockReadings rest := by
      simp [clockReadings]
    rw [hcr] at hclock hbound
    obtain ⟨h1, h2⟩ := times_apply op (clockReadings rest) l hsorted hclock hbound
    have hrest : NonDecreasing (clockReadings rest) := by
      unfold NonDecreasing at hclock ⊢
      rw [List.pairwise_append] at hclock
      exact hclock.2.1
    simp only [runCompletionOps, List.foldl_cons]
    exact ih _ h1 hrest h2

/-- C26: under a non-decreasing clock, after every sequence of record, check and clean calls
from the empty list the completion times in the list are in non-decreasing order; the expiry
cleanup leaves a suffix of the list (it only removes a prefix), and a record that appends
stamps the new, last entry with its second clock reading. -/
theorem completion_times_nonDecreasing (ops : List CompletionOp)
    (hclock : NonDecreasing (clockReadings ops)) :
    NonDecreasing (completionTimes (runCompletionOps [] ops)) ∧
    (∀ now l, ∃ removed, l = removed ++ cleanCompletedWorkflowsRecord now l) ∧
    (∀ nowCheck nowAppend K l,
      recordCompletedWorkflow nowCheck nowAppend K l = cleanCompletedWorkflowsRecord nowCheck l ∨
      recordCompletedWorkflow nowCheck nowAppend K l =
        cleanCompletedWorkflowsRecord nowCheck l ++ [⟨K, nowAppend⟩]) := by
  refine ⟨times_run ops [] (by simp [NonDecreasing, completionTimes]) hclock (by simp), ?_, ?_⟩
  · intro now l
    simp only [cleanCompletedWorkflowsRecord]
    split
    · exact ⟨l.take _, (List.take_append_drop _ l).symm⟩
    · exact ⟨[], rfl⟩
  · intro nowCheck nowAppend K l
    simp only [recordCompletedWorkflow, checkRecentlyCompleted]
    split
    · right; rfl
    · left; rfl

/-- Witness of C26: three records and a cleanup under the clock readings 0, 0, 5, 7, 700,
700, 701 seconds. -/
theorem completion_times_nonDecreasing_witness :
    NonDecreasing (completionTimes (runCompletionOps []
      [CompletionOp.record "argo/a" 0 0,
       CompletionOp.record "argo/b" (5 * second) (7 * second),
       CompletionOp.record "argo/c" (700 * second) (700 * second),
       CompletionOp.clean (701 * second)])) :=
  (completion_times_nonDecreasing
    [CompletionOp.record "argo/a" 0 0,
     CompletionOp.record "argo/b" (5 * second) (7 * second),
     CompletionOp.record "argo/c" (700 * second) (700 * second),
     CompletionOp.clean (701 * second)]
    (by decide)).1

/-! ### The callback `isWFDeleted` and the priority of a workflow -/

/-- C28: the callback `isWFDeleted` returns true exactly when the informer lookup of the key
returns no error and the key exists in the cache; it returns false when the key does not
exist and when the lookup returns an error. -/
theorem isWFDeleted_iff_exists (env : Env) (key : String) :
    (isWFDeleted env key = true ↔
      ((env.getByKey key).err = none ∧ (env.getByKey key).exist = true)) ∧
    ((env.getByKey key).exist = false → isWFDeleted env key = false) ∧
    ((env.getByKey key).err ≠ none → isWFDeleted env key = false) := by
  simp only [isWFDeleted]
  cases (env.getByKey key).err <;> simp

theorem toInt32_spec (v : Int) :
    -(2 ^ 31) ≤ toInt32 v ∧ toInt32 v < 2 ^ 31 ∧ (toInt32 v - v) % 2 ^ 32 = 0 := by
  simp only [toInt32]
  split <;> omega

/-- C29: `getWfPriority` returns priority 0 for an object that is not unstructured, for an
object without `spec.priority` and for one whose `spec.priority` is not an `int64`; for an
`int64` value it returns the value converted to `int32`: a number of the `int32` range
congruent to the value modulo 2^32, equal to the value exactly when the value is in the
`int32` range (2^31 becomes -2^31). The returned time is the creation timestamp of every
unstructured object, and the clock reading otherwise. -/
theorem getWfPriority_spec (now : Int) :
    getWfPriority now CacheObject.other = (0, now) ∧
    (∀ un : Unstructured,
      (getWfPriority now (CacheObject.unstructured un)).2 = un.CreationTimestamp ∧
      (un.Priority = PriorityField.absent →
        (getWfPriority now (CacheObject.unstructured un)).1 = 0) ∧
      (∀ err, un.Priority = PriorityField.invalid err →
        (getWfPriority now (CacheObject.unstructured un)).1 = 0) ∧
      (∀ v, un.Priority = PriorityField.int64 v →
        (getWfPriority now (CacheObject.unstructured un)).1 = toInt32 v ∧
        -(2 ^ 31) ≤ toInt32 v ∧ toInt32 v < 2 ^ 31 ∧ (toInt32 v - v) % 2 ^ 32 = 0 ∧
        (toInt32 v = v ↔ (-(2 ^ 31) ≤ v ∧ v < 2 ^ 31)))) ∧
    toInt32 (2 ^ 31) = -(2 ^ 31) ∧ toInt32 (2 ^ 32 + 5) = 5 ∧ toInt32 (-(2 ^ 31) - 1) = 2 ^ 31 - 1 := by
  refine ⟨rfl, ?_, by decide, by decide, by decide⟩
  intro un
  refine ⟨?_, ?_, ?_, ?_⟩
  · simp only [getWfPriority, NestedInt64]
    cases un.Priority <;> simp
  · intro h
    simp only [getWfPriority, NestedInt64, h]
    decide
  · intro err h
    simp [getWfPriority, NestedInt64, h]
  · intro v h
    obtain ⟨h1, h2, h3⟩ := toInt32_spec v
    refine ⟨by simp [getWfPriority, NestedInt64, h], h1, h2, h3, ?_⟩
    constructor
    · intro heq
      rw [heq] at h1 h2
      exact ⟨h1, h2⟩
    · intro hr
      exact toInt32_of_inRange v hr.1 hr.2

/-! ### Offload garbage collection, lock capacities, semaphore updates -/

/-- The loop over the versions makes the `Delete` calls the specification words, and returns
the error of the first one that fails. -/
theorem deleteVersions_eq (env : ControllerEnv) (uid : String) (wf : Option Workflow)
    (versions : List String) :
    deleteVersions env uid wf versions =
      ((attemptedDeletes env uid (versions.filter (fun v => !isLiveVersion wf v))).map
          (Action.offloadDelete uid),
        firstDeleteError env uid (versions.filter (fun v => !isLiveVersion wf v))) := by
  induction versions with
  | nil => rfl
  | cons version rest ih =>
    by_cases hl : isLiveVersion wf version = true
    · simp [deleteVersions, hl, ih]
    · have hl2 : isLiveVersion wf version = false := by simpa using hl
      cases hd : env.offloadDelete uid version with
      | some err =>
        simp [deleteVersions, hl2, hd, attemptedDeletes, firstDeleteError]
      | none =>
        simp [deleteVersions, hl2, hd, attemptedDeletes, firstDeleteError, ih]

theorem attemptedDeletes_subset (env : ControllerEnv) (uid : String) (versions : List String) :
    ∀ v ∈ attemptedDeletes env uid versions, v ∈ versions := by
  induction versions with
  | nil => simp [attemptedDeletes]
  | cons version rest ih =>
    intro v hv
    simp only [attemptedDeletes] at hv
    split at hv
    · simp at hv; simp [hv]
    · rcases List.mem_cons.mp hv with h | h
      · simp [h]
      · exact List.mem_cons_of_mem _ (ih v h)

theorem attemptedDeletes_all (env : ControllerEnv) (uid : String) (versions : List String)
    (hok : ∀ v ∈ versions, env.offloadDelete uid v = none) :
    attemptedDeletes env uid versions = versions ∧ firstDeleteError env uid versions = none := by
  induction versions with
  | nil => exact ⟨rfl, rfl⟩
  | cons version rest ih =>
    have h := hok version (List.mem_cons_self _ _)
    obtain ⟨ih1, ih2⟩ := ih (fun v hv => hok v (List.mem_cons_of_mem _ hv))
    simp [attemptedDeletes, firstDeleteError, h, ih1, ih2]

/-- The workflow the garbage collector compares the versions with: the converted workflow,
after dehydration when it was hydrated. -/
theorem liveWorkflow_ok (env : ControllerEnv) (key : String) (un : Unstructured)
    (wf : Workflow) (hg : getWorkflowByKey env.toEnv key = some (CacheObject.unstructured un))
    (hconv : env.fromUnstructured un = (wf, none))
    (hd : env.isHydrated wf = true → (env.dehydrate wf).2 = none) :
    liveWorkflow env key =
      (if env.isHydrated wf then [Action.getByKey key, Action.dehydrate]
        else [Action.getByKey key],
       Except.ok (if env.isHydrated wf then (env.dehydrate wf).1 else wf)) := by
  by_cases hh : env.isHydrated wf = true
  · simp [liveWorkflow, hg, hconv, hh, hd hh]
  · simp [liveWorkflow, hg, hconv, hh]

/-- The collector with a single workflow of the UID in the index whose lookup under the key
lock, conversion or dehydration ends in an error: the error is returned and the key lock is
released; the loop over the versions is not reached. -/
theorem deleteOffloadedNodesForWorkflow_live_error (env : ControllerEnv) (uid : String)
    (versions : List String) (un : Unstructured) (err : String)
    (hidx : env.byIndex UIDIndex uid = Except.ok [CacheObject.unstructured un])
    (hlive : (liveWorkflow env (un.ObjectMeta.Namespace ++ "/" ++ un.ObjectMeta.Name)).2 =
      Except.error err) :
    deleteOffloadedNodesForWorkflow env uid versions =
      ([Action.keyLock (un.ObjectMeta.Namespace ++ "/" ++ un.ObjectMeta.Name)] ++
        (liveWorkflow env (un.ObjectMeta.Namespace ++ "/" ++ un.ObjectMeta.Name)).1 ++
        [Action.keyUnlock (un.ObjectMeta.Namespace ++ "/" ++ un.ObjectMeta.Name)],
       some err) := by
  simp only [deleteOffloadedNodesForWorkflow, hidx, goByIndex, hlive]

/-- C22 (counterexample): the index holds the one workflow `argo/hello`, which is hydrated and
whose dehydration fails. Neither listed version, `v1` or `v3`, is the offload version of the
workflow (it has none), and no `Delete` would fail; the collector returns the error of the
dehydration and calls `Delete` for neither. -/
theorem deleteOffloadedNodesForWorkflow_dehydrate_error :
    deleteOffloadedNodesForWorkflow
      (failingDehydrateEnv [CacheObject.unstructured sampleUn]) "uid-1" ["v1", "v3"] =
      ([Action.keyLock "argo/hello", Action.getByKey "argo/hello", Action.dehydrate,
        Action.keyUnlock "argo/hello"],
       some "offload store down") ∧
    ((failingDehydrateEnv [CacheObject.unstructured sampleUn]).dehydrate
      (sampleWf "Running" "")).1.Status.OffloadNodeStatusVersion = "" ∧
    (failingDehydrateEnv [CacheObject.unstructured sampleUn]).offloadDelete "uid-1" "v1" = none ∧
    (failingDehydrateEnv [CacheObject.unstructured sampleUn]).offloadDelete "uid-1" "v3" =
      none := by
  decide

/-- C22 (amended): with a single workflow of the UID in the index that is found again by key
under its key lock, is an unstructured object, converts and (when hydrated) dehydrates without
error, `deleteOffloadedNodesForWorkflow` calls `Delete`, under the key lock of the workflow,
for the listed versions other than the `OffloadNodeStatusVersion` of the workflow as it stands
after dehydration, in list order, up to the first `Delete` that fails, whose error it returns;
it never calls `Delete` for that live version. When the workflow is not found again, is not an
unstructured object, does not convert or does not dehydrate, the collector returns that error
and calls `Delete` for no version, and so it does when the index lookup fails or the single
indexed object is not unstructured. With no workflow of the UID it calls `Delete` for all
listed versions, in list order up to the first that fails (every one of them when no `Delete`
fails). With more than one workflow it returns an error and makes no call. -/
theorem deleteOffloadedNodesForWorkflow_spec (env : ControllerEnv) (uid : String)
    (versions : List String) :
    (∀ un un2 wf,
      env.byIndex UIDIndex uid = Except.ok [CacheObject.unstructured un] →
      getWorkflowByKey env.toEnv (un.ObjectMeta.Namespace ++ "/" ++ un.ObjectMeta.Name) =
        some (CacheObject.unstructured un2) →
      env.fromUnstructured un2 = (wf, none) →
      (env.isHydrated wf = true → (env.dehydrate wf).2 = none) →
      ∀ live, live = (if env.isHydrated wf then (env.dehydrate wf).1 else wf) →
        (deleteOffloadedNodesForWorkflow env uid versions).1 =
          [Action.keyLock (un.ObjectMeta.Namespace ++ "/" ++ un.ObjectMeta.Name)] ++
          (if env.isHydrated wf then
            [Action.getByKey (un.ObjectMeta.Namespace ++ "/" ++ un.ObjectMeta.Name),
             Action.dehydrate]
           else [Action.getByKey (un.ObjectMeta.Namespace ++ "/" ++ un.ObjectMeta.Name)]) ++
          (attemptedDeletes env uid
            (versions.filter (fun v => v ≠ live.Status.OffloadNodeStatusVersion))).map
              (Action.offloadDelete uid) ++
          [Action.keyUnlock (un.ObjectMeta.Namespace ++ "/" ++ un.ObjectMeta.Name)] ∧
        (deleteOffloadedNodesForWorkflow env uid versions).2 =
          firstDeleteError env uid
            (versions.filter (fun v => v ≠ live.Status.OffloadNodeStatusVersion)) ∧
        Action.offloadDelete uid live.Status.OffloadNodeStatusVersion ∉
          (deleteOffloadedNodesForWorkflow env uid versions).1) ∧
    (∀ un, env.byIndex UIDIndex uid = Except.ok [CacheObject.unstructured un] →
      (getWorkflowByKey env.toEnv (un.ObjectMeta.Namespace ++ "/" ++ un.ObjectMeta.Name) =
          none →
        deleteOffloadedNodesForWorkflow env uid versions =
          ([Action.keyLock (un.ObjectMeta.Namespace ++ "/" ++ un.ObjectMeta.Name),
            Action.getByKey (un.ObjectMeta.Namespace ++ "/" ++ un.ObjectMeta.Name),
            Action.keyUnlock (un.ObjectMeta.Namespace ++ "/" ++ un.ObjectMeta.Name)],
           some "failed to get workflow by key after locking")) ∧
      (getWorkflowByKey env.toEnv (un.ObjectMeta.Namespace ++ "/" ++ un.ObjectMeta.Name) =
          some CacheObject.other →
        (deleteOffloadedNodesForWorkflow env uid versions).1 =
          [Action.keyLock (un.ObjectMeta.Namespace ++ "/" ++ un.ObjectMeta.Name),
           Action.getByKey (un.ObjectMeta.Namespace ++ "/" ++ un.ObjectMeta.Name),
           Action.keyUnlock (un.ObjectMeta.Namespace ++ "/" ++ un.ObjectMeta.Name)] ∧
        (deleteOffloadedNodesForWorkflow env uid versions).2 ≠ none) ∧
      (∀ un2 wf err,
        getWorkflowByKey env.toEnv (un.ObjectMeta.Namespace ++ "/" ++ un.ObjectMeta.Name) =
          some (CacheObject.unstructured un2) →
        env.fromUnstructured un2 = (wf, some err) →
        deleteOffloadedNodesForWorkflow env uid versions =
          ([Action.keyLock (un.ObjectMeta.Namespace ++ "/" ++ un.ObjectMeta.Name),
            Action.getByKey (un.ObjectMeta.Namespace ++ "/" ++ un.ObjectMeta.Name),
            Action.keyUnlock (un.ObjectMeta.Namespace ++ "/" ++ un.ObjectMeta.Name)],
           some err)) ∧
      (∀ un2 wf err,
        getWorkflowByKey env.toEnv (un.ObjectMeta.Namespace ++ "/" ++ un.ObjectMeta.Name) =
          some (CacheObject.unstructured un2) →
        env.fromUnstructured un2 = (wf, none) →
        env.isHydrated wf = true → (env.dehydrate wf).2 = some err →
        deleteOffloadedNodesForWorkflow env uid versions =
          ([Action.keyLock (un.ObjectMeta.Namespace ++ "/" ++ un.ObjectMeta.Name),
            Action.getByKey (un.ObjectMeta.Namespace ++ "/" ++ un.ObjectMeta.Name),
            Action.dehydrate,
            Action.keyUnlock (un.ObjectMeta.Namespace ++ "/" ++ un.ObjectMeta.Name)],
           some err))) ∧
    (env.byIndex UIDIndex uid = Except.ok [CacheObject.other] →
      (deleteOffloadedNodesForWorkflow env uid versions).1 = [] ∧
      (deleteOffloadedNodesForWorkflow env uid versions).2 ≠ none) ∧
    (∀ err, env.byIndex UIDIndex uid = Except.error err →
      deleteOffloadedNodesForWorkflow env uid versions = ([], some err)) ∧
    (env.byIndex UIDIndex uid = Except.ok [] →
      deleteOffloadedNodesForWorkflow env uid versions =
        ((attemptedDeletes env uid versions).map (Action.offloadDelete uid),
         firstDeleteError env uid versions) ∧
      ((∀ v ∈ versions, env.offloadDelete uid v = none) →
        deleteOffloadedNodesForWorkflow env uid versions =
          (versions.map (Action.offloadDelete uid), none))) ∧
    (∀ a b rest, env.byIndex UIDIndex uid = Except.ok (a :: b :: rest) →
      (deleteOffloadedNodesForWorkflow env uid versions).1 = [] ∧
      (deleteOffloadedNodesForWorkflow env uid versions).2 ≠ none) := by
  refine ⟨?_, ?_, ?_, ?_, ?_, ?_⟩
  · intro un un2 wf hidx hg hconv hd live hlive
    have hlw := liveWorkflow_ok env _ un2 wf hg hconv hd
    have hfilter : (versions.filter (fun v => !isLiveVersion (some live) v)) =
        versions.filter (fun v => v ≠ live.Status.OffloadNodeStatusVersion) := by
      apply List.filter_congr
      intro v _
      by_cases hv : v = live.Status.OffloadNodeStatusVersion
      · simp [isLiveVersion, hv]
      · have hv2 : ¬ live.Status.OffloadNodeStatusVersion = v := fun h => hv h.symm
        simp [isLiveVersion, hv, hv2]
    have hres : deleteOffloadedNodesForWorkflow env uid versions =
        ([Action.keyLock (un.ObjectMeta.Namespace ++ "/" ++ un.ObjectMeta.Name)] ++
          (liveWorkflow env (un.ObjectMeta.Namespace ++ "/" ++ un.ObjectMeta.Name)).1 ++
          (deleteVersions env uid (some live) versions).1 ++
          [Action.keyUnlock (un.ObjectMeta.Namespace ++ "/" ++ un.ObjectMeta.Name)],
         (deleteVersions env uid (some live) versions).2) := by
      simp only [deleteOffloadedNodesForWorkflow, hidx, goByIndex, hlw, hlive]
    rw [hres, deleteVersions_eq, hfilter, hlw]
    refine ⟨rfl, rfl, ?_⟩
    have hnot : live.Status.OffloadNodeStatusVersion ∉ attemptedDeletes env uid
        (versions.filter (fun v => v ≠ live.Status.OffloadNodeStatusVersion)) := by
      intro hmem
      have := attemptedDeletes_subset env uid _ _ hmem
      simp at this
    generalize attemptedDeletes env uid
      (versions.filter (fun v => v ≠ live.Status.OffloadNodeStatusVersion)) = attempted
      at hnot ⊢
    by_cases hh : env.isHydrated wf = true <;> simp [hh, hnot]
  · intro un hidx
    refine ⟨?_, ?_, ?_, ?_⟩
    · intro hg
      have hl : liveWorkflow env (un.ObjectMeta.Namespace ++ "/" ++ un.ObjectMeta.Name) =
          ([Action.getByKey (un.ObjectMeta.Namespace ++ "/" ++ un.ObjectMeta.Name)],
           Except.error "failed to get workflow by key after locking") := by
        simp [liveWorkflow, hg]
      rw [deleteOffloadedNodesForWorkflow_live_error env uid versions un _ hidx
        (by rw [hl]), hl]
      rfl
    · intro hg
      have hl : liveWorkflow env (un.ObjectMeta.Namespace ++ "/" ++ un.ObjectMeta.Name) =
          ([Action.getByKey (un.ObjectMeta.Namespace ++ "/" ++ un.ObjectMeta.Name)],
           Except.error "object is not an unstructured") := by
        simp [liveWorkflow, hg]
      rw [deleteOffloadedNodesForWorkflow_live_error env uid versions un _ hidx
        (by rw [hl]), hl]
      exact ⟨rfl, by simp⟩
    · intro un2 wf err hg hconv
      have hl : liveWorkflow env (un.ObjectMeta.Namespace ++ "/" ++ un.ObjectMeta.Name) =
          ([Action.getByKey (un.ObjectMeta.Namespace ++ "/" ++ un.ObjectMeta.Name)],
           Except.error err) := by
        simp [liveWorkflow, hg, hconv]
      rw [deleteOffloadedNodesForWorkflow_live_error env uid versions un _ hidx
        (by rw [hl]), hl]
      rfl
    · intro un2 wf err hg hconv hh hd
      have hl : liveWorkflow env (un.ObjectMeta.Namespace ++ "/" ++ un.ObjectMeta.Name) =
          ([Action.getByKey (un.ObjectMeta.Namespace ++ "/" ++ un.ObjectMeta.Name),
            Action.dehydrate],
           Except.error err) := by
        simp [liveWorkflow, hg, hconv, hh, hd]
      rw [deleteOffloadedNodesForWorkflow_live_error env uid versions un _ hidx
        (by rw [hl]), hl]
      rfl
  · intro hidx
    simp [deleteOffloadedNodesForWorkflow, hidx, goByIndex]
  · intro err hidx
    simp [deleteOffloadedNodesForWorkflow, hidx, goByIndex]
  · intro hidx
    have hfilter : (versions.filter (fun v => !isLiveVersion none v)) = versions := by
      simp [isLiveVersion]
    have hres : deleteOffloadedNodesForWorkflow env uid versions =
        deleteVersions env uid none versions := by
      simp [deleteOffloadedNodesForWorkflow, hidx, goByIndex]
    rw [hres, deleteVersions_eq, hfilter]
    refine ⟨rfl, ?_⟩
    intro hok
    obtain ⟨h1, h2⟩ := attemptedDeletes_all env uid versions hok
    rw [h1, h2]
  · intro a b rest hidx
    simp [deleteOffloadedNodesForWorkflow, hidx, goByIndex]

/-- Witness of C22: the index holds the one workflow `argo/hello`, which dehydration leaves at
offload version `v2`; of the listed versions `v1`, `v2`, `broken`, `v3` the collector deletes
`v1`, skips the live `v2`, fails on `broken` and does not reach `v3`. -/
theorem deleteOffloadedNodesForWorkflow_spec_witness :
    deleteOffloadedNodesForWorkflow
      (sampleControllerEnv [CacheObject.unstructured sampleUn]) "uid-1"
      ["v1", "v2", "broken", "v3"] =
      ([Action.keyLock "argo/hello", Action.getByKey "argo/hello", Action.dehydrate,
        Action.offloadDelete "uid-1" "v1", Action.offloadDelete "uid-1" "broken",
        Action.keyUnlock "argo/hello"],
       some "database down") ∧
    Action.offloadDelete "uid-1" "v2" ∉
      (deleteOffloadedNodesForWorkflow
        (sampleControllerEnv [CacheObject.unstructured sampleUn]) "uid-1"
        ["v1", "v2", "broken", "v3"]).1 :=
  ⟨by decide,
   ((deleteOffloadedNodesForWorkflow_spec
      (sampleControllerEnv [CacheObject.unstructured sampleUn]) "uid-1"
      ["v1", "v2", "broken", "v3"]).1 sampleUn sampleUn (sampleWf "Running" "")
      rfl (by decide) (by decide) (fun _ => rfl) _ rfl).2.2⟩

/-- C23: once the lock name is decoded and the ConfigMap fetched, `getSyncLimit` returns an
error with code BadRequest if and only if the ConfigMap has no data entry for the key of the
lock, and then the capacity is 0 and the message is "Sync configuration key '<key>' not found
in ConfigMap"; when the entry exists it returns what `strconv.Atoi` returns for its value, the
integer and the parse error, which has no code. An error of the decoding or of the fetch is
returned as it is, with capacity 0. -/
theorem getSyncLimit_spec (env : ControllerEnv) (lockKey : String) :
    (∀ lockName configMap, env.decodeLockName lockKey = Except.ok lockName →
      env.getConfigMap lockName.Namespace lockName.ResourceName = Except.ok configMap →
      ((∃ message, (getSyncLimit env lockKey).2 =
          some { code := some CodeBadRequest, message := message }) ↔
        configMap.Data.lookup lockName.Key = none) ∧
      (configMap.Data.lookup lockName.Key = none →
        getSyncLimit env lockKey =
          (0, some { code := some CodeBadRequest,
                     message := "Sync configuration key '" ++ lockName.Key ++
                       "' not found in ConfigMap" })) ∧
      (∀ value, configMap.Data.lookup lockName.Key = some value →
        (getSyncLimit env lockKey).1 = (env.atoi value).1 ∧
        ((env.atoi value).2 = none → (getSyncLimit env lockKey).2 = none) ∧
        (∀ m, (env.atoi value).2 = some m →
          (getSyncLimit env lockKey).2 = some { code := none, message := m }))) ∧
    (∀ err, env.decodeLockName lockKey = Except.error err →
      getSyncLimit env lockKey = (0, some err)) ∧
    (∀ lockName err, env.decodeLockName lockKey = Except.ok lockName →
      env.getConfigMap lockName.Namespace lockName.ResourceName = Except.error err →
      getSyncLimit env lockKey = (0, some err)) := by
  refine ⟨?_, ?_, ?_⟩
  · intro lockName configMap hdec hget
    cases hl : configMap.Data.lookup lockName.Key with
    | none =>
      have hres : getSyncLimit env lockKey =
          (0, some { code := some CodeBadRequest,
                     message := "Sync configuration key '" ++ lockName.Key ++
                       "' not found in ConfigMap" }) := by
        simp [getSyncLimit, hdec, hget, hl]
      refine ⟨⟨fun _ => rfl, fun _ => ⟨_, by rw [hres]⟩⟩, fun _ => hres, ?_⟩
      intro value hv
      cases hv
    | some value =>
      refine ⟨⟨?_, fun h => (by cases h)⟩, fun h => (by cases h), ?_⟩
      · rintro ⟨message, hm⟩
        simp only [getSyncLimit, hdec, hget, hl] at hm
        cases ha : (env.atoi value).2 with
        | none => simp [ha] at hm
        | some m => simp [ha] at hm
      · intro v hv
        injection hv with hv
        subst hv
        refine ⟨by simp [getSyncLimit, hdec, hget, hl], ?_, ?_⟩
        · intro ha
          simp [getSyncLimit, hdec, hget, hl, ha]
        · intro m ha
          simp [getSyncLimit, hdec, hget, hl, ha]
  · intro err hdec
    simp [getSyncLimit, hdec]
  · intro lockName err hdec hget
    simp [getSyncLimit, hdec, hget]

theorem notifyLoop_eq (objs : List CacheObject) :
    notifyLoop objs = (semaphoreWaiterKeys objs).map Action.queueAddRateLimited := by
  induction objs with
  | nil => rfl
  | cons obj rest ih =>
    cases obj with
    | other => simpa [notifyLoop, semaphoreWaiterKeys] using ih
    | unstructured un =>
      simp only [semaphoreWaiterKeys] at ih
      simp [notifyLoop, semaphoreWaiterKeys, ih]

/-- C24: `notifySemaphoreConfigUpdate(cm)` calls `AddRateLimited` with the key
`namespace/name` of every unstructured object the semaphore-config index returns for the value
`<cm.Namespace>/<cm.Name>`, once per such object and in their order, and makes no other call;
objects of another type are skipped, and when the index returns an error nothing is
enqueued. -/
theorem notifySemaphoreConfigUpdate_calls (env : ControllerEnv) (cm : ConfigMap) :
    (∀ objs, env.byIndex SemaphoreConfigIndexName (cm.Namespace ++ "/" ++ cm.Name) =
        Except.ok objs →
      notifySemaphoreConfigUpdate env cm =
        (semaphoreWaiterKeys objs).map Action.queueAddRateLimited) ∧
    (∀ err, env.byIndex SemaphoreConfigIndexName (cm.Namespace ++ "/" ++ cm.Name) =
        Except.error err →
      notifySemaphoreConfigUpdate env cm = []) ∧
    (∀ un rest, semaphoreWaiterKeys (CacheObject.unstructured un :: rest) =
      (un.ObjectMeta.Namespace ++ "/" ++ un.ObjectMeta.Name) :: semaphoreWaiterKeys rest) ∧
    (∀ rest, semaphoreWaiterKeys (CacheObject.other :: rest) = semaphoreWaiterKeys rest) ∧
    semaphoreWaiterKeys [] = [] := by
  refine ⟨?_, ?_, ?_, ?_, rfl⟩
  · intro objs h
    simp only [notifySemaphoreConfigUpdate, h, goByIndex]
    exact notifyLoop_eq objs
  · intro err h
    simp [notifySemaphoreConfigUpdate, h, goByIndex, notifyLoop]
  · intro un rest
    simp [semaphoreWaiterKeys]
  · intro rest
    simp [semaphoreWaiterKeys]

/-! ### The offline client -/

theorem lookup_cons_eq {β : Type} (k a : String) (b : β) (es : List (String × β)) :
    ((k, b) :: es).lookup a = if a = k then some b else es.lookup a := by
  rw [List.lookup_cons]
  by_cases h : a = k
  · simp [h]
  · have : (a == k) = false := by simpa using h
    simp [h, this]

theorem getNamespaceGetter_cons (k : String) (g : offlineWorkflowTemplateNamespacedGetter)
    (m : List (String × offlineWorkflowTemplateNamespacedGetter)) (ns : String) :
    GetNamespaceGetter ((k, g) :: m) ns = if ns = k then g else GetNamespaceGetter m ns := by
  simp only [GetNamespaceGetter, lookup_cons_eq]
  by_cases h : ns = k <;> simp [h]

theorem noDuplicates_append_singleton (objs : List ParsedObject) (obj : ParsedObject) :
    NoDuplicates (objs ++ [obj]) ↔ NoDuplicates objs ∧ ∀ o ∈ objs, ¬ SameKey o obj := by
  simp [NoDuplicates, List.pairwise_append]

theorem noDuplicates_of_append (objs a b : List ParsedObject)
    (h : NoDuplicates (objs ++ (a ++ b))) : NoDuplicates (objs ++ a) := by
  rw [← List.append_assoc] at h
  exact (List.pairwise_append.mp h).1

/-- An object of another kind changes nothing. -/
theorem represents_other (c : offlineClient) (objs : List ParsedObject) (name ns : String)
    (h : Represents c objs) : Represents c (objs ++ [ParsedObject.other name ns]) := by
  obtain ⟨h1, h2, h3, h4⟩ := h
  refine ⟨?_, ?_, h3, ?_⟩
  · intro n v; rw [h1 n v]; simp
  · intro ns2 n v; rw [h2 ns2 n v]; simp
  · rw [noDuplicates_append_singleton]
    exact ⟨h4, fun o _ hk => by cases o <;> exact hk⟩

/-- Adding a cluster workflow template whose name is free keeps the client in step with the
objects. -/
theorem represents_cluster (c : offlineClient) (objs : List ParsedObject)
    (v : ClusterWorkflowTemplate) (h : Represents c objs)
    (hfree : c.clusterWorkflowTemplateGetter.clusterWorkflowTemplates.lookup v.Name = none) :
    Represents
      { c with
        clusterWorkflowTemplateGetter :=
          { clusterWorkflowTemplates :=
              (v.Name, v) :: c.clusterWorkflowTemplateGetter.clusterWorkflowTemplates } }
      (objs ++ [ParsedObject.clusterWorkflowTemplate v]) := by
  obtain ⟨h1, h2, h3, h4⟩ := h
  have hnone : ∀ w, ParsedObject.clusterWorkflowTemplate w ∈ objs → w.Name ≠ v.Name := by
    intro w hw hn
    have := (h1 v.Name w).mpr ⟨hw, hn⟩
    rw [hfree] at this
    cases this
  refine ⟨?_, ?_, h3, ?_⟩
  · intro n w
    simp only [lookup_cons_eq]
    by_cases hn : n = v.Name
    · subst hn
      simp only [if_true, List.mem_append, List.mem_singleton]
      constructor
      · intro hw
        injection hw with hw
        subst hw
        exact ⟨Or.inr rfl, rfl⟩
      · rintro ⟨hw | hw, hname⟩
        · exact absurd hname (hnone w hw)
        · injection hw with hw
          rw [hw]
    · simp only [hn, if_false, List.mem_append, List.mem_singleton]
      rw [h1 n w]
      constructor
      · rintro ⟨hw, hname⟩
        exact ⟨Or.inl hw, hname⟩
      · rintro ⟨hw | hw, hname⟩
        · exact ⟨hw, hname⟩
        · injection hw with hw
          rw [hw] at hname
          exact absurd hname.symm hn
  · intro ns n w
    rw [h2 ns n w]
    simp
  · rw [noDuplicates_append_singleton]
    refine ⟨h4, ?_⟩
    intro o ho hk
    cases o with
    | clusterWorkflowTemplate w => exact hnone w ho hk
    | workflowTemplate w => exact hk
    | other a b => exact hk

/-- Adding a workflow template whose name is free in its namespace keeps the client in step
with the objects. -/
theorem represents_namespaced (c : offlineClient) (objs : List ParsedObject)
    (v : WorkflowTemplate) (h : Represents c objs)
    (hfree : (GetNamespaceGetter c.namespacedWorkflowTemplateGetterMap
      v.Namespace).workflowTemplates.lookup v.Name = none) :
    Represents
      { c with
        namespacedWorkflowTemplateGetterMap :=
          (v.Namespace,
            { GetNamespaceGetter c.namespacedWorkflowTemplateGetterMap v.Namespace with
              workflowTemplates :=
                (v.Name, v) ::
                  (GetNamespaceGetter c.namespacedWorkflowTemplateGetterMap
                    v.Namespace).workflowTemplates }) ::
          c.namespacedWorkflowTemplateGetterMap }
      (objs ++ [ParsedObject.workflowTemplate v]) := by
  obtain ⟨h1, h2, h3, h4⟩ := h
  have hnone : ∀ w, ParsedObject.workflowTemplate w ∈ objs →
      ¬ (w.Namespace = v.Namespace ∧ w.Name = v.Name) := by
    intro w hw hn
    have := (h2 v.Namespace v.Name w).mpr ⟨hw, hn.1, hn.2⟩
    rw [hfree] at this
    cases this
  refine ⟨?_, ?_, ?_, ?_⟩
  · intro n w
    rw [h1 n w]
    simp
  · intro ns n w
    simp only [getNamespaceGetter_cons]
    by_cases hns : ns = v.Namespace
    · subst hns
      simp only [if_true, lookup_cons_eq]
      by_cases hn : n = v.Name
      · subst hn
        simp only [if_true, List.mem_append, List.mem_singleton]
        constructor
        · intro hw
          injection hw with hw
          subst hw
          exact ⟨Or.inr rfl, rfl, rfl⟩
        · rintro ⟨hw | hw, hns2, hname⟩
          · exact absurd ⟨hns2, hname⟩ (hnone w hw)
          · injection hw with hw
            rw [hw]
      · simp only [hn, if_false, List.mem_append, List.mem_singleton]
        rw [h2 v.Namespace n w]
        constructor
        · rintro ⟨hw, hns2, hname⟩
          exact ⟨Or.inl hw, hns2, hname⟩
        · rintro ⟨hw | hw, hns2, hname⟩
          · exact ⟨hw, hns2, hname⟩
          · injection hw with hw
            rw [hw] at hname
            exact absurd hname.symm hn
    · simp only [hns, if_false, List.mem_append, List.mem_singleton]
      rw [h2 ns n w]
      constructor
      · rintro ⟨hw, hns2, hname⟩
        exact ⟨Or.inl hw, hns2, hname⟩
      · rintro ⟨hw | hw, hns2, hname⟩
        · exact ⟨hw, hns2, hname⟩
        · injection hw with hw
          rw [hw] at hns2
          exact absurd hns2.symm hns
  · intro ns
    simp only [getNamespaceGetter_cons]
    by_cases hns : ns = v.Namespace
    · subst hns
      simp only [if_true]
      exact h3 v.Namespace
    · simp only [hns, if_false]
      exact h3 ns
  · rw [noDuplicates_append_singleton]
    refine ⟨h4, ?_⟩
    intro o ho hk
    cases o with
    | clusterWorkflowTemplate w => exact hk
    | workflowTemplate w => exact hnone w ho hk
    | other a b => exact hk

theorem getter_eq (m : List (String × offlineWorkflowTemplateNamespacedGetter))
    (ns : String) :
    (match m.lookup ns with
      | some g => g
      | none => ({ namespace_ := ns, workflowTemplates := [] } :
          offlineWorkflowTemplateNamespacedGetter)) = GetNamespaceGetter m ns := by
  simp only [GetNamespaceGetter]
  cases m.lookup ns <;> rfl

/-- One parse result: what the body of the loop ends with. -/
theorem processResult_outcome (path : String) (c : offlineClient) (objs : List ParsedObject)
    (pr : ParseResult) (h : Represents c objs) :
    Outcome (processResult path c pr) objs pr.Object.toList pr.Err.isNone := by
  cases herr : pr.Err with
  | some err => simp [Outcome, processResult, herr]
  | none =>
    cases hobj : pr.Object with
    | none => simpa [Outcome, processResult, herr, hobj] using h
    | some obj =>
      cases obj with
      | other name ns =>
        simpa [Outcome, processResult, herr, hobj] using represents_other c objs name ns h
      | clusterWorkflowTemplate v =>
        cases hl : c.clusterWorkflowTemplateGetter.clusterWorkflowTemplates.lookup v.Name with
        | none =>
          simpa [Outcome, processResult, herr, hobj, ParsedObject.GetName, hl] using
            represents_cluster c objs v h hl
        | some w =>
          have hw := (h.1 v.Name w).mp hl
          simp only [Outcome, processResult, herr, hobj, ParsedObject.GetName, hl,
            Option.toList]
          right
          refine ⟨rfl, ?_⟩
          rw [noDuplicates_append_singleton]
          intro hno
          exact hno.2 _ hw.1 hw.2
      | workflowTemplate v =>
        cases hl : (GetNamespaceGetter c.namespacedWorkflowTemplateGetterMap
            v.Namespace).workflowTemplates.lookup v.Name with
        | none =>
          have hr := represents_namespaced c objs v h hl
          simp only [Outcome, processResult, herr, hobj, ParsedObject.GetName,
            ParsedObject.GetNamespace, getter_eq, hl, Option.toList, Option.isNone]
          exact ⟨hr, trivial⟩
        | some w =>
          have hw := (h.2.1 v.Namespace v.Name w).mp hl
          simp only [Outcome, processResult, herr, hobj, ParsedObject.GetName,
            ParsedObject.GetNamespace, getter_eq, hl, Option.toList]
          right
          refine ⟨rfl, ?_⟩
          rw [noDuplicates_append_singleton]
          intro hno
          exact hno.2 _ hw.1 ⟨hw.2.1, hw.2.2⟩

/-- A loop whose body ends as `Outcome` says ends as `Outcome` says. -/
theorem outcome_forExcept {α : Type}
    (f : offlineClient → α → Except OfflineError offlineClient)
    (g : α → List ParsedObject) (k : α → Bool)
    (hstep : ∀ c objs a, Represents c objs → Outcome (f c a) objs (g a) (k a))
    (l : List α) (c : offlineClient) (objs : List ParsedObject) (h : Represents c objs) :
    Outcome (forExcept f c l) objs (l.flatMap g) (l.all k) := by
  induction l generalizing c objs with
  | nil => simpa [Outcome, forExcept] using h
  | cons a rest ih =>
    have hs := hstep c objs a h
    cases hf : f c a with
    | error e =>
      rw [hf] at hs
      simp only [Outcome] at hs
      simp only [forExcept, hf, Outcome, List.flatMap_cons, List.all_cons]
      rcases hs with hk | ⟨hd, hn⟩
      · left; simp [hk]
      · right
        exact ⟨hd, fun hno => hn (noDuplicates_of_append objs _ _ hno)⟩
    | ok c2 =>
      rw [hf] at hs
      simp only [Outcome] at hs
      have hrest := ih c2 (objs ++ g a) hs.1
      simp only [forExcept, hf, List.flatMap_cons, List.all_cons, hs.2, Bool.true_and]
      cases hr : forExcept f c2 rest with
      | error e =>
        rw [hr] at hrest
        simp only [Outcome] at hrest ⊢
        rw [List.append_assoc] at hrest
        exact hrest
      | ok c3 =>
        rw [hr] at hrest
        simp only [Outcome] at hrest ⊢
        rw [List.append_assoc] at hrest
        exact hrest

theorem processResults_eq (path : String) (c : offlineClient) (results : List ParseResult) :
    processResults path c results = forExcept (processResult path) c results := by
  induction results generalizing c with
  | nil => rfl
  | cons pr rest ih =>
    simp only [processResults, forExcept]
    cases processResult path c pr with
    | error e => rfl
    | ok c2 => exact ih c2

theorem processSteps_eq (c : offlineClient) (steps : List WalkStep) :
    processSteps c steps = forExcept processStep c steps := by
  induction steps generalizing c with
  | nil => rfl
  | cons step rest ih =>
    cases step with
    | failure err => rfl
    | file path results =>
      simp only [processSteps, forExcept, processStep]
      cases processResults path c results with
      | error e => rfl
      | ok c2 => exact ih c2

theorem processPaths_eq (walk : String → List WalkStep) (c : offlineClient)
    (paths : List String) :
    processPaths walk c paths =
      forExcept (fun c2 basePath => processSteps c2 (walk basePath)) c paths := by
  induction paths generalizing c with
  | nil => rfl
  | cons basePath rest ih =>
    simp only [processPaths, forExcept]
    cases processSteps c (walk basePath) with
    | error e => rfl
    | ok c2 => exact ih c2

theorem flatMap_toList (results : List ParseResult) :
    results.flatMap (fun pr => pr.Object.toList) = results.filterMap (fun pr => pr.Object) := by
  induction results with
  | nil => rfl
  | cons pr rest ih =>
    cases h : pr.Object <;> simp [List.flatMap_cons, List.filterMap_cons, h, ih]

theorem processStep_outcome (c : offlineClient) (objs : List ParsedObject) (step : WalkStep)
    (h : Represents c objs) : Outcome (processStep c step) objs step.objects step.clean := by
  cases step with
  | failure err => simp [Outcome, processStep, WalkStep.clean]
  | file path results =>
    have ho := outcome_forExcept (processResult path) (fun pr => pr.Object.toList)
      (fun pr => pr.Err.isNone) (fun c2 objs2 pr h2 => processResult_outcome path c2 objs2 pr h2)
      results c objs h
    rw [flatMap_toList] at ho
    simpa [processStep, processResults_eq, WalkStep.objects, WalkStep.clean] using ho

theorem represents_empty : Represents {} [] := by
  refine ⟨?_, ?_, ?_, ?_⟩
  · intro n v; simp
  · intro ns n v; simp [GetNamespaceGetter]
  · intro ns; simp [GetNamespaceGetter]
  · exact List.Pairwise.nil

/-- What `newOfflineClient` ends with: a client that holds all parsed objects, which do not
collide, when no walk fails and no parse result is in error; or an error, which is a duplicate
error for a collision among the parsed objects unless a walk failed or a parse result was in
error. -/
theorem newOfflineClient_outcome (walk : String → List WalkStep) (paths : List String) :
    Outcome (newOfflineClient walk paths) [] (parsedObjects walk paths)
      (cleanPaths walk paths) := by
  have ho := outcome_forExcept (fun c2 basePath => processSteps c2 (walk basePath))
    (fun basePath => (walk basePath).flatMap WalkStep.objects)
    (fun basePath => (walk basePath).all WalkStep.clean)
    (fun c2 objs2 basePath h2 => by
      show Outcome (processSteps c2 (walk basePath)) objs2
        ((walk basePath).flatMap WalkStep.objects) ((walk basePath).all WalkStep.clean)
      rw [processSteps_eq]
      exact outcome_forExcept processStep WalkStep.objects WalkStep.clean
        processStep_outcome (walk basePath) c2 objs2 h2)
    paths {} [] represents_empty
  simpa [newOfflineClient, processPaths_eq, parsedObjects, cleanPaths] using ho

/-- Two colliding objects at two positions of a list: the list has duplicates. -/
theorem not_noDuplicates (before : List ParsedObject) (a : ParsedObject)
    (between : List ParsedObject) (b : ParsedObject) (after : List ParsedObject)
    (hk : SameKey a b) : ¬ NoDuplicates (before ++ a :: (between ++ b :: after)) := by
  intro h
  have h2 := (List.pairwise_append.mp h).2.1
  have h3 := (List.pairwise_cons.mp h2).1 b (by simp)
  exact h3 hk

/-- C25: after `newOfflineClient` succeeds, `GetNamespaceGetter(ns).Get(n)` returns the
workflow template parsed from the files with namespace `ns` and name `n` when there is one,
and the error "couldn't find workflow template" (with `n` and `ns`) when there is none, also
for a namespace in which no template was loaded; the cluster getter returns the cluster
workflow template parsed with name `n` when there is one and the error "couldn't find cluster
workflow template" otherwise. -/
theorem offline_getters (walk : String → List WalkStep) (paths : List String)
    (c : offlineClient) (hok : newOfflineClient walk paths = Except.ok c) :
    (∀ t, ParsedObject.workflowTemplate t ∈ parsedObjects walk paths →
      (GetNamespaceGetter c.namespacedWorkflowTemplateGetterMap t.Namespace).Get t.Name =
        Except.ok t) ∧
    (∀ ns n, (∀ t, ParsedObject.workflowTemplate t ∈ parsedObjects walk paths →
        ¬ (t.Namespace = ns ∧ t.Name = n)) →
      (GetNamespaceGetter c.namespacedWorkflowTemplateGetterMap ns).Get n =
        Except.error (OfflineError.workflowTemplateNotFound n ns)) ∧
    (∀ ns, (∀ t, ParsedObject.workflowTemplate t ∈ parsedObjects walk paths →
        t.Namespace ≠ ns) →
      ∀ n, (GetNamespaceGetter c.namespacedWorkflowTemplateGetterMap ns).Get n =
        Except.error (OfflineError.workflowTemplateNotFound n ns)) ∧
    (∀ t, ParsedObject.clusterWorkflowTemplate t ∈ parsedObjects walk paths →
      c.clusterWorkflowTemplateGetter.Get t.Name = Except.ok t) ∧
    (∀ n, (∀ t, ParsedObject.clusterWorkflowTemplate t ∈ parsedObjects walk paths →
        t.Name ≠ n) →
      c.clusterWorkflowTemplateGetter.Get n =
        Except.error (OfflineError.clusterWorkflowTemplateNotFound n)) ∧
    (∀ n ns, (OfflineError.workflowTemplateNotFound n ns).message =
      "couldn't find workflow template " ++ goQuote n ++ " in namespace " ++ goQuote ns) ∧
    (∀ n, (OfflineError.clusterWorkflowTemplateNotFound n).message =
      "couldn't find cluster workflow template " ++ goQuote n) := by
  have ho := newOfflineClient_outcome walk paths
  rw [hok] at ho
  simp only [Outcome, List.nil_append] at ho
  obtain ⟨⟨h1, h2, h3, _⟩, _⟩ := ho
  have hmiss : ∀ ns n, (∀ t, ParsedObject.workflowTemplate t ∈ parsedObjects walk paths →
      ¬ (t.Namespace = ns ∧ t.Name = n)) →
      (GetNamespaceGetter c.namespacedWorkflowTemplateGetterMap ns).Get n =
        Except.error (OfflineError.workflowTemplateNotFound n ns) := by
    intro ns n hnone
    cases hl : (GetNamespaceGetter c.namespacedWorkflowTemplateGetterMap
        ns).workflowTemplates.lookup n with
    | some t =>
      have ht := (h2 ns n t).mp hl
      exact absurd ⟨ht.2.1, ht.2.2⟩ (hnone t ht.1)
    | none => simp [offlineWorkflowTemplateNamespacedGetter.Get, hl, h3 ns]
  refine ⟨?_, hmiss, ?_, ?_, ?_, fun _ _ => rfl, fun _ => rfl⟩
  · intro t ht
    have := (h2 t.Namespace t.Name t).mpr ⟨ht, rfl, rfl⟩
    simp [offlineWorkflowTemplateNamespacedGetter.Get, this]
  · intro ns hnone n
    exact hmiss ns n (fun t ht hh => hnone t ht hh.1)
  · intro t ht
    have := (h1 t.Name t).mpr ⟨ht, rfl⟩
    simp [offlineClusterWorkflowTemplateGetter.Get, this]
  · intro n hnone
    cases hl : c.clusterWorkflowTemplateGetter.clusterWorkflowTemplates.lookup n with
    | some t =>
      have ht := (h1 n t).mp hl
      exact absurd ht.2 (hnone t ht.1)
    | none => simp [offlineClusterWorkflowTemplateGetter.Get, hl]

/-- Witness of C25: the paths `a` and `b` of the sample walk load `argo/build`, the cluster
template `build` and `ci/build`; the getter of the namespace `ci` returns `ci/build`. -/
theorem offline_getters_witness :
    (GetNamespaceGetter
      [("ci", { namespace_ := "ci",
                workflowTemplates := [("build", { Name := "build", Namespace := "ci" })] }),
       ("argo", { namespace_ := "argo",
                  workflowTemplates := [("build", { Name := "build", Namespace := "argo" })] })]
      "ci").Get "build" = Except.ok { Name := "build", Namespace := "ci" } :=
  (offline_getters sampleWalk ["a", "b"]
    { clusterWorkflowTemplateGetter :=
        { clusterWorkflowTemplates := [("build", { Name := "build" })] },
      namespacedWorkflowTemplateGetterMap :=
        [("ci", { namespace_ := "ci",
                  workflowTemplates := [("build", { Name := "build", Namespace := "ci" })] }),
         ("argo", { namespace_ := "argo",
                    workflowTemplates :=
                      [("build", { Name := "build", Namespace := "argo" })] })] }
    rfl).1 { Name := "build", Namespace := "ci" } (by decide)

/-! ### The loading loops, one item at a time -/

theorem forExcept_append_error {α : Type}
    (f : offlineClient → α → Except OfflineError offlineClient) (l1 l2 : List α)
    (c : offlineClient) (e : OfflineError) (h : forExcept f c l1 = Except.error e) :
    forExcept f c (l1 ++ l2) = Except.error e := by
  induction l1 generalizing c with
  | nil => simp [forExcept] at h
  | cons a rest ih =>
    simp only [List.cons_append, forExcept] at h ⊢
    cases hf : f c a with
    | error e2 => rw [hf] at h; exact h
    | ok c2 => rw [hf] at h; exact ih c2 h

theorem forExcept_append_ok {α : Type}
    (f : offlineClient → α → Except OfflineError offlineClient) (l1 l2 : List α)
    (c c2 : offlineClient) (h : forExcept f c l1 = Except.ok c2) :
    forExcept f c (l1 ++ l2) = forExcept f c2 l2 := by
  induction l1 generalizing c with
  | nil =>
    simp only [forExcept] at h
    injection h with h
    rw [h]; rfl
  | cons a rest ih =>
    simp only [List.cons_append, forExcept] at h ⊢
    cases hf : f c a with
    | error e2 => rw [hf] at h; cases h
    | ok c3 => rw [hf] at h; exact ih c3 h

theorem forExcept_map {α β : Type}
    (f : offlineClient → β → Except OfflineError offlineClient) (g : α → β) (l : List α)
    (c : offlineClient) :
    forExcept f c (l.map g) = forExcept (fun c2 a => f c2 (g a)) c l := by
  induction l generalizing c with
  | nil => rfl
  | cons a rest ih =>
    simp only [List.map_cons, forExcept]
    cases f c (g a) with
    | error e => rfl
    | ok c2 => exact ih c2

theorem forExcept_flatMap {α β : Type}
    (f : offlineClient → β → Except OfflineError offlineClient) (g : α → List β) (l : List α)
    (c : offlineClient) :
    forExcept f c (l.flatMap g) = forExcept (fun c2 a => forExcept f c2 (g a)) c l := by
  induction l generalizing c with
  | nil => rfl
  | cons a rest ih =>
    simp only [List.flatMap_cons, forExcept]
    cases hf : forExcept f c (g a) with
    | error e => exact forExcept_append_error f _ _ c e hf
    | ok c2 =>
      rw [forExcept_append_ok f _ _ c c2 hf]
      exact ih c2

/-- One walk step is the loop over its items. -/
theorem processStep_eq_items (c : offlineClient) (step : WalkStep) :
    processStep c step = forExcept processItem c step.items := by
  cases step with
  | failure err => rfl
  | file path results =>
    simp only [processStep, WalkStep.items, processResults_eq, forExcept_map]
    rfl

/-- The three nested loops of `newOfflineClient` are one loop over everything they meet. -/
theorem newOfflineClient_eq_items (walk : String → List WalkStep) (paths : List String) :
    newOfflineClient walk paths = forExcept processItem {} (walkItems walk paths) := by
  have hsteps : ∀ (c : offlineClient) (steps : List WalkStep),
      processSteps c steps = forExcept processItem c (steps.flatMap WalkStep.items) := by
    intro c steps
    rw [processSteps_eq, forExcept_flatMap]
    congr 1
    funext c2 step
    exact processStep_eq_items c2 step
  simp only [newOfflineClient, processPaths_eq, walkItems, forExcept_flatMap]
  congr 1
  funext c2 basePath
  rw [hsteps, forExcept_flatMap]

theorem processItem_outcome (c : offlineClient) (objs : List ParsedObject) (item : WalkItem)
    (h : Represents c objs) : Outcome (processItem c item) objs item.objects item.clean := by
  cases item with
  | failure err => simp [Outcome, processItem, WalkItem.clean]
  | result path pr => exact processResult_outcome path c objs pr h

/-- The loop over a run of items without error that starts from the empty client. -/
theorem items_outcome (items : List WalkItem) :
    Outcome (forExcept processItem {} items) [] (items.flatMap WalkItem.objects)
      (items.all WalkItem.clean) :=
  outcome_forExcept processItem WalkItem.objects WalkItem.clean processItem_outcome items {} []
    represents_empty

/-- An error of the body on a parse result that has no error and holds a template is the
duplicate error of the kind of the template, with its name. -/
theorem processResult_error (path : String) (c : offlineClient) (pr : ParseResult)
    (obj : ParsedObject) (e : OfflineError) (herr : pr.Err = none)
    (hobj : pr.Object = some obj) (he : processResult path c pr = Except.error e) :
    (∀ v, obj = ParsedObject.clusterWorkflowTemplate v →
      e = OfflineError.duplicateClusterWorkflowTemplate v.Name) ∧
    (∀ v, obj = ParsedObject.workflowTemplate v →
      e = OfflineError.duplicateWorkflowTemplate v.Name) := by
  constructor
  · intro v hv
    rw [hv] at hobj
    simp only [processResult, herr, hobj, ParsedObject.GetName] at he
    split at he
    · injection he with he
      exact he.symm
    · cases he
  · intro v hv
    rw [hv] at hobj
    simp only [processResult, herr, hobj, ParsedObject.GetName] at he
    split at he
    · injection he with he
      exact he.symm
    · cases he

/-- The objects of the items are the parsed objects. -/
theorem walkItems_objects (walk : String → List WalkStep) (paths : List String) :
    (walkItems walk paths).flatMap WalkItem.objects = parsedObjects walk paths := by
  have hstep : ∀ step : WalkStep, step.items.flatMap WalkItem.objects = step.objects := by
    intro step
    cases step with
    | failure err => rfl
    | file path results =>
      simp only [WalkStep.items, WalkStep.objects, ← flatMap_toList]
      induction results with
      | nil => rfl
      | cons pr rest ih => simp [List.flatMap_cons, WalkItem.objects, ih]
  have hsteps : ∀ steps : List WalkStep,
      (steps.flatMap WalkStep.items).flatMap WalkItem.objects =
        steps.flatMap WalkStep.objects := by
    intro steps
    induction steps with
    | nil => rfl
    | cons step rest ih => simp [List.flatMap_cons, List.flatMap_append, hstep, ih]
  simp only [walkItems, parsedObjects]
  induction paths with
  | nil => rfl
  | cons basePath rest ih => simp [List.flatMap_cons, List.flatMap_append, hsteps, ih]

/-- No item is in error exactly when no walk fails and no parse result is in error. -/
theorem walkItems_clean (walk : String → List WalkStep) (paths : List String) :
    (walkItems walk paths).all WalkItem.clean = cleanPaths walk paths := by
  have hstep : ∀ step : WalkStep, step.items.all WalkItem.clean = step.clean := by
    intro step
    cases step with
    | failure err => rfl
    | file path results =>
      simp only [WalkStep.items, WalkStep.clean]
      induction results with
      | nil => rfl
      | cons pr rest ih => simp [List.all_cons, WalkItem.clean, ih]
  have hsteps : ∀ steps : List WalkStep,
      (steps.flatMap WalkStep.items).all WalkItem.clean = steps.all WalkStep.clean := by
    intro steps
    induction steps with
    | nil => rfl
    | cons step rest ih => simp [List.flatMap_cons, List.all_append, hstep, ih]
  simp only [walkItems, cleanPaths]
  induction paths with
  | nil => rfl
  | cons basePath rest ih => simp [List.flatMap_cons, List.all_append, hsteps, ih]

/-- C30 (counterexample): the file `c/broken.yaml` parses to the cluster workflow template
`build`, a parse error, and a second cluster workflow template `build`. Two parsed cluster
workflow templates share a name, and `newOfflineClient` returns the parse error, not a
duplicate error. -/
theorem newOfflineClient_parse_error_before_duplicate :
    parsedObjects sampleWalk ["c"] =
      [ParsedObject.clusterWorkflowTemplate { Name := "build", Spec := "1" },
       ParsedObject.clusterWorkflowTemplate { Name := "build", Spec := "2" }] ∧
    newOfflineClient sampleWalk ["c"] =
      Except.error (OfflineError.parse "c/broken.yaml"
        "yaml: line 3: mapping values are not allowed in this context") ∧
    (OfflineError.parse "c/broken.yaml"
      "yaml: line 3: mapping values are not allowed in this context").isDuplicate = false :=
  ⟨by decide, rfl, rfl⟩

/-- C30 (amended): whenever two cluster workflow templates parsed from the given paths share
a name, or two workflow templates share namespace and name, in the same file, in different
files or under different paths, `newOfflineClient` returns an error and no client. The error is
"duplicate ClusterWorkflowTemplate found" or "duplicate WorkflowTemplate found" whenever no
parse result in error and no failure of a walk is met before the second of two colliding
templates, whatever follows it: the duplicate error of that template, with its name, when it
is the first to collide. A parse error or a failure of a walk that is met before any collision
is returned instead. Two workflow templates of the same name in different namespaces do not
collide: with no failure, no parse error and no collision the client is returned. -/
theorem newOfflineClient_duplicates (walk : String → List WalkStep) (paths : List String) :
    (∀ before a between b after,
      parsedObjects walk paths = before ++ a :: (between ++ b :: after) → SameKey a b →
      ∃ e, newOfflineClient walk paths = Except.error e) ∧
    (∀ pre path pr post a b,
      walkItems walk paths = pre ++ WalkItem.result path pr :: post →
      pre.all WalkItem.clean = true → pr.Err = none → pr.Object = some b →
      a ∈ pre.flatMap WalkItem.objects → SameKey a b →
      (∃ name, newOfflineClient walk paths =
            Except.error (OfflineError.duplicateClusterWorkflowTemplate name) ∨
          newOfflineClient walk paths =
            Except.error (OfflineError.duplicateWorkflowTemplate name)) ∧
      (NoDuplicates (pre.flatMap WalkItem.objects) →
        (∀ v, b = ParsedObject.clusterWorkflowTemplate v →
          newOfflineClient walk paths =
            Except.error (OfflineError.duplicateClusterWorkflowTemplate v.Name)) ∧
        (∀ v, b = ParsedObject.workflowTemplate v →
          newOfflineClient walk paths =
            Except.error (OfflineError.duplicateWorkflowTemplate v.Name)))) ∧
    (∀ pre item post e,
      walkItems walk paths = pre ++ item :: post →
      pre.all WalkItem.clean = true → NoDuplicates (pre.flatMap WalkItem.objects) →
      item.error = some e →
      newOfflineClient walk paths = Except.error e) ∧
    (cleanPaths walk paths = true → NoDuplicates (parsedObjects walk paths) →
      ∃ c, newOfflineClient walk paths = Except.ok c) ∧
    (walkItems walk paths).flatMap WalkItem.objects = parsedObjects walk paths ∧
    (walkItems walk paths).all WalkItem.clean = cleanPaths walk paths ∧
    (∀ a b : WorkflowTemplate, a.Namespace ≠ b.Namespace →
      ¬ SameKey (ParsedObject.workflowTemplate a) (ParsedObject.workflowTemplate b)) ∧
    (∀ a b : ClusterWorkflowTemplate,
      SameKey (ParsedObject.clusterWorkflowTemplate a) (ParsedObject.clusterWorkflowTemplate b) ↔
        a.Name = b.Name) ∧
    (∀ a b : WorkflowTemplate,
      SameKey (ParsedObject.workflowTemplate a) (ParsedObject.workflowTemplate b) ↔
        (a.Namespace = b.Namespace ∧ a.Name = b.Name)) ∧
    (∀ name, ∃ quoted, (OfflineError.duplicateClusterWorkflowTemplate name).message =
      "duplicate ClusterWorkflowTemplate found: " ++ quoted) ∧
    (∀ name, ∃ quoted, (OfflineError.duplicateWorkflowTemplate name).message =
      "duplicate WorkflowTemplate found: " ++ quoted) := by
  have ho := newOfflineClient_outcome walk paths
  refine ⟨?_, ?_, ?_, ?_, walkItems_objects walk paths, walkItems_clean walk paths, ?_,
    fun _ _ => Iff.rfl, fun _ _ => Iff.rfl, fun name => ⟨goQuote name, rfl⟩,
    fun name => ⟨goQuote name, rfl⟩⟩
  · intro before a between b after hsplit hk
    have hdup : ¬ NoDuplicates (parsedObjects walk paths) := by
      rw [hsplit]
      exact not_noDuplicates before a between b after hk
    cases hr : newOfflineClient walk paths with
    | ok c =>
      rw [hr] at ho
      simp only [Outcome, List.nil_append] at ho
      exact absurd ho.1.2.2.2 hdup
    | error e => exact ⟨e, rfl⟩
  · intro pre path pr post a b hsplit hclean herr hobj ha hk
    have hpre := items_outcome pre
    rw [newOfflineClient_eq_items, hsplit]
    cases hr : forExcept processItem {} pre with
    | error e =>
      rw [hr] at hpre
      simp only [Outcome, hclean, List.nil_append] at hpre
      rcases hpre with h | ⟨hd, hn⟩
      · cases h
      · rw [forExcept_append_error processItem pre _ {} e hr]
        refine ⟨?_, fun hno => absurd hno hn⟩
        cases e with
        | duplicateClusterWorkflowTemplate name => exact ⟨name, Or.inl rfl⟩
        | duplicateWorkflowTemplate name => exact ⟨name, Or.inr rfl⟩
        | parse p err => cases hd
        | walk err => cases hd
        | workflowTemplateNotFound n ns => cases hd
        | clusterWorkflowTemplateNotFound n => cases hd
    | ok c =>
      rw [hr] at hpre
      simp only [Outcome, List.nil_append] at hpre
      rw [forExcept_append_ok processItem pre _ {} c hr]
      have hstep := processResult_outcome path c _ pr hpre.1
      cases hp : processResult path c pr with
      | ok c2 =>
        rw [hp] at hstep
        simp only [Outcome, hobj, Option.toList] at hstep
        have hno := (noDuplicates_append_singleton _ _).mp hstep.1.2.2.2
        exact absurd hk (hno.2 a ha)
      | error e =>
        have hres : forExcept processItem c (WalkItem.result path pr :: post) =
            Except.error e := by
          simp only [forExcept, processItem, hp]
        rw [hres]
        obtain ⟨h1, h2⟩ := processResult_error path c pr b e herr hobj hp
        refine ⟨?_, fun _ => ⟨fun v hv => by rw [h1 v hv], fun v hv => by rw [h2 v hv]⟩⟩
        cases b with
        | clusterWorkflowTemplate v => exact ⟨v.Name, Or.inl (by rw [h1 v rfl])⟩
        | workflowTemplate v => exact ⟨v.Name, Or.inr (by rw [h2 v rfl])⟩
        | other n ns => cases a <;> exact False.elim hk
  · intro pre item post e hsplit hclean hno herr
    have hpre := items_outcome pre
    rw [newOfflineClient_eq_items, hsplit]
    cases hr : forExcept processItem {} pre with
    | error e2 =>
      rw [hr] at hpre
      simp only [Outcome, hclean, List.nil_append] at hpre
      rcases hpre with h | ⟨_, hn⟩
      · cases h
      · exact absurd hno hn
    | ok c =>
      rw [forExcept_append_ok processItem pre _ {} c hr]
      cases item with
      | failure err =>
        simp only [WalkItem.error] at herr
        injection herr with herr
        simp only [forExcept, processItem, herr]
      | result path pr =>
        simp only [WalkItem.error] at herr
        cases hE : pr.Err with
        | none => rw [hE] at herr; cases herr
        | some err =>
          rw [hE] at herr
          simp only [Option.map] at herr
          injection herr with herr
          simp only [forExcept, processItem, processResult, hE, herr]
  · intro hclean hno
    cases hr : newOfflineClient walk paths with
    | ok c => exact ⟨c, rfl⟩
    | error e =>
      rw [hr] at ho
      simp only [Outcome, List.nil_append, hclean] at ho
      rcases ho with h | ⟨_, hn⟩
      · cases h
      · exact absurd hno hn
  · intro a b hne hk
    exact hne hk.1

/-- Witness of C30 (amended): under the paths `e`, `f` of the second sample walk the cluster
workflow template `build` is parsed twice, then comes a parse error, and the walk of `f` fails:
nothing in error is met before the second `build`, and the error is the duplicate error. -/
theorem newOfflineClient_duplicates_witness :
    walkItems lateErrorWalk ["e", "f"] =
      [WalkItem.result "e/templates.yaml"
         { Object := some (ParsedObject.clusterWorkflowTemplate
             { Name := "build", Spec := "1" }) },
       WalkItem.result "e/templates.yaml"
         { Object := some (ParsedObject.clusterWorkflowTemplate
             { Name := "build", Spec := "2" }) },
       WalkItem.result "e/templates.yaml"
         { Err := some "yaml: line 9: did not find expected key" },
       WalkItem.failure "lstat f: no such file or directory"] ∧
    newOfflineClient lateErrorWalk ["e", "f"] =
      Except.error (OfflineError.duplicateClusterWorkflowTemplate "build") :=
  ⟨by decide,
   (((newOfflineClient_duplicates lateErrorWalk ["e", "f"]).2.1
      [WalkItem.result "e/templates.yaml"
         { Object := some (ParsedObject.clusterWorkflowTemplate
             { Name := "build", Spec := "1" }) }]
      "e/templates.yaml"
      { Object := some (ParsedObject.clusterWorkflowTemplate { Name := "build", Spec := "2" }) }
      [WalkItem.result "e/templates.yaml"
         { Err := some "yaml: line 9: did not find expected key" },
       WalkItem.failure "lstat f: no such file or directory"]
      (ParsedObject.clusterWorkflowTemplate { Name := "build", Spec := "1" })
      (ParsedObject.clusterWorkflowTemplate { Name := "build", Spec := "2" })
      (by decide) rfl rfl rfl (by decide) rfl).2
      (List.pairwise_singleton _ _)).1 { Name := "build", Spec := "2" } rfl⟩

/-- The first sample walk: under the paths `a`, `b`, `d` the workflow template `argo/build` is
parsed twice, from different paths, and the error is the duplicate error; under `a`, `b` alone
the two templates `build` of the namespaces `argo` and `ci` are both accepted. -/
theorem newOfflineClient_sampleWalk :
    newOfflineClient sampleWalk ["a", "b", "d"] =
      Except.error (OfflineError.duplicateWorkflowTemplate "build") ∧
    ∃ c, newOfflineClient sampleWalk ["a", "b"] = Except.ok c :=
  ⟨rfl, ⟨_, rfl⟩⟩

end Argo
